import Mathlib

/-!
# ISIS: XSPEC grid translation and the fit-function registry

A shallow embedding of `modules/xspec/src/xspec-module.c` (grid translator and
foreign-call adapter) and of `src/fit-functions.c` (fit-function registry).

Modelling conventions.

* A C `double` that is stored or passed on is a rational number and the
  arithmetic that produces it is exact.  Division by zero follows the convention
  of `ℚ` (`x / 0 = 0`).  The locals `diff` and `avg` of the gap test of `MAKE_XG`
  and the product `TOL * avg` are computed in `double` (type `Double`): every
  operation is rounded to nearest, overflows to an infinity and underflows to
  zero, because this decides how many bins the grid has.
* The macros `MAKE_XG(s,type)` and `EVAL_XF(s,type)` are functions of the
  conversion `type : ℚ → ℚ` performed by the cast `(type)`; the
  double-precision instances use the identity.
* Memory owned by the caller and reached through a pointer (`bin_lo`, `bin_hi`,
  `notice_list`, `val`, `param`) is a map from offsets to values.  A `NULL`
  pointer is `none`.
* A block allocated by the code itself is a list whose length is the allocated
  number of elements; a store `a[k] = v` is `List.set`, a load `a[k]` is
  `List.getD`.  Allocation is assumed to succeed.  The contents of a fresh
  `ISIS_MALLOC` block are unspecified and are supplied by `Raw_Memory`.
* A `for` loop with a fixed bound is a left fold over the list of its indices.
* The registry `Fit_Fun` is the list of its descriptors, the sentinel first; a
  routine that changes it returns the list afterwards and the descriptors it
  passed to `free_fit_fun`.  A session is a list of `Registry_Op`.
* A C string is the list of its characters before the terminating null
  character; `int` values that cannot overflow are integers.
* A call into the interpreter or into a routine behind a function pointer
  (`SLexecute_function`, `SLang_load_string`, `make_fitfun_of_type`,
  `s.unbinned`) is a parameter that gives the outcome of the call; the calls made
  are listed in the result.  The conversion `(float)` is the parameter `float`.
-/

namespace Isis

/-! ## Constants (xspec-module.c, lines 83-88) -/

/-- Planck's constant (erg s). -/
def PLANCK : ℚ := 6.62606876e-27

/-- Speed of light (cm/s). -/
def CLIGHT : ℚ := 2.99792458e10

/-- Conversion factor erg per eV. -/
def ERG_PER_EV : ℚ := 1.602176462e-12

/-- Conversion constant between keV and Angstrom. -/
def KEV_ANGSTROM : ℚ := ((PLANCK * CLIGHT) / (ERG_PER_EV * 1e3)) * 1e8

/-- Smallest positive normalised single-precision value, `2^-126` (float.h). -/
def FLT_MIN : ℚ := 1 / 2 ^ 126

/-- Relative tolerance of the gap test. -/
def TOL : ℚ := 10 * FLT_MIN

/-! ## Double-precision arithmetic of the gap test

The operands `bin_lo[n1]`, `bin_hi[n0]` of the gap test are finite values; the
locals `diff`, `avg` and the product `TOL * avg` are computed in `double`
(IEEE 754 binary64, round to nearest, ties to even), where a result can
overflow to an infinity or underflow to zero. -/

/-- A value of type `double` computed from finite operands: a rational
number, `+inf` (`⊤`) or `-inf` (`⊥`). -/
abbrev Double := WithBot (WithTop ℚ)

/-- Number of binary digits of `n`, for `fuel` at least that number. -/
def bit_length : Nat → Nat → Nat
  | 0, _ => 0
  | fuel + 1, n => if n = 0 then 0 else bit_length fuel (n / 2) + 1

/-- The binary exponent of `x ≠ 0`: the integer `e` with `2^e ≤ |x| < 2^(e+1)`. -/
def ilog2 (x : ℚ) : Int :=
  let e : Int := (bit_length x.num.natAbs x.num.natAbs : Int) - (bit_length x.den x.den : Int)
  if (2 : ℚ) ^ e ≤ |x| then e else e - 1

/-- The integer nearest to `y`, the even one of the two when `y` lies halfway. -/
def round_even (y : ℚ) : Int :=
  if y - ⌊y⌋ < 1 / 2 then ⌊y⌋
  else if y - ⌊y⌋ > 1 / 2 then ⌊y⌋ + 1
  else if ⌊y⌋ % 2 = 0 then ⌊y⌋ else ⌊y⌋ + 1

/-- The `double` nearest to the exact result `x` of an operation: `x` is
rounded to a multiple of `2^(e-52)`, where `e` is the binary exponent of `x`
and at least `-1022` (below `2^-1022` the spacing stays `2^-1074`, so tiny
results round to zero); a rounded magnitude of `2^1024` or more is an
infinity. -/
def double_round (x : ℚ) : Double :=
  let q : ℚ := 2 ^ (max (ilog2 x) (-1022) - 52)
  let r : ℚ := round_even (x / q) * q
  if r ≥ 2 ^ 1024 then ⊤
  else if r ≤ -2 ^ 1024 then ⊥
  else ((r : WithTop ℚ) : WithBot (WithTop ℚ))

/-- The difference `a - b` of two finite values, in `double`. -/
def double_sub (a b : ℚ) : Double := double_round (a - b)

/-- The sum `a + b` of two finite values, in `double`. -/
def double_add (a b : ℚ) : Double := double_round (a + b)

/-- C library function `fabs`. -/
def fabs (x : Double) : Double :=
  match x with
  | none => ⊤
  | some none => ⊤
  | some (some v) => (((|v| : ℚ) : WithTop ℚ) : WithBot (WithTop ℚ))

/-- The product `c * x` in `double` of a finite constant `c > 0` (here `0.5`
and `TOL`) and a value `x`. -/
def double_mul (c : ℚ) (x : Double) : Double :=
  match x with
  | none => ⊥
  | some none => ⊤
  | some (some v) => double_round (c * v)

/-! ## Data model -/

/-- The fields of `Isis_Hist_t` read by the grid translator. -/
structure Isis_Hist_t where
  bin_lo : Int → ℚ
  bin_hi : Int → ℚ
  notice_list : Option (Int → Int)
  n_notice : Int

/-- The synthetic grid handed to an XSPEC routine. -/
structure Xspec_Info_Type where
  ebins : List ℚ
  photar : List ℚ
  keep : List Int
  nbins : Int

/-- The invocation record of an XSPEC routine. -/
structure Xspec_Param_t where
  ear : List ℚ
  param : Int → ℚ
  photar : List ℚ
  photer : List ℚ
  ne : Int
  ifl : Int
  filename : Option String

/-- An external routine: it receives the invocation record and may overwrite
the buffers the record points to. -/
abbrev Xspec_Fun_t := Xspec_Param_t → Xspec_Param_t

/-- Unspecified contents of the uninitialised blocks returned by `ISIS_MALLOC`
in `NEW_XIT`. -/
structure Raw_Memory where
  ebins : Nat → ℚ
  keep : Nat → Int

/-- The indices visited by `for (i = lo; i < hi; i++)`. -/
def loop_range (lo hi : Int) : List Int :=
  (List.range (hi - lo).toNat).map (fun (j : Nat) => lo + (j : Int))

/-! ## Grid translator -/

/-- Function `new_##s##_xspec_info_type` of `NEW_XIT`: `ebins` has `nbins+1`
elements, `photar` is zeroed by `memset`, `keep` is uninitialised. -/
def new_xspec_info_type (raw : Raw_Memory) (nbins : Int) : Option Xspec_Info_Type :=
  if nbins ≤ 0 then none
  else some
    { ebins := (List.range (nbins + 1).toNat).map raw.ebins
      photar := List.replicate nbins.toNat 0
      keep := (List.range nbins.toNat).map raw.keep
      nbins := nbins }

/-- Local `diff` of both loops of `MAKE_XG` for the pair `(i-1, i)`:
`double diff = fabs (bin_lo[n1] - bin_hi[n0])`. -/
def pair_diff (g : Isis_Hist_t) (notice_list : Int → Int) (i : Int) : Double :=
  fabs (double_sub (g.bin_lo (notice_list i)) (g.bin_hi (notice_list (i - 1))))

/-- Local `avg` of both loops of `MAKE_XG` for the pair `(i-1, i)`:
`double avg = 0.5 * fabs (bin_lo[n1] + bin_hi[n0])`. -/
def pair_avg (g : Isis_Hist_t) (notice_list : Int → Int) (i : Int) : Double :=
  double_mul 0.5 (fabs (double_add (g.bin_lo (notice_list i)) (g.bin_hi (notice_list (i - 1)))))

/-- Body of the counting loop (lines 220-227):
`nbins += ((diff < TOL * avg) ? 1 : 2)`, the product and the comparison taken
in `double`. -/
def count_step (g : Isis_Hist_t) (notice_list : Int → Int) (nbins : Int) (i : Int) : Int :=
  nbins + (if pair_diff g notice_list i < double_mul TOL (pair_avg g notice_list i) then 1 else 2)

/-- The variables modified by the emitting loop of `MAKE_XG`. -/
structure Emit_State where
  k : Int
  ebins : List ℚ
  keep : List Int

/-- Body of the emitting loop (lines 240-257); the test `diff > TOL * avg` is
taken in `double`. -/
def emit_step (type : ℚ → ℚ) (g : Isis_Hist_t) (notice_list : Int → Int)
    (s : Emit_State) (i : Int) : Emit_State :=
  let n1 := notice_list i
  let n0 := notice_list (i - 1)
  let k := s.k - 1
  let ebins := s.ebins.set k.toNat (type (type KEV_ANGSTROM / g.bin_hi n0))
  let keep := s.keep.set k.toNat 1
  if pair_diff g notice_list i > double_mul TOL (pair_avg g notice_list i) then
    let k := k - 1
    { k := k
      ebins := ebins.set k.toNat (type (type KEV_ANGSTROM / g.bin_lo n1))
      keep := keep.set k.toNat 0 }
  else
    { k := k, ebins := ebins, keep := keep }

/-- Function `make_##s##_xspec_grid` of `MAKE_XG(s,type)` (lines 193-273). -/
def MAKE_XG (type : ℚ → ℚ) (raw : Raw_Memory) (g : Option Isis_Hist_t) :
    Option Xspec_Info_Type :=
  match g with
  | none => none
  | some g =>
    match g.notice_list with
    | none => none
    | some notice_list =>
      if g.n_notice < 1 then none
      else
        let nbins := (loop_range 1 g.n_notice).foldl (count_step g notice_list) 1
        match new_xspec_info_type raw nbins with
        | none => none
        | some x =>
          let n := notice_list 0
          let k := nbins
          let ebins := x.ebins.set k.toNat (type (type KEV_ANGSTROM / g.bin_lo n))
          let s := (loop_range 1 g.n_notice).foldl (emit_step type g notice_list)
            { k := k, ebins := ebins, keep := x.keep }
          let k := s.k - 1
          if k ≠ 0 then none
          else
            let n := notice_list (g.n_notice - 1)
            some
              { x with
                ebins := s.ebins.set k.toNat (type (type KEV_ANGSTROM / g.bin_hi n))
                keep := s.keep.set k.toNat 1 }

/-- Instance `MAKE_XG(d,double)`. -/
def make_d_xspec_grid (raw : Raw_Memory) (g : Option Isis_Hist_t) : Option Xspec_Info_Type :=
  MAKE_XG id raw g

/-! ## Foreign-call adapter -/

/-- The observable outcome of `eval_##s##_xspec_fun`: the return value, the
caller's `val` array afterwards, and the invocation records with which the
external routine was called, in order. -/
structure Eval_Result where
  ret : Int
  val : Int → ℚ
  calls : List Xspec_Param_t

/-- The variables modified by the seeding loop (lines 311-316). -/
structure Seed_State where
  k : Int
  photar : List ℚ

/-- Body of the seeding loop: `if (x->keep[i]) x->photar.s[i] = (type) val[--k]`. -/
def seed_step (type : ℚ → ℚ) (keep : List Int) (val : Int → ℚ)
    (s : Seed_State) (i : Int) : Seed_State :=
  if keep.getD i.toNat 0 ≠ 0 then
    let k := s.k - 1
    { k := k, photar := s.photar.set i.toNat (type (val k)) }
  else s

/-- The variables modified by the unpacking loop (lines 324-329). -/
structure Unpack_State where
  k : Int
  val : Int → ℚ

/-- Body of the unpacking loop:
`if (x->keep[i]) val[--k] = (double) (norm * x->photar.s[i])`. -/
def unpack_step (type : ℚ → ℚ) (keep : List Int) (photar : List ℚ) (norm : ℚ)
    (s : Unpack_State) (i : Int) : Unpack_State :=
  if keep.getD i.toNat 0 ≠ 0 then
    let k := s.k - 1
    { k := k, val := Function.update s.val k (type (norm * photar.getD i.toNat 0)) }
  else s

/-- Function `eval_##s##_xspec_fun` of `EVAL_XF(s,type)` (lines 287-340).
`ISIS_FUN_OPERATOR` (isis.h) and the global `Table_Model_Filename` are
parameters.  `call_xspec_fun` applies the routine to the record; the routine
writes through `p.photar`, which aliases `x->photar`. -/
def EVAL_XF (type : ℚ → ℚ) (ISIS_FUN_OPERATOR : Int) (Table_Model_Filename : Option String)
    (raw : Raw_Memory) (fn : Xspec_Fun_t) (val : Int → ℚ) (g : Option Isis_Hist_t)
    (param : Int → ℚ) (norm : ℚ) (category : Int) : Eval_Result :=
  match g, MAKE_XG type raw g with
  | some g, some x =>
    let photar :=
      if category = ISIS_FUN_OPERATOR then
        ((loop_range 0 x.nbins).foldl (seed_step type x.keep val)
          { k := g.n_notice, photar := x.photar }).photar
      else x.photar
    let p : Xspec_Param_t :=
      { ear := x.ebins
        param := param
        photar := photar
        photer := List.replicate x.nbins.toNat 0
        ne := x.nbins
        ifl := 0
        filename := Table_Model_Filename }
    let p1 := fn p
    let s := (loop_range 0 x.nbins).foldl (unpack_step type x.keep p1.photar norm)
      { k := g.n_notice, val := val }
    if s.k = 0 then { ret := 0, val := s.val, calls := [p] }
    else { ret := -1, val := s.val, calls := [p] }
  | _, _ => { ret := -1, val := val, calls := [] }

/-- Instance `EVAL_XF(d,double)`. -/
def eval_d_xspec_fun (ISIS_FUN_OPERATOR : Int) (Table_Model_Filename : Option String)
    (raw : Raw_Memory) (fn : Xspec_Fun_t) (val : Int → ℚ) (g : Option Isis_Hist_t)
    (param : Int → ℚ) (norm : ℚ) (category : Int) : Eval_Result :=
  EVAL_XF id ISIS_FUN_OPERATOR Table_Model_Filename raw fn val g param norm category

/-! ## Fit-function registry (fit-functions.c) -/

/-- Largest value of `unsigned int` (limits.h), for a 32-bit `unsigned int`. -/
def UINT_MAX : Nat := 2 ^ 32 - 1

/-- The routines a descriptor's `destroy_fun` pointer is set to (lines 270-284,
342, 745). -/
inductive Destroy_Fun where
  | default_destroy_fun
  | slangfun_destroy_fun
  deriving DecidableEq

/-- Modelled from the spec: the declaration of `Fit_Fun_t` (fit.h) is not among
the sources; these are the fields the registry code reads and writes.  `name[0]`
is the function name and `name[1..]` are the parameter names.  `fun_type` is an
`unsigned int` (it is compared with `UINT_MAX` and with the `unsigned int`
argument of `find_fit_fun`).  `fun_version` is the "monotonically increasing
version counter" of the spec, a natural number.  `function_exit` is the hook
`s.function_exit`, a function pointer identified by a number, `none` when
`NULL`; so are the script functions `fun.sl`, `slangfun_diff_eval` and
`slangfun_param_default` and the native routine `s.unbinned`.  The `next`
pointer is the position in the list that models the registry. -/
structure Fit_Fun_t where
  name : List String
  unit : List String
  nparams : Nat
  fun_type : Nat
  fun_version : Nat
  category : Int
  function_exit : Option Nat
  destroy_fun : Destroy_Fun
  fun_sl : Option Nat
  slangfun_diff_eval : Option Nat
  slangfun_param_default : Option Nat
  unbinned : Option Nat
  deriving DecidableEq

/-- The function name `ff->name[0]`. -/
def Fit_Fun_t.fun_name (ff : Fit_Fun_t) : String := ff.name.getD 0 ""

/-- Function `new_fit_fun` (lines 306-345): all names and units are empty strings,
`fun_type = 0`, `fun_version = 1`; the other fields are zeroed by `memset`,
except the category, set to `ISIS_FUN_ADDMUL` (isis.h), a parameter here. -/
def new_fit_fun (ISIS_FUN_ADDMUL : Int) (num_args : Nat) : Fit_Fun_t :=
  { name := List.replicate (num_args + 1) ""
    unit := List.replicate num_args ""
    nparams := 0
    fun_type := 0
    fun_version := 1
    category := ISIS_FUN_ADDMUL
    function_exit := none
    destroy_fun := Destroy_Fun.default_destroy_fun
    fun_sl := none
    slangfun_diff_eval := none
    slangfun_param_default := none
    unbinned := none }

/-- The outcome of `append_fit_fun`: the return value, the list reachable from
`head` afterwards, and the descriptors passed to `free_fit_fun`, in order. -/
structure Append_Result where
  ret : Int
  table : List Fit_Fun_t
  freed : List Fit_Fun_t
  deriving DecidableEq

/-- The loop of `append_fit_fun` (lines 418-435) standing at node `ff`, whose
successors are `rest`: it returns the list from `ff` on and the descriptors
freed.  A successor with the name of `pf` is replaced by `pf`, which takes over
its `fun_type` and gets its `fun_version + 1`; at the tail `pf` is linked in
with `fun_type = ff->fun_type + 1` in `unsigned int` arithmetic. -/
def append_walk (pf : Fit_Fun_t) : Fit_Fun_t → List Fit_Fun_t → List Fit_Fun_t × List Fit_Fun_t
  | ff, [] => ([ff, { pf with fun_type := (ff.fun_type + 1) % (UINT_MAX + 1) }], [])
  | ff, nxt :: rest =>
    if nxt.fun_name = pf.fun_name then
      (ff :: { pf with fun_type := nxt.fun_type, fun_version := nxt.fun_version + 1 } :: rest,
        [nxt])
    else
      (ff :: (append_walk pf nxt rest).1, (append_walk pf nxt rest).2)

/-- Function `append_fit_fun` (lines 411-438).  The list `head` is the chain of
descriptors starting at the sentinel; the empty list is a `NULL` head.  `pf` is
a single descriptor (`pf->next` is `NULL`, as `new_fit_fun` leaves it). -/
def append_fit_fun (pf : Option Fit_Fun_t) (head : List Fit_Fun_t) : Append_Result :=
  match pf, head with
  | some pf, ff :: rest =>
    { ret := 0, table := (append_walk pf ff rest).1, freed := (append_walk pf ff rest).2 }
  | _, _ => { ret := -1, table := head, freed := [] }

/-- The state of `Fit_Fun` after `init_fun_table` (lines 442-452) on an empty
table: the sentinel alone, with `fun_type = UINT_MAX`. -/
def init_fun_table (ISIS_FUN_ADDMUL : Int) : List Fit_Fun_t :=
  [{ new_fit_fun ISIS_FUN_ADDMUL 0 with fun_type := UINT_MAX }]

/-- A call made by `free_fit_fun`: the hook `function_exit` of the descriptor, or
its `destroy_fun` applied to the descriptor. -/
inductive Teardown_Call where
  | function_exit (hook : Nat)
  | destroy_fun (f : Destroy_Fun) (ff : Fit_Fun_t)
  deriving DecidableEq

/-- Function `free_fit_fun` (lines 290-302): the calls it makes, in order.  It
returns at once on `NULL`; otherwise it calls `function_exit` when that is set
and then `destroy_fun`. -/
def free_fit_fun (ff : Option Fit_Fun_t) : List Teardown_Call :=
  match ff with
  | none => []
  | some ff =>
    (match ff.function_exit with
      | some hook => [Teardown_Call.function_exit hook]
      | none => [])
    ++ [Teardown_Call.destroy_fun ff.destroy_fun ff]

/-- Function `find_fit_fun` (lines 396-407): the first descriptor of the chain
`head`, the sentinel included, whose `fun_type` equals the argument; `none` is
`NULL`. -/
def find_fit_fun (fun_type : Nat) : List Fit_Fun_t → Option Fit_Fun_t
  | [] => none
  | ff :: rest => if ff.fun_type = fun_type then some ff else find_fit_fun fun_type rest

/-- Function `Fit_get_fit_fun` (lines 472-475): the `int` argument is converted
to the `unsigned int` parameter of `find_fit_fun`, which is reduction modulo
`UINT_MAX + 1`. -/
def Fit_get_fit_fun (fun_type : Int) (Fit_Fun : List Fit_Fun_t) : Option Fit_Fun_t :=
  find_fit_fun (fun_type % ((UINT_MAX : Int) + 1)).toNat Fit_Fun

/-- Conversion of an `unsigned int` value to `int` (two's complement). -/
def uint_to_int (t : Nat) : Int :=
  if t < 2 ^ 31 then (t : Int) else (t : Int) - ((UINT_MAX : Int) + 1)

/-- Function `Fit_get_fun_type` (lines 381-392): the `fun_type`, as an `int`, of
the first descriptor of the chain whose name is `name`, or -1. -/
def Fit_get_fun_type (name : String) : List Fit_Fun_t → Int
  | [] => -1
  | ff :: rest => if name = ff.fun_name then uint_to_int ff.fun_type
      else Fit_get_fun_type name rest

/-- The outcome of `del_function`: the list reachable from `Fit_Fun` afterwards
and the descriptors passed to `free_fit_fun`, in order. -/
structure Del_Result where
  table : List Fit_Fun_t
  freed : List Fit_Fun_t
  deriving DecidableEq

/-- The loop of `del_function` (lines 505-514) standing at a node whose
successors are `rest`: the successors afterwards and the descriptors freed.  The
first successor named `fun_name` is unlinked and freed. -/
def del_walk (fun_name : String) : List Fit_Fun_t → List Fit_Fun_t × List Fit_Fun_t
  | [] => ([], [])
  | nxt :: rest =>
    if nxt.fun_name = fun_name then (rest, [nxt])
    else (nxt :: (del_walk fun_name rest).1, (del_walk fun_name rest).2)

/-- Function `del_function` (lines 498-515) on the chain `Fit_Fun`; a `NULL` name
is `none`. -/
def del_function (fun_name : Option String) (Fit_Fun : List Fit_Fun_t) : Del_Result :=
  match fun_name, Fit_Fun with
  | some n, ff :: rest =>
    { table := ff :: (del_walk n rest).1, freed := (del_walk n rest).2 }
  | _, _ => { table := Fit_Fun, freed := [] }

/-- The loop of `set_function_category` (lines 486-493): the first descriptor of
the chain named `fun_name`, the sentinel included, gets the category. -/
def set_category_walk (fun_name : String) (category : Int) : List Fit_Fun_t → List Fit_Fun_t
  | [] => []
  | ff :: rest =>
    if ff.fun_name = fun_name then { ff with category := category } :: rest
    else ff :: set_category_walk fun_name category rest

/-- Function `set_function_category` (lines 479-494); `category` is the value
`*category`. -/
def set_function_category (fun_name : Option String) (category : Int)
    (Fit_Fun : List Fit_Fun_t) : List Fit_Fun_t :=
  match fun_name with
  | none => Fit_Fun
  | some n => set_category_walk n category Fit_Fun

/-! ### Sequences of registry operations -/

/-- A call that changes the registry: `append_fit_fun (pf, Fit_Fun)` as made by
`add_function_of_type`, `del_function`, or `set_function_category`. -/
inductive Registry_Op where
  | add (pf : Fit_Fun_t)
  | del (fun_name : Option String)
  | set_category (fun_name : Option String) (category : Int)

/-- The chain `Fit_Fun` after one operation. -/
def registry_step (Fit_Fun : List Fit_Fun_t) : Registry_Op → List Fit_Fun_t
  | Registry_Op.add pf => (append_fit_fun (some pf) Fit_Fun).table
  | Registry_Op.del fun_name => (del_function fun_name Fit_Fun).table
  | Registry_Op.set_category fun_name category =>
    set_function_category fun_name category Fit_Fun

/-- The chain `Fit_Fun` after a sequence of operations. -/
def registry_run : List Registry_Op → List Fit_Fun_t → List Fit_Fun_t
  | [], Fit_Fun => Fit_Fun
  | op :: ops, Fit_Fun => registry_run ops (registry_step Fit_Fun op)

/-- The successive chains `Fit_Fun` during a sequence of operations, the
starting one first. -/
def registry_trace : List Registry_Op → List Fit_Fun_t → List (List Fit_Fun_t)
  | [], Fit_Fun => [Fit_Fun]
  | op :: ops, Fit_Fun => Fit_Fun :: registry_trace ops (registry_step Fit_Fun op)

/-- Whether the operation hands out a type id: it registers a descriptor whose
name no registered descriptor (sentinel excluded) carries. -/
def hands_out_id (Fit_Fun : List Fit_Fun_t) : Registry_Op → Bool
  | Registry_Op.add pf => Fit_Fun.tail.all (fun r => decide (r.fun_name ≠ pf.fun_name))
  | _ => false

/-- Number of type ids handed out during a sequence of operations. -/
def ids_handed_out : List Registry_Op → List Fit_Fun_t → Nat
  | [], _ => 0
  | op :: ops, Fit_Fun =>
    (if hands_out_id Fit_Fun op then 1 else 0) + ids_handed_out ops (registry_step Fit_Fun op)

/-- Whether the operation is a removal naming the registered descriptor that
stands last in the chain. -/
def removes_tail (Fit_Fun : List Fit_Fun_t) : Registry_Op → Bool
  | Registry_Op.del (some n) =>
    match Fit_Fun.tail.getLast? with
    | some r => decide (r.fun_name = n)
    | none => false
  | _ => false

/-- No operation of the sequence removes the descriptor standing last. -/
def no_tail_removal : List Registry_Op → List Fit_Fun_t → Bool
  | [], _ => true
  | op :: ops, Fit_Fun =>
    !removes_tail Fit_Fun op && no_tail_removal ops (registry_step Fit_Fun op)

/-- The type id the next new name gets when no increment wraps: 0 when no
function is registered, else the last registered descriptor's id + 1. -/
def next_id (Fit_Fun : List Fit_Fun_t) : Nat :=
  match Fit_Fun.tail.getLast? with
  | none => 0
  | some l => l.fun_type + 1

/-- The registry invariant: the chain starts with the sentinel, whose type id is
`UINT_MAX`; the registered descriptors have pairwise different names, type ids
strictly increasing along the chain, and all below `k`. -/
def Registry_Inv (Fit_Fun : List Fit_Fun_t) (k : Nat) : Prop :=
  ∃ sentinel regs, Fit_Fun = sentinel :: regs ∧ sentinel.fun_type = UINT_MAX ∧
    (regs.map Fit_Fun_t.fun_name).Nodup ∧
    (regs.map Fit_Fun_t.fun_type).Pairwise (· < ·) ∧
    ∀ r ∈ regs, r.fun_type < k

/-! ### Validation of names (fit-functions.c, lines 586-645) -/

/-- The predicate `isspace` of ctype.h in the "C" locale. -/
def isspace (c : Char) : Bool := c.toNat = 32 || (9 ≤ c.toNat && c.toNat ≤ 13)

/-- The predicate `iscntrl` of ctype.h in the "C" locale. -/
def iscntrl (c : Char) : Bool := c.toNat < 32 || c.toNat = 127

/-- The loop and the final test of `check_name_string` (lines 598-604) on the
characters not yet read; the end of the list is the terminating null
character.  The test `size-- > 0` is made only when a character is left, and
decrements `size` also when it fails. -/
def check_name_loop : List Char → Int → Int
  | [], size => if size < 0 then -1 else 0
  | c :: cs, size =>
    if size > 0 then
      if isspace c || iscntrl c then -1 else check_name_loop cs (size - 1)
    else if size - 1 < 0 then -1 else 0

/-- Function `check_name_string` (lines 586-605); a `NULL` string is `none`, and a
string is the list of its characters before the terminating null character. -/
def check_name_string (s : Option String) (size : Int) : Int :=
  match s with
  | none => -1
  | some s =>
    if s.data = [] then 0
    else if size - 1 < 1 then -1
    else check_name_loop s.data (size - 1)

/-- The loop of `check_new_function` (lines 623-639) standing at index `j` with
`nparams - j` iterations left, the first argument after the arrays.
`MAX_NAME_SIZE` is a positive constant, so the comparison with `strlen` is one
of integers. -/
def check_params_loop (MAX_NAME_SIZE : Int) (param_unit : Option (Int → Option String))
    (param_name : Int → Option String) : Nat → Int → Int
  | 0, _ => 0
  | n + 1, j =>
    if check_name_string (param_name j) MAX_NAME_SIZE = -1 then -1
    else
      match param_unit with
      | none => check_params_loop MAX_NAME_SIZE param_unit param_name n (j + 1)
      | some units =>
        match units j with
        | none => check_params_loop MAX_NAME_SIZE param_unit param_name n (j + 1)
        | some u =>
          if (u.length : Int) ≥ MAX_NAME_SIZE then -1
          else check_params_loop MAX_NAME_SIZE param_unit param_name n (j + 1)

/-- Function `check_new_function` (lines 609-645).  `MAX_NAME_SIZE` (isis.h) is a
parameter; the arrays `param_name` and `param_unit` are maps from indices to
strings, `none` for a `NULL` pointer. -/
def check_new_function (MAX_NAME_SIZE : Int) (fun_name : Option String) (nparams : Int)
    (param_name : Option (Int → Option String))
    (param_unit : Option (Int → Option String)) : Int :=
  match fun_name with
  | none => -1
  | some fun_name =>
    if nparams < 0 then -1
    else if check_name_string (some fun_name) MAX_NAME_SIZE = -1 then -1
    else
      match param_name with
      | none => 0
      | some names =>
        if nparams = 0 then 0
        else check_params_loop MAX_NAME_SIZE param_unit names nparams.toNat 0

/-! ### Registration (fit-functions.c, lines 567-927) -/

/-- The fields of `UDF_Info_Type` (lines 567-582) read by `set_slangfun_norms`
and `do_add_function`.  `sl_norm_ids` is the array of `unsigned int` norm
indices, `none` when `NULL`; `pnames` is the array of parameter names.  The
function pointer `make_fitfun_of_type` is passed beside the record. -/
structure UDF_Info_Type where
  sl_norm_ids : Option (List Nat)
  pnames : Int → String
  fun_name : Option String
  num : Nat

/-- Modelled from the spec: `isis_strcasecmp` (util.h) is not among the sources;
it compares two strings ignoring letter case and returns 0 when they are equal
that way.  The value returned for unequal strings is not used by the callers
beyond being non-zero. -/
def isis_strcasecmp (a b : String) : Int :=
  if a.data.map Char.toLower = b.data.map Char.toLower then 0 else 1

/-- The fields `num_norms` and `norm_indexes` of `*s` after `set_slangfun_norms`,
and its return value. -/
structure Norms_Result where
  ret : Int
  num_norms : Nat
  norm_indexes : Option (List Nat)
  deriving DecidableEq

/-- The loop `while (u_num-- > 0)` of `set_slangfun_norms` (lines 711-725) with
`u_num` iterations left: the index at which it breaks, `none` when it runs
out. -/
def norm_scan (pnames : Int → String) : Nat → Option Nat
  | 0 => none
  | u_num + 1 =>
    if isis_strcasecmp (pnames u_num) "norm" = 0 then some u_num
    else norm_scan pnames u_num

/-- Function `set_slangfun_norms` (lines 681-728).  Allocation is assumed to
succeed. -/
def set_slangfun_norms (u : UDF_Info_Type) : Norms_Result :=
  let by_name : Norms_Result :=
    match norm_scan u.pnames u.num with
    | some u_num => { ret := 0, num_norms := 1, norm_indexes := some [u_num] }
    | none => { ret := 0, num_norms := 0, norm_indexes := none }
  match u.sl_norm_ids with
  | none => by_name
  | some ids =>
    if ids.length > 0 ∧ ¬ ids.getD 0 0 = u.num then
      { ret := 0, num_norms := ids.length, norm_indexes := some ids }
    else by_name

/-- The outcome of `add_function_of_type` and of `do_add_function`: the value
returned (the pointer `pf`, or the `int`), the chain `Fit_Fun` afterwards and
the descriptors passed to `free_fit_fun`, in order. -/
structure Add_Result (α : Type) where
  ret : α
  table : List Fit_Fun_t
  freed : List Fit_Fun_t

/-- The descriptor `pf` as it stands in the chain after `append_fit_fun` linked
it in: the first descriptor after the head with its name. -/
def linked (pf : Fit_Fun_t) (table : List Fit_Fun_t) : Option Fit_Fun_t :=
  table.tail.find? (fun r => decide (r.fun_name = pf.fun_name))

/-- Function `add_function_of_type` (lines 860-880).  The function pointer
`u->make_fitfun_of_type` is the argument `make_fitfun_of_type`, `none` when
`NULL`. -/
def add_function_of_type
    (make_fitfun_of_type : Option (UDF_Info_Type → Option Fit_Fun_t))
    (u : Option UDF_Info_Type) (Fit_Fun : List Fit_Fun_t) : Add_Result (Option Fit_Fun_t) :=
  match u, make_fitfun_of_type with
  | some u, some make =>
    match make u with
    | none => { ret := none, table := Fit_Fun, freed := [] }
    | some pf =>
      if (append_fit_fun (some pf) Fit_Fun).ret ≠ 0 then
        { ret := none
          table := (append_fit_fun (some pf) Fit_Fun).table
          freed := (append_fit_fun (some pf) Fit_Fun).freed ++ [pf] }
      else
        { ret := linked pf (append_fit_fun (some pf) Fit_Fun).table
          table := (append_fit_fun (some pf) Fit_Fun).table
          freed := (append_fit_fun (some pf) Fit_Fun).freed }
  | _, _ => { ret := none, table := Fit_Fun, freed := [] }

/-- Function `wrap_mode_switch` (lines 893-905).  `SLang_load_string` (slang.h)
is a parameter: the result of loading the wrapper text made from the name and
the type id of the descriptor. -/
def wrap_mode_switch (SLang_load_string : String → Nat → Int) (ff : Option Fit_Fun_t) : Int :=
  match ff with
  | none => -1
  | some ff => SLang_load_string ff.fun_name ff.fun_type

/-- Function `do_add_function` (lines 909-927). -/
def do_add_function (SLang_load_string : String → Nat → Int)
    (make_fitfun_of_type : Option (UDF_Info_Type → Option Fit_Fun_t))
    (u : Option UDF_Info_Type) (Fit_Fun : List Fit_Fun_t) : Add_Result Int :=
  match (add_function_of_type make_fitfun_of_type u Fit_Fun).ret with
  | none =>
    { ret := -1
      table := (add_function_of_type make_fitfun_of_type u Fit_Fun).table
      freed := (add_function_of_type make_fitfun_of_type u Fit_Fun).freed }
  | some ff =>
    if wrap_mode_switch SLang_load_string (some ff) = -1 then
      { ret := -1
        table := (del_function (u.bind UDF_Info_Type.fun_name)
          (add_function_of_type make_fitfun_of_type u Fit_Fun).table).table
        freed := (add_function_of_type make_fitfun_of_type u Fit_Fun).freed ++
          (del_function (u.bind UDF_Info_Type.fun_name)
            (add_function_of_type make_fitfun_of_type u Fit_Fun).table).freed }
    else
      { ret := 0
        table := (add_function_of_type make_fitfun_of_type u Fit_Fun).table
        freed := (add_function_of_type make_fitfun_of_type u Fit_Fun).freed }

/-! ### Parameter defaults and evaluation methods (fit-functions.c, lines 92-266) -/

/-- The fields of `Isis_User_Grid_t` (isis.h) read by the unbinned evaluation
methods: the points `x` and their number. -/
structure Isis_User_Grid_t where
  x : Int → ℚ
  npts : Int

/-- A call of a script function through `SLexecute_function`: the function and
the arrays pushed as its argument list, in order. -/
structure Sl_Call where
  fn : Nat
  args : List (List ℚ)
  deriving DecidableEq

/-- The outcome of a script evaluation method: the return value, the script
calls made and the messages given to `isis_vmesg`. -/
structure Sl_Eval_Result where
  ret : Int
  calls : List Sl_Call
  messages : List String
  deriving DecidableEq

/-- Function `sl_diff_eval` (lines 232-266).  `SLexecute_function` is a
parameter: the return value of the call.  Array creation and the pushes are
assumed to succeed.  On the first path `isis_throw_exception` is called after
the message. -/
def sl_diff_eval (SLexecute_function : Sl_Call → Int) (ff : Fit_Fun_t)
    (ug : Isis_User_Grid_t) (par : Int → ℚ) : Sl_Eval_Result :=
  match ff.slangfun_diff_eval with
  | none =>
    { ret := -1
      calls := []
      messages := [ff.fun_name ++ " does not support this evaluation method"] }
  | some f =>
    let sl_par := (loop_range 0 ff.nparams).map par
    let sl_x := (loop_range 0 ug.npts).map ug.x
    if SLexecute_function { fn := f, args := [sl_x, sl_par] } = 1 then
      { ret := 0, calls := [{ fn := f, args := [sl_x, sl_par] }], messages := [] }
    else
      { ret := -1, calls := [{ fn := f, args := [sl_x, sl_par] }], messages := [] }

/-- A call of a native unbinned routine `(*ff->s.unbinned) (at->data, ug, par,
ff->nparams)`: the routine, the length of the result array, the grid, the
parameter vector and the parameter count. -/
structure Unbinned_Call where
  fn : Nat
  size : Int
  ug : Isis_User_Grid_t
  par : Int → ℚ
  nparams : Nat

/-- The outcome of `c_diff_eval`: the return value and the calls of the native
routine. -/
structure C_Eval_Result where
  ret : Int
  calls : List Unbinned_Call

/-- Function `c_diff_eval` (lines 168-185).  The native routine is a parameter:
the return value of its call.  Array creation and the push are assumed to
succeed. -/
def c_diff_eval (unbinned : Unbinned_Call → Int) (ff : Fit_Fun_t) (ug : Isis_User_Grid_t)
    (par : Int → ℚ) : C_Eval_Result :=
  match ff.unbinned with
  | none => { ret := -1, calls := [] }
  | some f =>
    if unbinned { fn := f, size := ug.npts, ug := ug, par := par, nparams := ff.nparams } = -1
    then
      { ret := -1
        calls := [{ fn := f, size := ug.npts, ug := ug, par := par, nparams := ff.nparams }] }
    else
      { ret := 0
        calls := [{ fn := f, size := ug.npts, ug := ug, par := par, nparams := ff.nparams }] }

/-- A call of the script function of a descriptor by `sl_bin_eval`: the
function, the grid whose noticed bins are pushed, the parameter array, and for
an operator the array popped from the stack. -/
structure Sl_Bin_Call where
  fn : Option Nat
  g : Isis_Hist_t
  par : List ℚ
  arg : Option (List ℚ)

/-- The outcome of `sl_bin_eval`: the return value and the script calls made. -/
structure Sl_Bin_Result where
  ret : Int
  calls : List Sl_Bin_Call

/-- Function `sl_bin_eval` (lines 189-230).  `ISIS_FUN_OPERATOR` (isis.h),
`Isis_pop_double_array` (the array of the given length popped from the stack,
`none` when it fails) and `SLexecute_function` (the return value of the call)
are parameters.  Array creation and the pushes are assumed to succeed.  The
values the script function returns stay on the stack of the interpreter. -/
def sl_bin_eval (ISIS_FUN_OPERATOR : Int) (Isis_pop_double_array : Int → Option (List ℚ))
    (SLexecute_function : Sl_Bin_Call → Int) (ff : Fit_Fun_t) (g : Isis_Hist_t)
    (par : Int → ℚ) : Sl_Bin_Result :=
  let sl_par := (loop_range 0 ff.nparams).map par
  if ff.category = ISIS_FUN_OPERATOR then
    match Isis_pop_double_array g.n_notice with
    | none => { ret := -1, calls := [] }
    | some sl_arg =>
      if SLexecute_function { fn := ff.fun_sl, g := g, par := sl_par, arg := some sl_arg } = 1
      then
        { ret := 0, calls := [{ fn := ff.fun_sl, g := g, par := sl_par, arg := some sl_arg }] }
      else
        { ret := -1, calls := [{ fn := ff.fun_sl, g := g, par := sl_par, arg := some sl_arg }] }
  else
    if SLexecute_function { fn := ff.fun_sl, g := g, par := sl_par, arg := none } = 1 then
      { ret := 0, calls := [{ fn := ff.fun_sl, g := g, par := sl_par, arg := none }] }
    else
      { ret := -1, calls := [{ fn := ff.fun_sl, g := g, par := sl_par, arg := none }] }

/-! ### Hooks of the XSPEC module (xspec-module.c, lines 369-657) -/

/-- Instance `MAKE_XG(f,float)`; the conversion `(float)` to single precision
is the parameter `float`. -/
def make_f_xspec_grid (float : ℚ → ℚ) (raw : Raw_Memory) (g : Option Isis_Hist_t) :
    Option Xspec_Info_Type :=
  MAKE_XG float raw g

/-- Instance `EVAL_XF(f,float)`. -/
def eval_f_xspec_fun (float : ℚ → ℚ) (ISIS_FUN_OPERATOR : Int)
    (Table_Model_Filename : Option String) (raw : Raw_Memory) (fn : Xspec_Fun_t)
    (val : Int → ℚ) (g : Option Isis_Hist_t) (param : Int → ℚ) (norm : ℚ) (category : Int) :
    Eval_Result :=
  EVAL_XF float ISIS_FUN_OPERATOR Table_Model_Filename raw fn val g param norm category

/-- Function `f_sub` (lines 369-378): the routine behind the global
`Generic_Fptr` is applied to the record; without a routine nothing is done. -/
def f_sub (Generic_Fptr : Option Xspec_Fun_t) : Xspec_Fun_t :=
  fun p =>
    match Generic_Fptr with
    | none => p
    | some fcn => fcn p

/-- Function `fn_sub` (lines 381-390): as `f_sub`, for a routine that is not
given `photer`. -/
def fn_sub (Generic_Fptr : Option Xspec_Fun_t) : Xspec_Fun_t :=
  fun p =>
    match Generic_Fptr with
    | none => p
    | some fcn => { fcn p with photer := p.photer }

/-- Function `F_sub` (lines 393-402): as `f_sub`, in double precision. -/
def F_sub (Generic_Fptr : Option Xspec_Fun_t) : Xspec_Fun_t :=
  fun p =>
    match Generic_Fptr with
    | none => p
    | some fcn => fcn p

/-- Function `C_sub` (lines 405-414): as `F_sub`, for a routine that is also
given the global `Model_Init_String`. -/
def C_sub (Model_Init_String : Option String)
    (Generic_Fptr : Option (Option String → Xspec_Fun_t)) : Xspec_Fun_t :=
  fun p =>
    match Generic_Fptr with
    | none => p
    | some fcn => fcn Model_Init_String p

/-- The loop `for (i = 0; i < npar; i++) param[i] = (type) par[i]` of the hooks
on the block `param`. -/
def copy_loop (type : ℚ → ℚ) (par : Int → ℚ) (npar : Nat) (param : List ℚ) : List ℚ :=
  (loop_range 0 npar).foldl (fun param i => param.set i.toNat (type (par i))) param

/-- The array `param` of the multiplicative and convolution hooks in single
precision after the copy loop: a block of `npar` elements, whose fresh contents
are `heap`, when `npar > 0`, and `NULL`, the empty array, otherwise.
Allocation is assumed to succeed. -/
def mul_param (float : ℚ → ℚ) (heap : Nat → ℚ) (par : Int → ℚ) (npar : Nat) : List ℚ :=
  if npar > 0 then copy_loop float par npar ((List.range npar).map heap) else []

/-- The array `param` of the additive hooks after the copy loop: the local array
`tmp[2] = {0.0}`, or a block of `npar` elements, whose fresh contents are
`heap`, when `npar > 2`.  Allocation is assumed to succeed. -/
def add_param (type : ℚ → ℚ) (heap : Nat → ℚ) (par : Int → ℚ) (npar : Nat) : List ℚ :=
  copy_loop type par npar (if npar > 2 then (List.range npar).map heap else [0, 0])

/-- Function `mul_f` (lines 417-437).  A pointer into an array is the map from
offsets to its elements; reads outside the array are not modelled. -/
def mul_f (float : ℚ → ℚ) (ISIS_FUN_OPERATOR ISIS_FUN_ADDMUL : Int)
    (Table_Model_Filename : Option String) (raw : Raw_Memory) (heap : Nat → ℚ)
    (Generic_Fptr : Option Xspec_Fun_t) (val : Int → ℚ) (g : Option Isis_Hist_t)
    (par : Int → ℚ) (npar : Nat) : Eval_Result :=
  eval_f_xspec_fun float ISIS_FUN_OPERATOR Table_Model_Filename raw (f_sub Generic_Fptr) val g
    (fun j => (mul_param float heap par npar).getD j.toNat 0) 1 ISIS_FUN_ADDMUL

/-- Function `con_f` (lines 441-461). -/
def con_f (float : ℚ → ℚ) (ISIS_FUN_OPERATOR : Int)
    (Table_Model_Filename : Option String) (raw : Raw_Memory) (heap : Nat → ℚ)
    (Generic_Fptr : Option Xspec_Fun_t) (val : Int → ℚ) (g : Option Isis_Hist_t)
    (par : Int → ℚ) (npar : Nat) : Eval_Result :=
  eval_f_xspec_fun float ISIS_FUN_OPERATOR Table_Model_Filename raw (f_sub Generic_Fptr) val g
    (fun j => (mul_param float heap par npar).getD j.toNat 0) 1 ISIS_FUN_OPERATOR

/-- Function `add_f` (lines 465-488): the routine is given `&param[1]` and the
normalization is `param[0]`. -/
def add_f (float : ℚ → ℚ) (ISIS_FUN_OPERATOR ISIS_FUN_ADDMUL : Int)
    (Table_Model_Filename : Option String) (raw : Raw_Memory) (heap : Nat → ℚ)
    (Generic_Fptr : Option Xspec_Fun_t) (val : Int → ℚ) (g : Option Isis_Hist_t)
    (par : Int → ℚ) (npar : Nat) : Eval_Result :=
  eval_f_xspec_fun float ISIS_FUN_OPERATOR Table_Model_Filename raw (f_sub Generic_Fptr) val g
    (fun j => (add_param float heap par npar).getD (j + 1).toNat 0)
    ((add_param float heap par npar).getD 0 0) ISIS_FUN_ADDMUL

/-- Function `mul_fn` (lines 492-512). -/
def mul_fn (float : ℚ → ℚ) (ISIS_FUN_OPERATOR ISIS_FUN_ADDMUL : Int)
    (Table_Model_Filename : Option String) (raw : Raw_Memory) (heap : Nat → ℚ)
    (Generic_Fptr : Option Xspec_Fun_t) (val : Int → ℚ) (g : Option Isis_Hist_t)
    (par : Int → ℚ) (npar : Nat) : Eval_Result :=
  eval_f_xspec_fun float ISIS_FUN_OPERATOR Table_Model_Filename raw (fn_sub Generic_Fptr) val g
    (fun j => (mul_param float heap par npar).getD j.toNat 0) 1 ISIS_FUN_ADDMUL

/-- Function `con_fn` (lines 516-536). -/
def con_fn (float : ℚ → ℚ) (ISIS_FUN_OPERATOR : Int)
    (Table_Model_Filename : Option String) (raw : Raw_Memory) (heap : Nat → ℚ)
    (Generic_Fptr : Option Xspec_Fun_t) (val : Int → ℚ) (g : Option Isis_Hist_t)
    (par : Int → ℚ) (npar : Nat) : Eval_Result :=
  eval_f_xspec_fun float ISIS_FUN_OPERATOR Table_Model_Filename raw (fn_sub Generic_Fptr) val g
    (fun j => (mul_param float heap par npar).getD j.toNat 0) 1 ISIS_FUN_OPERATOR

/-- Function `add_fn` (lines 540-563). -/
def add_fn (float : ℚ → ℚ) (ISIS_FUN_OPERATOR ISIS_FUN_ADDMUL : Int)
    (Table_Model_Filename : Option String) (raw : Raw_Memory) (heap : Nat → ℚ)
    (Generic_Fptr : Option Xspec_Fun_t) (val : Int → ℚ) (g : Option Isis_Hist_t)
    (par : Int → ℚ) (npar : Nat) : Eval_Result :=
  eval_f_xspec_fun float ISIS_FUN_OPERATOR Table_Model_Filename raw (fn_sub Generic_Fptr) val g
    (fun j => (add_param float heap par npar).getD (j + 1).toNat 0)
    ((add_param float heap par npar).getD 0 0) ISIS_FUN_ADDMUL

/-- Function `mul_F` (lines 567-573). -/
def mul_F (ISIS_FUN_OPERATOR ISIS_FUN_ADDMUL : Int) (Table_Model_Filename : Option String)
    (raw : Raw_Memory) (Generic_Fptr : Option Xspec_Fun_t) (val : Int → ℚ)
    (g : Option Isis_Hist_t) (par : Int → ℚ) (_npar : Nat) : Eval_Result :=
  eval_d_xspec_fun ISIS_FUN_OPERATOR Table_Model_Filename raw (F_sub Generic_Fptr) val g par 1
    ISIS_FUN_ADDMUL

/-- Function `con_F` (lines 577-583). -/
def con_F (ISIS_FUN_OPERATOR : Int) (Table_Model_Filename : Option String)
    (raw : Raw_Memory) (Generic_Fptr : Option Xspec_Fun_t) (val : Int → ℚ)
    (g : Option Isis_Hist_t) (par : Int → ℚ) (_npar : Nat) : Eval_Result :=
  eval_d_xspec_fun ISIS_FUN_OPERATOR Table_Model_Filename raw (F_sub Generic_Fptr) val g par 1
    ISIS_FUN_OPERATOR

/-- Function `add_F` (lines 587-610). -/
def add_F (ISIS_FUN_OPERATOR ISIS_FUN_ADDMUL : Int) (Table_Model_Filename : Option String)
    (raw : Raw_Memory) (heap : Nat → ℚ) (Generic_Fptr : Option Xspec_Fun_t) (val : Int → ℚ)
    (g : Option Isis_Hist_t) (par : Int → ℚ) (npar : Nat) : Eval_Result :=
  eval_d_xspec_fun ISIS_FUN_OPERATOR Table_Model_Filename raw (F_sub Generic_Fptr) val g
    (fun j => (add_param id heap par npar).getD (j + 1).toNat 0)
    ((add_param id heap par npar).getD 0 0) ISIS_FUN_ADDMUL

/-- Function `mul_C` (lines 614-620). -/
def mul_C (ISIS_FUN_OPERATOR ISIS_FUN_ADDMUL : Int) (Table_Model_Filename : Option String)
    (raw : Raw_Memory) (Model_Init_String : Option String)
    (Generic_Fptr : Option (Option String → Xspec_Fun_t)) (val : Int → ℚ)
    (g : Option Isis_Hist_t) (par : Int → ℚ) (_npar : Nat) : Eval_Result :=
  eval_d_xspec_fun ISIS_FUN_OPERATOR Table_Model_Filename raw
    (C_sub Model_Init_String Generic_Fptr) val g par 1 ISIS_FUN_ADDMUL

/-- Function `con_C` (lines 624-630). -/
def con_C (ISIS_FUN_OPERATOR : Int) (Table_Model_Filename : Option String)
    (raw : Raw_Memory) (Model_Init_String : Option String)
    (Generic_Fptr : Option (Option String → Xspec_Fun_t)) (val : Int → ℚ)
    (g : Option Isis_Hist_t) (par : Int → ℚ) (_npar : Nat) : Eval_Result :=
  eval_d_xspec_fun ISIS_FUN_OPERATOR Table_Model_Filename raw
    (C_sub Model_Init_String Generic_Fptr) val g par 1 ISIS_FUN_OPERATOR

/-- Function `add_C` (lines 634-657). -/
def add_C (ISIS_FUN_OPERATOR ISIS_FUN_ADDMUL : Int) (Table_Model_Filename : Option String)
    (raw : Raw_Memory) (heap : Nat → ℚ) (Model_Init_String : Option String)
    (Generic_Fptr : Option (Option String → Xspec_Fun_t)) (val : Int → ℚ)
    (g : Option Isis_Hist_t) (par : Int → ℚ) (npar : Nat) : Eval_Result :=
  eval_d_xspec_fun ISIS_FUN_OPERATOR Table_Model_Filename raw
    (C_sub Model_Init_String Generic_Fptr) val g
    (fun j => (add_param id heap par npar).getD (j + 1).toNat 0)
    ((add_param id heap par npar).getD 0 0) ISIS_FUN_ADDMUL

/-! ## Crash containment (xspec-module.c, lines 93-124)

The process is described by the handler installed for `SIGSEGV`, the flag
`Signal_In_Progress`, the calls made so far and the place where control is.
Whether a call of `SLsignal` succeeds, and whether the external routine
returns or raises `SIGSEGV`, are parameters.  The data the routine reads and
writes is the subject of `EVAL_XF`. -/

/-- A value of type `SLSig_Fun_Type *`: a signal handler, or `SIG_ERR`, the
error return of `SLsignal`. -/
inductive SLSig_Fun_Type where
  | SIG_DFL
  | SIG_ERR
  | sig_segv
  | other (n : Nat)
  deriving DecidableEq

/-- Signal number of a memory-access fault (signal.h). -/
def SIGSEGV : Int := 11

/-- File descriptor of the error stream (unistd.h). -/
def STDERR_FILENO : Int := 2

/-- Exit status of a failed program (stdlib.h). -/
def EXIT_FAILURE : Int := 1

/-- The array `msg` of `sig_segv`, without its terminating null character. -/
def sig_segv_msg : String :=
  "\n**** XSPEC is buggy:  Segmentation Fault while in an XSPEC function.\n"

/-- A call made by `call_xspec_fun` or `sig_segv`, with its arguments:
`SLsignal (sig, f)`, `fprintf (stderr, text)`, `(*fun)(p)`,
`write (fd, buf, count)` and `exit (status)`. -/
inductive Sys_Call where
  | SLsignal (sig : Int) (f : SLSig_Fun_Type)
  | fprintf_stderr (text : String)
  | routine
  | write (fd : Int) (buf : String) (count : Nat)
  | exit (status : Int)
  deriving DecidableEq

/-- Where control is: with the code that called (`running`); nowhere, after
`exit (status)` ended the process (`exited`); nowhere, after the default action
of `SIGSEGV` killed the process (`killed`); in the external routine, whose
faulting instruction is executed again after a handler returned
(`in_routine`); or in a handler that is not part of this file (`in_handler`). -/
inductive Control where
  | running
  | exited (status : Int)
  | killed
  | in_routine
  | in_handler
  deriving DecidableEq

/-- The state of the process. -/
structure Process where
  handler : SLSig_Fun_Type
  Signal_In_Progress : Int
  calls : List Sys_Call
  control : Control

/-- How a call `(*fun)(p)` of the external routine ends: it returns, or one of
its instructions raises `SIGSEGV`. -/
inductive Routine_Run where
  | returns
  | faults
  deriving DecidableEq

/-- Library routine `SLsignal (SIGSEGV, f)` of S-Lang: when it succeeds
(`ok f`), `f` is installed and the handler installed before is returned; when
it fails, nothing is installed and `SIG_ERR` is returned. -/
def SLsignal (ok : SLSig_Fun_Type → Bool) (f : SLSig_Fun_Type) (s : Process) :
    SLSig_Fun_Type × Process :=
  let s := { s with calls := s.calls ++ [Sys_Call.SLsignal SIGSEGV f] }
  if ok f then (s.handler, { s with handler := f }) else (SLSig_Fun_Type.SIG_ERR, s)

/-- Function `sig_segv` (lines 94-108). -/
def sig_segv (ok : SLSig_Fun_Type → Bool) (s : Process) : Process :=
  if s.Signal_In_Progress ≠ 0 then s
  else
    let s := { s with Signal_In_Progress := 1 }
    let s := { s with
      calls := s.calls ++ [Sys_Call.write STDERR_FILENO sig_segv_msg (sig_segv_msg.length + 1)] }
    let s := (SLsignal ok SLSig_Fun_Type.SIG_DFL s).2
    { s with
      calls := s.calls ++ [Sys_Call.exit EXIT_FAILURE]
      control := Control.exited EXIT_FAILURE }

/-- Delivery of a `SIGSEGV` raised by an instruction of the external routine:
the installed handler runs.  When `sig_segv` returns, the instruction is
executed again and control stays in the routine; the default action kills the
process; any other handler is code outside this file. -/
def raise_SIGSEGV (ok : SLSig_Fun_Type → Bool) (s : Process) : Process :=
  match s.handler with
  | SLSig_Fun_Type.sig_segv =>
    let s1 := sig_segv ok s
    if s1.control = Control.running then { s1 with control := Control.in_routine } else s1
  | SLSig_Fun_Type.SIG_DFL => { s with control := Control.killed }
  | _ => { s with control := Control.in_handler }

/-- Function `call_xspec_fun` (lines 112-124); `run` tells how the call
`(*fun)(p)` ends. -/
def call_xspec_fun (ok : SLSig_Fun_Type → Bool) (run : Routine_Run) (s : Process) : Process :=
  let sig_func := (SLsignal ok SLSig_Fun_Type.sig_segv s).1
  let s := (SLsignal ok SLSig_Fun_Type.sig_segv s).2
  let s :=
    if SLSig_Fun_Type.SIG_ERR = sig_func then
      { s with calls := s.calls ++ [Sys_Call.fprintf_stderr
          "warning:  failed initializing signal handler for SIGSEGV\n"] }
    else s
  let s := { s with calls := s.calls ++ [Sys_Call.routine] }
  match run with
  | Routine_Run.faults => raise_SIGSEGV ok s
  | Routine_Run.returns =>
    if (SLsignal ok sig_func s).1 = SLSig_Fun_Type.SIG_ERR then
      { (SLsignal ok sig_func s).2 with
        calls := (SLsignal ok sig_func s).2.calls ++ [Sys_Call.fprintf_stderr
          "warning:  failed to re-set signal handler\n"] }
    else (SLsignal ok sig_func s).2

/-- A process in which `SIGSEGV` has its default action, no call has been made
and `Signal_In_Progress` has its initial value. -/
def example_process : Process :=
  { handler := SLSig_Fun_Type.SIG_DFL
    Signal_In_Progress := 0
    calls := []
    control := Control.running }

/-! ## Quantities used in the statements -/

/-- Entries `(ebins[k], keep[k])` stored by one iteration of the emitting loop,
listed by ascending `k`. -/
def emit_entries (type : ℚ → ℚ) (g : Isis_Hist_t) (notice_list : Int → Int) (i : Int) :
    List (ℚ × Int) :=
  if pair_diff g notice_list i > double_mul TOL (pair_avg g notice_list i) then
    [(type (type KEV_ANGSTROM / g.bin_lo (notice_list i)), 0),
     (type (type KEV_ANGSTROM / g.bin_hi (notice_list (i - 1))), 1)]
  else [(type (type KEV_ANGSTROM / g.bin_hi (notice_list (i - 1))), 1)]

/-- Entries stored by the emitting loop run over the indices `is`, by ascending
position. -/
def emitted (type : ℚ → ℚ) (g : Isis_Hist_t) (notice_list : Int → Int) (is : List Int) :
    List (ℚ × Int) :=
  is.reverse.flatMap (emit_entries type g notice_list)

/-- Number of bins added by the counting loop run over the indices `is`. -/
def count_sum (g : Isis_Hist_t) (notice_list : Int → Int) (is : List Int) : Int :=
  (is.map (fun i =>
    if pair_diff g notice_list i < double_mul TOL (pair_avg g notice_list i) then (1 : Int) else 2)).sum

/-- The grid that `MAKE_XG` stores when the final check `k != 0` passes: the
entry of the last noticed bin at index 0, the entries of the emitting loop
above it, and the top edge. -/
def grid_spec (type : ℚ → ℚ) (g : Isis_Hist_t) (notice_list : Int → Int) : Xspec_Info_Type :=
  let body := (type (type KEV_ANGSTROM / g.bin_hi (notice_list (g.n_notice - 1))), (1 : Int))
    :: emitted type g notice_list (loop_range 1 g.n_notice)
  { ebins := body.map Prod.fst ++ [type (type KEV_ANGSTROM / g.bin_lo (notice_list 0))]
    photar := List.replicate body.length 0
    keep := body.map Prod.snd
    nbins := body.length }

/-- Number of entries the emitting loop stores for the pair `(j-1, j)`: two when
the gap test `diff > TOL * avg` holds, one otherwise. -/
def pair_bins (g : Isis_Hist_t) (notice_list : Int → Int) (j : Int) : Int :=
  if pair_diff g notice_list j > double_mul TOL (pair_avg g notice_list j) then 2 else 1

/-- Index of the entry stored for the gap of the pair `(i-1, i)`: below it lie
the entry of the last noticed bin and the entries of all later pairs. -/
def gap_position (g : Isis_Hist_t) (notice_list : Int → Int) (i : Int) : Nat :=
  (1 + ((loop_range (i + 1) g.n_notice).map (pair_bins g notice_list)).sum).toNat

/-- The keep positions `i_0 < i_1 < ...` of a grid: the indices `i` in
`0 .. nbins-1` with `keep[i]` non-zero, in ascending order. -/
def keep_positions (keep : List Int) (nbins : Int) : List Int :=
  (loop_range 0 nbins).filter (fun i => decide (keep.getD i.toNat 0 ≠ 0))

/-- What an additive hook passes on when it is called with `par` and `npar`:
the normalization `norm` is `par[0]` converted by `type` (0 without parameters)
and the routine's parameter vector `param` holds `par[1..npar-1]` converted by
`type`. -/
def additive_args (type : ℚ → ℚ) (par : Int → ℚ) (npar : Nat) (param : Int → ℚ) (norm : ℚ) :
    Prop :=
  norm = (if npar = 0 then 0 else type (par 0)) ∧
    ∀ j : Int, 0 ≤ j → j + 1 < npar → param j = type (par (j + 1))

/-- What a multiplicative or convolution hook passes on: the routine's parameter
vector `param` holds `par[0..npar-1]` converted by `type`. -/
def all_args (type : ℚ → ℚ) (par : Int → ℚ) (npar : Nat) (param : Int → ℚ) : Prop :=
  ∀ j : Int, 0 ≤ j → j < npar → param j = type (par j)

/-! ## Example inputs -/

/-- Example contents of uninitialised memory. -/
def example_raw : Raw_Memory := { ebins := fun _ => 7, keep := fun _ => 5 }

/-- A measurement grid of unit-width bins `[i+1, i+2]` (bin `i` touches bin
`i+1`) with the given notice list. -/
def unit_bins (n_notice : Int) (notice_list : Int → Int) : Isis_Hist_t :=
  { bin_lo := fun i => (i : ℚ) + 1
    bin_hi := fun i => (i : ℚ) + 2
    notice_list := some notice_list
    n_notice := n_notice }

/-- Three contiguous unit bins `[1,2]`, `[2,3]`, `[3,4]`, all noticed. -/
def example_contiguous : Isis_Hist_t := unit_bins 3 id

/-- Unit bins `[1,2]`, `[3,4]`, `[5,6]` noticed out of `[i+1, i+2]`: both adjacent
noticed pairs are separated by a gap of width 1. -/
def example_gapped : Isis_Hist_t := unit_bins 3 (fun i => 2 * i)

/-- One noticed unit bin `[1,2]`. -/
def example_single : Isis_Hist_t := unit_bins 1 id

/-- A grid whose notice list holds no bin (`n_notice = 0`). -/
def example_empty : Isis_Hist_t := unit_bins 0 id

/-- An external routine that stores 42 in every bin of the result buffer. -/
def example_routine : Xspec_Fun_t := fun p => { p with photar := p.photar.map (fun _ => 42) }

/-- Two bins `[-1, 0]` and `[0, 1]`, both noticed: the shared edge is `0`, so
`diff = 0` and `TOL * avg = 0`. -/
def boundary_grid : Isis_Hist_t :=
  { bin_lo := fun i => (i : ℚ) - 1
    bin_hi := fun i => (i : ℚ)
    notice_list := some id
    n_notice := 2 }

/-- Two bins `[2^1022, 2^1023]` and `[3 * 2^1022, 7 * 2^1021]`, both noticed and
separated by a gap of width `2^1022`: the sum `bin_lo[1] + bin_hi[0]` is
`5 * 2^1022`, beyond the largest finite `double`, so `avg` and `TOL * avg` are
`+inf`. -/
def overflow_grid : Isis_Hist_t :=
  { bin_lo := fun i => if i = 0 then 2 ^ 1022 else 3 * 2 ^ 1022
    bin_hi := fun i => if i = 0 then 2 ^ 1023 else 7 * 2 ^ 1021
    notice_list := some id
    n_notice := 2 }

/-- A registered descriptor "g" without parameters, with type id 0. -/
def example_g : Fit_Fun_t := { new_fit_fun 0 0 with name := ["g"], fun_type := 0 }

/-- A freshly built descriptor "f" with one parameter. -/
def example_f1 : Fit_Fun_t := { new_fit_fun 0 1 with name := ["f", "a"], nparams := 1 }

/-- A freshly built descriptor "f" with two parameters. -/
def example_f2 : Fit_Fun_t := { new_fit_fun 0 2 with name := ["f", "a", "b"], nparams := 2 }

/-- A freshly built descriptor "h" without parameters. -/
def example_h : Fit_Fun_t := { new_fit_fun 0 0 with name := ["h"] }

/-- A registered descriptor "f" with type id 1, version 3 and an exit hook. -/
def example_old : Fit_Fun_t :=
  { example_f1 with fun_type := 1, fun_version := 3, function_exit := some 5 }

/-- A registered descriptor "g" holding the largest `unsigned int` as type id. -/
def example_g_last : Fit_Fun_t := { example_g with fun_type := UINT_MAX }

/-- A session: "f" and "h" are registered, "h" gets a category, "f" is removed
and registered again. -/
def example_ops : List Registry_Op :=
  [Registry_Op.add example_f1, Registry_Op.add example_h,
    Registry_Op.set_category (some "h") 2, Registry_Op.del (some "f"),
    Registry_Op.add example_f2]

/-- A session: "f" is registered and removed, then "h" is registered. -/
def example_reuse_ops : List Registry_Op :=
  [Registry_Op.add example_f1, Registry_Op.del (some "f"), Registry_Op.add example_h]

/-- The parameter names of a definition with two parameters: "a" and the empty
string. -/
def example_param_names : Int → Option String := fun j => if j = 0 then some "a" else some ""

/-- The units of a definition with two parameters: "keV" and none. -/
def example_param_units : Int → Option String := fun j => if j = 0 then some "keV" else none

/-- The request to define "f" with the parameters "a" and "b". -/
def example_udf : UDF_Info_Type :=
  { sl_norm_ids := none, pnames := fun i => ["a", "b"].getD i.toNat "", fun_name := some "f", num := 2 }

/-- Two contiguous unit bins `[1,2]`, `[2,3]`, both noticed: the grid edges are
1, 2, 3. -/
def example_pair : Isis_Hist_t := unit_bins 2 id

/-- The parameter values 1.5, 0.2, 5.0. -/
def example_par : Int → ℚ := fun i => [1.5, 0.2, 5.0].getD i.toNat 0

/-- A descriptor "gauss" with the three parameters of `example_gauss` and a
script function. -/
def example_gauss_fun : Fit_Fun_t :=
  { new_fit_fun 0 3 with name := ["gauss", "center", "width", "Norm"], nparams := 3, fun_sl := some 7 }

/-- A grid of two points. -/
def example_points : Isis_User_Grid_t := { x := fun i => (i : ℚ), npts := 2 }

/-- The request to define "gauss" with the parameters "center", "width" and
"Norm", without a list of norm indices. -/
def example_gauss : UDF_Info_Type :=
  { sl_norm_ids := none
    pnames := fun i => ["center", "width", "Norm"].getD i.toNat ""
    fun_name := some "gauss"
    num := 3 }

/-! ## Lists and loops -/

/-! ## Double-precision arithmetic: facts -/

theorem round_even_nonneg (y : ℚ) (h : 0 ≤ y) : 0 ≤ round_even y := by
  have hf : 0 ≤ ⌊y⌋ := Int.floor_nonneg.mpr h
  unfold round_even
  split_ifs <;> omega

theorem double_round_nonneg (x : ℚ) (h : 0 ≤ x) : 0 ≤ double_round x := by
  have hq : (0 : ℚ) < 2 ^ (max (ilog2 x) (-1022) - 52) := zpow_pos (by norm_num) _
  have hr : (0 : ℚ) ≤ round_even (x / 2 ^ (max (ilog2 x) (-1022) - 52))
      * 2 ^ (max (ilog2 x) (-1022) - 52) :=
    mul_nonneg (by exact_mod_cast round_even_nonneg _ (div_nonneg h hq.le)) hq.le
  unfold double_round
  simp only []
  split_ifs with h1 h2
  · exact le_top
  · exact absurd (le_trans hr h2) (by norm_num)
  · exact WithBot.coe_le_coe.mpr (WithTop.coe_le_coe.mpr hr)

theorem fabs_nonneg (x : Double) : 0 ≤ fabs x := by
  match x with
  | none => exact le_top
  | some none => exact le_top
  | some (some v) => exact WithBot.coe_le_coe.mpr (WithTop.coe_le_coe.mpr (abs_nonneg v))

theorem double_mul_nonneg (c : ℚ) (x : Double) (hc : 0 ≤ c) (hx : 0 ≤ x) :
    0 ≤ double_mul c x := by
  match x, hx with
  | none, hx => exact absurd hx (by decide)
  | some none, _ => exact le_top
  | some (some v), hx =>
    have hv : 0 ≤ v := WithTop.coe_le_coe.mp (WithBot.coe_le_coe.mp hx)
    exact double_round_nonneg _ (mul_nonneg hc hv)

theorem fabs_double_round_zero : fabs (double_round 0) = 0 := by decide!

/-- Values of `double_round` at the edges of the format: a representable value
is kept, `1/10` goes to the nearest `double`, half of the smallest positive
`double` goes to zero and three halves of it to twice it (ties to even), the
largest finite `double` is kept, and from half a spacing above it on the result
is `+inf`. -/
theorem double_round_examples :
    double_round 3 = (((3 : ℚ) : WithTop ℚ) : Double) ∧
    double_round (1 / 10) = (((3602879701896397 / 2 ^ 55 : ℚ) : WithTop ℚ) : Double) ∧
    double_round (1 / 2 ^ 1075) = 0 ∧
    double_round (3 / 2 ^ 1075) = (((1 / 2 ^ 1073 : ℚ) : WithTop ℚ) : Double) ∧
    double_round (2 ^ 1024 - 2 ^ 971) = (((2 ^ 1024 - 2 ^ 971 : ℚ) : WithTop ℚ) : Double) ∧
    double_round (2 ^ 1024 - 2 ^ 970) = ⊤ ∧
    double_round (-(2 ^ 1024)) = ⊥ := by
  refine ⟨?_, ?_, ?_, ?_, ?_, ?_, ?_⟩ <;> decide!

theorem tol_avg_nonneg (g : Isis_Hist_t) (nl : Int → Int) (i : Int) :
    0 ≤ double_mul TOL (pair_avg g nl i) :=
  double_mul_nonneg _ _ (by norm_num [TOL, FLT_MIN])
    (double_mul_nonneg _ _ (by norm_num) (fabs_nonneg _))


theorem drop_set_self {α : Type} (l : List α) (n : Nat) (v : α) (h : n < l.length) :
    (l.set n v).drop n = v :: l.drop (n + 1) := by
  induction l generalizing n with
  | nil => simp at h
  | cons a t ih =>
    cases n with
    | zero => simp
    | succ m =>
      simp only [List.set_cons_succ, List.drop_succ_cons]
      exact ih m (by simpa using h)

theorem drop_set_two {α : Type} (l : List α) (n : Nat) (a b : α) (h : n + 2 ≤ l.length) :
    ((l.set (n + 1) a).set n b).drop n = b :: a :: l.drop (n + 2) := by
  have h1 : n < (l.set (n + 1) a).length := by rw [List.length_set]; omega
  have h2 : n + 1 < l.length := by omega
  rw [drop_set_self (l.set (n + 1) a) n b h1, drop_set_self l (n + 1) a h2]

theorem emit_step_spec (type : ℚ → ℚ) (g : Isis_Hist_t) (nl : Int → Int) (s : Emit_State)
    (i : Int) (h1 : ((emit_entries type g nl i).length : Int) ≤ s.k)
    (hk : s.k ≤ s.keep.length) (he : s.k ≤ s.ebins.length) :
    (emit_step type g nl s i).k = s.k - (emit_entries type g nl i).length ∧
    (emit_step type g nl s i).keep.length = s.keep.length ∧
    (emit_step type g nl s i).ebins.length = s.ebins.length ∧
    (emit_step type g nl s i).keep.drop (emit_step type g nl s i).k.toNat
      = (emit_entries type g nl i).map Prod.snd ++ s.keep.drop s.k.toNat ∧
    (emit_step type g nl s i).ebins.drop (emit_step type g nl s i).k.toNat
      = (emit_entries type g nl i).map Prod.fst ++ s.ebins.drop s.k.toNat := by
  unfold emit_step emit_entries at *
  by_cases hgap : pair_diff g nl i > double_mul TOL (pair_avg g nl i)
  · simp only [hgap, if_true, List.length_cons, List.length_nil] at h1 ⊢
    obtain ⟨n, hn⟩ : ∃ n : Nat, s.k = (n : Int) + 2 := ⟨(s.k - 2).toNat, by omega⟩
    have e1 : (s.k - 1).toNat = n + 1 := by omega
    have e2 : (s.k - 1 - 1).toNat = n := by omega
    have e3 : s.k.toNat = n + 2 := by omega
    have hkl : n + 2 ≤ s.keep.length := by omega
    have hel : n + 2 ≤ s.ebins.length := by omega
    simp only [e1, e2, e3, List.length_set, List.map_cons, List.map_nil]
    refine ⟨by omega, trivial, trivial, ?_, ?_⟩
    · exact drop_set_two _ n _ _ hkl
    · exact drop_set_two _ n _ _ hel
  · simp only [hgap, if_false, List.length_cons, List.length_nil] at h1 ⊢
    obtain ⟨n, hn⟩ : ∃ n : Nat, s.k = (n : Int) + 1 := ⟨(s.k - 1).toNat, by omega⟩
    have e1 : (s.k - 1).toNat = n := by omega
    have e3 : s.k.toNat = n + 1 := by omega
    have hkl : n + 1 ≤ s.keep.length := by omega
    have hel : n + 1 ≤ s.ebins.length := by omega
    simp only [e1, e3, List.length_set, List.map_cons, List.map_nil]
    refine ⟨by omega, trivial, trivial, ?_, ?_⟩
    · exact drop_set_self _ n _ (by omega)
    · exact drop_set_self _ n _ (by omega)

theorem emitted_nil (type : ℚ → ℚ) (g : Isis_Hist_t) (nl : Int → Int) :
    emitted type g nl [] = [] := by
  simp [emitted]

theorem emitted_cons (type : ℚ → ℚ) (g : Isis_Hist_t) (nl : Int → Int) (i : Int)
    (is : List Int) :
    emitted type g nl (i :: is) = emitted type g nl is ++ emit_entries type g nl i := by
  simp [emitted, List.flatMap_append]

theorem emitted_append (type : ℚ → ℚ) (g : Isis_Hist_t) (nl : Int → Int)
    (as bs : List Int) :
    emitted type g nl (as ++ bs) = emitted type g nl bs ++ emitted type g nl as := by
  simp [emitted, List.flatMap_append]

theorem emit_fold_spec (type : ℚ → ℚ) (g : Isis_Hist_t) (nl : Int → Int) (is : List Int) :
    ∀ s : Emit_State, ((emitted type g nl is).length : Int) ≤ s.k →
      s.k ≤ s.keep.length → s.k ≤ s.ebins.length →
      (is.foldl (emit_step type g nl) s).k = s.k - (emitted type g nl is).length ∧
      (is.foldl (emit_step type g nl) s).keep.length = s.keep.length ∧
      (is.foldl (emit_step type g nl) s).ebins.length = s.ebins.length ∧
      (is.foldl (emit_step type g nl) s).keep.drop (is.foldl (emit_step type g nl) s).k.toNat
        = (emitted type g nl is).map Prod.snd ++ s.keep.drop s.k.toNat ∧
      (is.foldl (emit_step type g nl) s).ebins.drop (is.foldl (emit_step type g nl) s).k.toNat
        = (emitted type g nl is).map Prod.fst ++ s.ebins.drop s.k.toNat := by
  induction is with
  | nil =>
    intro s _ _ _
    simp [emitted_nil]
  | cons i rest ih =>
    intro s h1 hk he
    rw [emitted_cons, List.length_append] at h1
    push_cast at h1
    have hstep := emit_step_spec type g nl s i (by omega) hk he
    obtain ⟨a1, a2, a3, a4, a5⟩ := hstep
    have hrest := ih (emit_step type g nl s i) (by rw [a1]; omega) (by rw [a1, a2]; omega)
      (by rw [a1, a3]; omega)
    obtain ⟨b1, b2, b3, b4, b5⟩ := hrest
    simp only [List.foldl_cons]
    refine ⟨?_, ?_, ?_, ?_, ?_⟩
    · rw [b1, a1, emitted_cons, List.length_append]; push_cast; omega
    · rw [b2, a2]
    · rw [b3, a3]
    · rw [b4, a4, emitted_cons]; simp
    · rw [b5, a5, emitted_cons]; simp

theorem count_fold_spec (g : Isis_Hist_t) (nl : Int → Int) (is : List Int) :
    ∀ init : Int, is.foldl (count_step g nl) init = init + count_sum g nl is := by
  induction is with
  | nil => intro init; simp [count_sum]
  | cons i rest ih =>
    intro init
    simp only [List.foldl_cons]
    rw [ih]
    simp only [count_step, count_sum, List.map_cons, List.sum_cons]
    omega

theorem emit_entries_length_le (type : ℚ → ℚ) (g : Isis_Hist_t) (nl : Int → Int) (i : Int) :
    ((emit_entries type g nl i).length : Int)
      ≤ (if pair_diff g nl i < double_mul TOL (pair_avg g nl i) then (1 : Int) else 2) := by
  unfold emit_entries
  by_cases hgap : pair_diff g nl i > double_mul TOL (pair_avg g nl i)
  · have : ¬ pair_diff g nl i < double_mul TOL (pair_avg g nl i) := not_lt.mpr (le_of_lt hgap)
    simp [hgap, this]
  · by_cases hm : pair_diff g nl i < double_mul TOL (pair_avg g nl i) <;> simp [hgap, hm]

theorem emitted_length_le (type : ℚ → ℚ) (g : Isis_Hist_t) (nl : Int → Int) (is : List Int) :
    ((emitted type g nl is).length : Int) ≤ count_sum g nl is := by
  induction is with
  | nil => simp [emitted_nil, count_sum]
  | cons i rest ih =>
    rw [emitted_cons, List.length_append]
    have := emit_entries_length_le type g nl i
    simp only [count_sum, List.map_cons, List.sum_cons] at ih ⊢
    push_cast
    omega

theorem set_zero_eq {α : Type} (l : List α) (v : α) (h : 0 < l.length) :
    l.set 0 v = v :: l.drop 1 := by
  have := drop_set_self l 0 v h
  simpa using this

theorem count_sum_nonneg (g : Isis_Hist_t) (nl : Int → Int) (is : List Int) :
    0 ≤ count_sum g nl is := by
  induction is with
  | nil => simp [count_sum]
  | cons i rest ih =>
    simp only [count_sum, List.map_cons, List.sum_cons] at ih ⊢
    split <;> omega

theorem MAKE_XG_eq (type : ℚ → ℚ) (raw : Raw_Memory) (g : Isis_Hist_t) (nl : Int → Int)
    (hnl : g.notice_list = some nl) (hn : 1 ≤ g.n_notice) :
    MAKE_XG type raw (some g) =
      if count_sum g nl (loop_range 1 g.n_notice)
          = (emitted type g nl (loop_range 1 g.n_notice)).length
      then some (grid_spec type g nl) else none := by
  have hcnt := count_fold_spec g nl (loop_range 1 g.n_notice) 1
  have hle := emitted_length_le type g nl (loop_range 1 g.n_notice)
  have hnn := count_sum_nonneg g nl (loop_range 1 g.n_notice)
  obtain ⟨c, hc⟩ : ∃ c : Nat, count_sum g nl (loop_range 1 g.n_notice) = c :=
    ⟨(count_sum g nl (loop_range 1 g.n_notice)).toNat, by omega⟩
  simp only [MAKE_XG, hnl, new_xspec_info_type, hcnt]
  rw [if_neg (by omega), if_neg (by omega)]
  simp only []
  have hspec := emit_fold_spec type g nl (loop_range 1 g.n_notice)
    { k := 1 + count_sum g nl (loop_range 1 g.n_notice)
      ebins := (List.map raw.ebins
        (List.range (1 + count_sum g nl (loop_range 1 g.n_notice) + 1).toNat)).set
          (1 + count_sum g nl (loop_range 1 g.n_notice)).toNat
          (type (type KEV_ANGSTROM / g.bin_lo (nl 0)))
      keep := List.map raw.keep
        (List.range (1 + count_sum g nl (loop_range 1 g.n_notice)).toNat) }
    (by simp only []; omega) (by simp) (by simp)
  obtain ⟨a1, a2, a3, a4, a5⟩ := hspec
  simp only [] at a1 a2 a3 a4 a5
  generalize List.foldl (emit_step type g nl) _ (loop_range 1 g.n_notice) = S
    at a1 a2 a3 a4 a5 ⊢
  generalize hE : emitted type g nl (loop_range 1 g.n_notice) = E at *
  rw [hc] at a1 a2 a3 a4 a5 hle ⊢
  have t1 : (1 + (c : Int)).toNat = c + 1 := by omega
  have t2 : (1 + (c : Int) + 1).toNat = c + 2 := by omega
  simp only [t1, t2, List.length_set, List.length_map, List.length_range] at a2 a3 a4 a5 ⊢
  have hd1 : List.drop (c + 1) (List.map raw.keep (List.range (c + 1))) = [] := by
    apply List.drop_of_length_le; simp
  have hd2 : List.drop (c + 1) ((List.map raw.ebins (List.range (c + 2))).set (c + 1)
      (type (type KEV_ANGSTROM / g.bin_lo (nl 0))))
      = [type (type KEV_ANGSTROM / g.bin_lo (nl 0))] := by
    rw [drop_set_self _ (c + 1) _ (by simp)]
    simp
  rw [hd1] at a4
  rw [hd2] at a5
  by_cases hsucc : (c : Int) = E.length
  · have hk1 : S.k = 1 := by omega
    have hk : (S.k - 1).toNat = 0 := by omega
    have hk' : S.k.toNat = 1 := by omega
    rw [hk'] at a4 a5
    rw [if_neg (by omega), if_pos hsucc, hk, set_zero_eq _ _ (by omega),
      set_zero_eq _ _ (by omega), a4, a5]
    have hlen : c = E.length := by exact_mod_cast hsucc
    simp [grid_spec, hE, hlen]
    omega
  · rw [if_pos (by omega), if_neg hsucc]

theorem mem_loop_range (lo hi i : Int) : i ∈ loop_range lo hi ↔ lo ≤ i ∧ i < hi := by
  unfold loop_range
  simp only [List.mem_map, List.mem_range]
  constructor
  · rintro ⟨j, hj, rfl⟩
    omega
  · rintro ⟨h1, h2⟩
    exact ⟨(i - lo).toNat, by omega, by omega⟩

theorem loop_range_length (lo hi : Int) : (loop_range lo hi).length = (hi - lo).toNat := by
  simp [loop_range]

theorem loop_range_empty (lo hi : Int) (h : hi ≤ lo) : loop_range lo hi = [] := by
  have : (hi - lo).toNat = 0 := by omega
  simp [loop_range, this]

theorem loop_range_append (lo mid hi : Int) (h1 : lo ≤ mid) (h2 : mid ≤ hi) :
    loop_range lo hi = loop_range lo mid ++ loop_range mid hi := by
  unfold loop_range
  have e : (hi - lo).toNat = (mid - lo).toNat + (hi - mid).toNat := by omega
  rw [e, List.range_add, List.map_append, List.map_map]
  congr 1
  apply List.map_congr_left
  intro j _
  simp only [Function.comp]
  push_cast
  omega

theorem loop_range_cons (lo hi : Int) (h : lo < hi) :
    loop_range lo hi = lo :: loop_range (lo + 1) hi := by
  rw [loop_range_append lo (lo + 1) hi (by omega) (by omega)]
  have : loop_range lo (lo + 1) = [lo] := by
    have e : (lo + 1 - lo).toNat = 1 := by omega
    simp [loop_range, e, List.range_succ]
  rw [this]
  rfl

theorem loop_range_snoc (lo hi : Int) (h : lo ≤ hi) :
    loop_range lo (hi + 1) = loop_range lo hi ++ [hi] := by
  rw [loop_range_append lo hi (hi + 1) h (by omega), loop_range_cons hi (hi + 1) (by omega),
    loop_range_empty (hi + 1) (hi + 1) (le_refl _)]

theorem emitted_length (type : ℚ → ℚ) (g : Isis_Hist_t) (nl : Int → Int) (is : List Int) :
    ((emitted type g nl is).length : Int) = (is.map (pair_bins g nl)).sum := by
  induction is with
  | nil => simp [emitted_nil]
  | cons i rest ih =>
    rw [emitted_cons, List.length_append, List.map_cons, List.sum_cons]
    push_cast
    rw [ih]
    have : ((emit_entries type g nl i).length : Int) = pair_bins g nl i := by
      unfold emit_entries pair_bins
      split <;> simp
    omega

theorem count_sum_eq_iff (type : ℚ → ℚ) (g : Isis_Hist_t) (nl : Int → Int) (is : List Int) :
    count_sum g nl is = (emitted type g nl is).length
      ↔ ∀ i ∈ is, pair_diff g nl i ≠ double_mul TOL (pair_avg g nl i) := by
  induction is with
  | nil => simp [count_sum, emitted_nil]
  | cons i rest ih =>
    have hle := emitted_length_le type g nl rest
    have hi := emit_entries_length_le type g nl i
    rw [emitted_cons, List.length_append]
    simp only [count_sum, List.map_cons, List.sum_cons, List.mem_cons, forall_eq_or_imp] at *
    push_cast
    have key : ((emit_entries type g nl i).length : Int)
        = (if pair_diff g nl i < double_mul TOL (pair_avg g nl i) then (1 : Int) else 2)
        ↔ pair_diff g nl i ≠ double_mul TOL (pair_avg g nl i) := by
      unfold emit_entries
      rcases lt_trichotomy (pair_diff g nl i) (double_mul TOL (pair_avg g nl i)) with h | h | h
      · have h' : ¬ pair_diff g nl i > double_mul TOL (pair_avg g nl i) := not_lt.mpr (le_of_lt h)
        simp [h, h', ne_of_lt h]
      · simp [h]
      · have h' : ¬ pair_diff g nl i < double_mul TOL (pair_avg g nl i) := not_lt.mpr (le_of_lt h)
        simp [h, h', ne_of_gt h]
    rw [← ih, ← key]
    constructor
    · intro h; constructor <;> omega
    · rintro ⟨h1, h2⟩; omega

theorem MAKE_XG_some_iff (type : ℚ → ℚ) (raw : Raw_Memory) (g : Isis_Hist_t) (nl : Int → Int)
    (hnl : g.notice_list = some nl) (hn : 1 ≤ g.n_notice) (x : Xspec_Info_Type) :
    MAKE_XG type raw (some g) = some x ↔
      (∀ i, 1 ≤ i → i < g.n_notice → pair_diff g nl i ≠ double_mul TOL (pair_avg g nl i))
        ∧ x = grid_spec type g nl := by
  rw [MAKE_XG_eq type raw g nl hnl hn]
  have hiff := count_sum_eq_iff type g nl (loop_range 1 g.n_notice)
  simp only [mem_loop_range] at hiff
  constructor
  · intro h
    split at h
    · rename_i hall
      exact ⟨fun i h1 h2 => hiff.mp hall i ⟨h1, h2⟩, by simpa using h.symm⟩
    · simp at h
  · rintro ⟨hall, rfl⟩
    rw [if_pos (hiff.mpr (fun i hi => hall i hi.1 hi.2))]

theorem MAKE_XG_null (type : ℚ → ℚ) (raw : Raw_Memory) (g : Option Isis_Hist_t)
    (h : g = none ∨ (∃ g0, g = some g0 ∧ (g0.notice_list = none ∨ g0.n_notice < 1))) :
    MAKE_XG type raw g = none := by
  rcases h with rfl | ⟨g0, rfl, h | h⟩
  · rfl
  · simp [MAKE_XG, h]
  · unfold MAKE_XG
    cases hnl : g0.notice_list <;> simp [hnl, h]

theorem emitted_all_match (type : ℚ → ℚ) (g : Isis_Hist_t) (nl : Int → Int) (is : List Int)
    (h : ∀ i ∈ is, pair_diff g nl i < double_mul TOL (pair_avg g nl i)) :
    (emitted type g nl is).map Prod.snd = List.replicate is.length 1 := by
  induction is with
  | nil => simp [emitted_nil]
  | cons i rest ih =>
    have hi := h i (List.mem_cons_self _ _)
    have hng : ¬ pair_diff g nl i > double_mul TOL (pair_avg g nl i) := not_lt.mpr (le_of_lt hi)
    rw [emitted_cons, List.map_append, ih (fun j hj => h j (List.mem_cons_of_mem _ hj))]
    simp only [emit_entries, hng, if_false, List.map_cons, List.map_nil, List.length_cons]
    rw [List.replicate_succ']

theorem getD_append_three {α : Type} (pre post : List α) (a b c d : α) :
    (pre ++ a :: b :: c :: post).getD pre.length d = a ∧
    (pre ++ a :: b :: c :: post).getD (pre.length + 1) d = b ∧
    (pre ++ a :: b :: c :: post).getD (pre.length + 2) d = c := by
  induction pre with
  | nil => simp
  | cons p ps ih => simpa using ih

theorem count_zero_emitted (type : ℚ → ℚ) (g : Isis_Hist_t) (nl : Int → Int) (is : List Int) :
    ((emitted type g nl is).map Prod.snd).count 0
      = is.countP (fun i => decide (pair_diff g nl i > double_mul TOL (pair_avg g nl i))) := by
  induction is with
  | nil => simp [emitted_nil]
  | cons i rest ih =>
    rw [emitted_cons, List.map_append, List.count_append, ih, List.countP_cons]
    congr 1
    unfold emit_entries
    by_cases hgap : pair_diff g nl i > double_mul TOL (pair_avg g nl i) <;> simp [hgap]

/-- The entry of noticed bin `i` is the topmost entry among those stored for
the bins `i, i+1, ..., n_notice-1`. -/
theorem body_last (type : ℚ → ℚ) (g : Isis_Hist_t) (nl : Int → Int) (i : Int)
    (h2 : i < g.n_notice) :
    ∃ pre : List (ℚ × Int),
      (type (type KEV_ANGSTROM / g.bin_hi (nl (g.n_notice - 1))), (1 : Int))
          :: emitted type g nl (loop_range (i + 1) g.n_notice)
        = pre ++ [(type (type KEV_ANGSTROM / g.bin_hi (nl i)), 1)] ∧
      pre.length = (emitted type g nl (loop_range (i + 1) g.n_notice)).length := by
  by_cases hlast : i + 1 = g.n_notice
  · refine ⟨[], ?_, ?_⟩
    · have : g.n_notice - 1 = i := by omega
      rw [loop_range_empty _ _ (by omega), emitted_nil, this]
      rfl
    · rw [loop_range_empty _ _ (by omega), emitted_nil]
  · rw [loop_range_cons (i + 1) g.n_notice (by omega), emitted_cons]
    unfold emit_entries
    have e : i + 1 - 1 = i := by omega
    by_cases hgap : pair_diff g nl (i + 1) > double_mul TOL (pair_avg g nl (i + 1))
    · refine ⟨(type (type KEV_ANGSTROM / g.bin_hi (nl (g.n_notice - 1))), (1 : Int))
        :: emitted type g nl (loop_range (i + 1 + 1) g.n_notice)
        ++ [(type (type KEV_ANGSTROM / g.bin_lo (nl (i + 1))), 0)], ?_, ?_⟩
      · simp [hgap, e]
      · simp [hgap]
    · refine ⟨(type (type KEV_ANGSTROM / g.bin_hi (nl (g.n_notice - 1))), (1 : Int))
        :: emitted type g nl (loop_range (i + 1 + 1) g.n_notice), ?_, ?_⟩
      · simp [hgap, e]
      · simp [hgap]

/-- The stored entries around the gap of the pair `(i-1, i)`. -/
theorem body_split (type : ℚ → ℚ) (g : Isis_Hist_t) (nl : Int → Int) (i : Int)
    (h1 : 1 ≤ i) (h2 : i < g.n_notice)
    (hgap : pair_diff g nl i > double_mul TOL (pair_avg g nl i)) :
    ∃ pre : List (ℚ × Int),
      (type (type KEV_ANGSTROM / g.bin_hi (nl (g.n_notice - 1))), (1 : Int))
          :: emitted type g nl (loop_range 1 g.n_notice)
        = pre ++ (type (type KEV_ANGSTROM / g.bin_hi (nl i)), 1)
            :: (type (type KEV_ANGSTROM / g.bin_lo (nl i)), 0)
            :: (type (type KEV_ANGSTROM / g.bin_hi (nl (i - 1))), 1)
            :: emitted type g nl (loop_range 1 i) ∧
      pre.length + 1 = gap_position g nl i := by
  obtain ⟨pre, hpre, hlen⟩ := body_last type g nl i h2
  refine ⟨pre, ?_, ?_⟩
  · rw [loop_range_append 1 i g.n_notice h1 (by omega), loop_range_cons i g.n_notice h2,
      emitted_append, emitted_cons, ← List.cons_append, ← List.cons_append, hpre]
    simp [emit_entries, hgap]
  · unfold gap_position
    rw [hlen, ← emitted_length type]
    omega

theorem MAKE_XG_some_n_notice (type : ℚ → ℚ) (raw : Raw_Memory) (g : Isis_Hist_t)
    (x : Xspec_Info_Type) (h : MAKE_XG type raw (some g) = some x) : 1 ≤ g.n_notice := by
  by_contra hn
  rw [MAKE_XG_null type raw (some g) (Or.inr ⟨g, rfl, Or.inr (by omega)⟩)] at h
  simp at h

/-! ## Example inputs: facts -/

theorem example_contiguous_touch : ∀ i, 1 ≤ i → i < example_contiguous.n_notice →
    pair_diff example_contiguous id i < double_mul TOL (pair_avg example_contiguous id i) := by
  intro i h1 h2
  have h2' : i < 3 := h2
  interval_cases i <;>
    decide!

theorem example_contiguous_built (type : ℚ → ℚ) (raw : Raw_Memory) :
    MAKE_XG type raw (some example_contiguous) = some (grid_spec type example_contiguous id) :=
  (MAKE_XG_some_iff type raw example_contiguous id rfl (by decide) _).mpr
    ⟨fun i h1 h2 => ne_of_lt (example_contiguous_touch i h1 h2), rfl⟩

theorem example_gapped_gap : ∀ i, 1 ≤ i → i < example_gapped.n_notice →
    pair_diff example_gapped (fun i => 2 * i) i
      > double_mul TOL (pair_avg example_gapped (fun i => 2 * i) i) := by
  intro i h1 h2
  have h2' : i < 3 := h2
  interval_cases i <;>
    decide!

theorem example_gapped_built (type : ℚ → ℚ) (raw : Raw_Memory) :
    MAKE_XG type raw (some example_gapped)
      = some (grid_spec type example_gapped (fun i => 2 * i)) :=
  (MAKE_XG_some_iff type raw example_gapped (fun i => 2 * i) rfl (by decide) _).mpr
    ⟨fun i h1 h2 => ne_of_gt (example_gapped_gap i h1 h2), rfl⟩

theorem example_single_built (type : ℚ → ℚ) (raw : Raw_Memory) :
    MAKE_XG type raw (some example_single) = some (grid_spec type example_single id) :=
  (MAKE_XG_some_iff type raw example_single id rfl (by decide) _).mpr
    ⟨fun i h1 h2 => absurd h2 (by simp only [example_single, unit_bins]; omega), rfl⟩

/-! ## Grid translator: claims -/

/-- C2 (amended): in a grid built by the translator (either precision), the
number of non-keep entries (`keep = 0`) equals the number of adjacent noticed
pairs for which the test `diff > TOL * avg` of the code holds, with `diff`,
`avg` and the product computed in `double`, so the other pairs contribute
none; and for every such gapped pair `(i-1, i)` the entry at index
`gap_position` is non-keep, holds the converted lower edge of bin `i`, and lies
between the keep entry of bin `i` (just below) and the keep entry of bin `i-1`
(just above). -/
theorem make_xspec_grid_gap_entries (type : ℚ → ℚ) (raw : Raw_Memory) (g : Isis_Hist_t)
    (nl : Int → Int) (x : Xspec_Info_Type) (hnl : g.notice_list = some nl)
    (hbuilt : MAKE_XG type raw (some g) = some x) :
    x.keep.count 0 = (loop_range 1 g.n_notice).countP
        (fun i => decide (pair_diff g nl i > double_mul TOL (pair_avg g nl i))) ∧
    ∀ i, 1 ≤ i → i < g.n_notice → pair_diff g nl i > double_mul TOL (pair_avg g nl i) →
      1 ≤ gap_position g nl i ∧ gap_position g nl i + 1 < x.keep.length ∧
      x.keep.getD (gap_position g nl i) 0 = 0 ∧
      x.ebins.getD (gap_position g nl i) 0 = type (type KEV_ANGSTROM / g.bin_lo (nl i)) ∧
      x.keep.getD (gap_position g nl i + 1) 0 = 1 ∧
      x.ebins.getD (gap_position g nl i + 1) 0
        = type (type KEV_ANGSTROM / g.bin_hi (nl (i - 1))) ∧
      x.keep.getD (gap_position g nl i - 1) 0 = 1 ∧
      x.ebins.getD (gap_position g nl i - 1) 0 = type (type KEV_ANGSTROM / g.bin_hi (nl i)) := by
  have hn := MAKE_XG_some_n_notice type raw g x hbuilt
  obtain ⟨_, rfl⟩ := (MAKE_XG_some_iff type raw g nl hnl hn x).mp hbuilt
  constructor
  · simp only [grid_spec, List.map_cons, List.count_cons]
    rw [count_zero_emitted]
    simp
  · intro i h1 h2 hgap
    obtain ⟨pre, hpre, hlen⟩ := body_split type g nl i h1 h2 hgap
    have hk := getD_append_three (pre.map Prod.snd) ((emitted type g nl (loop_range 1 i)).map
      Prod.snd) (1 : Int) 0 1 0
    have he := getD_append_three (pre.map Prod.fst) ((emitted type g nl (loop_range 1 i)).map
      Prod.fst ++ [type (type KEV_ANGSTROM / g.bin_lo (nl 0))])
      (type (type KEV_ANGSTROM / g.bin_hi (nl i))) (type (type KEV_ANGSTROM / g.bin_lo (nl i)))
      (type (type KEV_ANGSTROM / g.bin_hi (nl (i - 1)))) 0
    have hkeep : (grid_spec type g nl).keep
        = pre.map Prod.snd ++ 1 :: 0 :: 1 :: (emitted type g nl (loop_range 1 i)).map Prod.snd := by
      simp only [grid_spec]
      rw [hpre]
      simp
    have hebins : (grid_spec type g nl).ebins
        = pre.map Prod.fst ++ type (type KEV_ANGSTROM / g.bin_hi (nl i))
            :: type (type KEV_ANGSTROM / g.bin_lo (nl i))
            :: type (type KEV_ANGSTROM / g.bin_hi (nl (i - 1)))
            :: ((emitted type g nl (loop_range 1 i)).map Prod.fst
                ++ [type (type KEV_ANGSTROM / g.bin_lo (nl 0))]) := by
      simp only [grid_spec]
      rw [hpre]
      simp
    simp only [List.length_map] at hk he
    rw [← hlen, hkeep, hebins]
    simp only [Nat.add_sub_cancel]
    refine ⟨by omega, ?_, hk.2.1, he.2.1, hk.2.2, he.2.2, hk.1, he.1⟩
    simp only [List.length_append, List.length_map, List.length_cons]
    omega

/-- Witness for C2 (amended): unit bins 0, 2 and 4 noticed; the pair `(0, 1)` of
the notice list is gapped. -/
theorem make_xspec_grid_gap_entries_witness :
    example_gapped.notice_list = some (fun i => 2 * i) ∧
    MAKE_XG id example_raw (some example_gapped)
      = some (grid_spec id example_gapped (fun i => 2 * i)) ∧
    (grid_spec id example_gapped (fun i => 2 * i)).keep.count 0
      = (loop_range 1 example_gapped.n_notice).countP
        (fun i => decide (pair_diff example_gapped (fun i => 2 * i) i
          > double_mul TOL (pair_avg example_gapped (fun i => 2 * i) i))) ∧
    (grid_spec id example_gapped (fun i => 2 * i)).keep.getD
      (gap_position example_gapped (fun i => 2 * i) 1) 0 = 0 :=
  ⟨rfl, example_gapped_built id example_raw,
    (make_xspec_grid_gap_entries id example_raw example_gapped (fun i => 2 * i) _ rfl
      (example_gapped_built id example_raw)).1,
    ((make_xspec_grid_gap_entries id example_raw example_gapped (fun i => 2 * i) _ rfl
      (example_gapped_built id example_raw)).2 1 (le_refl _) (by decide)
      (example_gapped_gap 1 (le_refl _) (by decide))).2.2.1⟩

/-- C2 (as stated) fails: the two noticed bins of `overflow_grid` are separated
by a gap, `|bin_lo[1] - bin_hi[0]| > TOL * 0.5 * |bin_lo[1] + bin_hi[0]|`, but
in `double` the sum overflows, `TOL * avg` is `+inf`, the test
`diff > TOL * avg` is false and the grid that is built has two bins, both
marked keep, and no non-keep entry. -/
theorem make_xspec_grid_gap_entries_counterexample :
    overflow_grid.notice_list = some id ∧ overflow_grid.n_notice = 2 ∧
    |overflow_grid.bin_lo 1 - overflow_grid.bin_hi 0|
      > TOL * 0.5 * |overflow_grid.bin_lo 1 + overflow_grid.bin_hi 0| ∧
    double_mul TOL (pair_avg overflow_grid id 1) = ⊤ ∧
    ¬ pair_diff overflow_grid id 1 > double_mul TOL (pair_avg overflow_grid id 1) ∧
    ∃ x, make_d_xspec_grid example_raw (some overflow_grid) = some x ∧
      x.nbins = 2 ∧ x.keep = [1, 1] ∧ x.keep.count 0 = 0 := by
  have hlt : pair_diff overflow_grid id 1 < double_mul TOL (pair_avg overflow_grid id 1) := by
    decide!
  have hall : ∀ i ∈ loop_range 1 overflow_grid.n_notice,
      pair_diff overflow_grid id i < double_mul TOL (pair_avg overflow_grid id i) := by
    intro i hi
    obtain ⟨h1, h2⟩ := (mem_loop_range _ _ _).mp hi
    have h2' : i < 2 := h2
    interval_cases i
    exact hlt
  have hbuilt : MAKE_XG id example_raw (some overflow_grid)
      = some (grid_spec id overflow_grid id) :=
    (MAKE_XG_some_iff id example_raw overflow_grid id rfl (by decide) _).mpr
      ⟨fun i h1 h2 => ne_of_lt (hall i ((mem_loop_range _ _ _).mpr ⟨h1, h2⟩)), rfl⟩
  have hk := emitted_all_match id overflow_grid id _ hall
  have hlen : (loop_range 1 overflow_grid.n_notice).length = 1 := by
    rw [loop_range_length]
    rfl
  rw [hlen] at hk
  have hkeep : (grid_spec id overflow_grid id).keep = [1, 1] := by
    simp only [grid_spec, List.map_cons, hk]
    rfl
  have hn : (grid_spec id overflow_grid id).nbins = 2 := by
    have e : (grid_spec id overflow_grid id).nbins
        = ((grid_spec id overflow_grid id).keep.length : Int) := by
      simp [grid_spec]
    rw [e, hkeep]
    rfl
  refine ⟨rfl, rfl, by decide!, by decide!, not_lt.mpr (le_of_lt hlt),
    grid_spec id overflow_grid id, hbuilt, hn, hkeep, ?_⟩
  rw [hkeep]
  decide

/-- C3 (as stated) fails: for a single noticed bin there is no adjacent pair, so
the claimed number of edges is 1, but the grid returned has two edges. -/
theorem make_xspec_grid_edge_count_counterexample :
    ∃ x, make_d_xspec_grid example_raw (some example_single) = some x ∧
      x.ebins.length = 2 ∧
      1 + ((loop_range 1 example_single.n_notice).map (fun i =>
        if pair_diff example_single id i < double_mul TOL (pair_avg example_single id i)
        then (1 : Int) else 2)).sum = 1 := by
  have hr : loop_range 1 example_single.n_notice = [] := loop_range_empty _ _ (by decide)
  refine ⟨grid_spec id example_single id, example_single_built id example_raw, ?_, ?_⟩
  · simp [grid_spec, hr, emitted_nil]
  · simp [hr]

/-- C3 (amended): in a grid returned by the translator (either precision) the
number of bins `nbins` equals 1 + the sum over adjacent noticed pairs of (1 if
the test `diff < TOL * avg` of the code holds, with `diff`, `avg` and the
product computed in `double`; 2 otherwise), and the number of edges is
`nbins + 1`. -/
theorem make_xspec_grid_bin_count (type : ℚ → ℚ) (raw : Raw_Memory) (g : Isis_Hist_t)
    (nl : Int → Int) (x : Xspec_Info_Type) (hnl : g.notice_list = some nl)
    (hbuilt : MAKE_XG type raw (some g) = some x) :
    x.nbins = 1 + ((loop_range 1 g.n_notice).map (fun i =>
        if pair_diff g nl i < double_mul TOL (pair_avg g nl i) then (1 : Int) else 2)).sum ∧
      (x.ebins.length : Int) = x.nbins + 1 := by
  have hn := MAKE_XG_some_n_notice type raw g x hbuilt
  have heq := MAKE_XG_eq type raw g nl hnl hn
  rw [hbuilt] at heq
  split at heq
  · rename_i hc
    have hx : x = grid_spec type g nl := by simpa using heq
    subst hx
    unfold count_sum at hc
    rw [hc]
    simp only [grid_spec, List.length_cons, List.length_append, List.length_map,
      List.length_nil]
    constructor <;> push_cast <;> omega
  · simp at heq

/-- Witness for C3 (amended): three contiguous unit bins. -/
theorem make_xspec_grid_bin_count_witness :
    example_contiguous.notice_list = some id ∧
    MAKE_XG id example_raw (some example_contiguous)
      = some (grid_spec id example_contiguous id) ∧
    (grid_spec id example_contiguous id).nbins
      = 1 + ((loop_range 1 example_contiguous.n_notice).map (fun i =>
        if pair_diff example_contiguous id i < double_mul TOL (pair_avg example_contiguous id i)
        then (1 : Int) else 2)).sum ∧
    ((grid_spec id example_contiguous id).ebins.length : Int)
      = (grid_spec id example_contiguous id).nbins + 1 :=
  ⟨rfl, example_contiguous_built id example_raw,
    make_xspec_grid_bin_count id example_raw example_contiguous id _ rfl
      (example_contiguous_built id example_raw)⟩

/-- C4: on `boundary_grid` (non-null notice list, two noticed bins sharing the
edge `0`) the counting loop adds two bins for the pair (`diff < TOL * avg` is
false) while the emitting loop stores one entry (`diff > TOL * avg` is false
too), so the check `k != 0` fires and no grid is produced. -/
theorem make_xspec_grid_fails_on_boundary (type : ℚ → ℚ) (raw : Raw_Memory) :
    boundary_grid.notice_list = some id ∧ boundary_grid.n_notice = 2 ∧
    pair_diff boundary_grid id 1 = double_mul TOL (pair_avg boundary_grid id 1) ∧
    (loop_range 1 boundary_grid.n_notice).foldl (count_step boundary_grid id) 1 = 3 ∧
    (emitted type boundary_grid id (loop_range 1 boundary_grid.n_notice)).length = 1 ∧
    MAKE_XG type raw (some boundary_grid) = none := by
  have hpair : pair_diff boundary_grid id 1 = double_mul TOL (pair_avg boundary_grid id 1) := by
    decide!
  have hr : loop_range 1 boundary_grid.n_notice = [1] := by
    rw [show boundary_grid.n_notice = 1 + 1 from rfl, loop_range_snoc 1 1 (le_refl _),
      loop_range_empty 1 1 (le_refl _)]
    rfl
  refine ⟨rfl, rfl, hpair, ?_, ?_, ?_⟩
  · rw [hr]
    simp [count_step, hpair]
  · rw [hr, emitted_cons, emitted_nil]
    simp [emit_entries, hpair]
  · cases hres : MAKE_XG type raw (some boundary_grid) with
    | none => rfl
    | some x =>
      have := ((MAKE_XG_some_iff type raw boundary_grid id rfl (by decide) x).mp hres).1 1
        (le_refl _) (by decide)
      exact absurd hpair this

theorem KEV_ANGSTROM_pos : 0 < KEV_ANGSTROM := by
  norm_num [KEV_ANGSTROM, PLANCK, CLIGHT, ERG_PER_EV]

theorem zip_fst_snd {α β : Type} (l : List (α × β)) (t : List α) :
    (l.map Prod.fst ++ t).zip (l.map Prod.snd) = l := by
  induction l with
  | nil => simp
  | cons p ps ih => simp [ih]

theorem emitted_keep_entries (type : ℚ → ℚ) (g : Isis_Hist_t) (nl : Int → Int)
    (is : List Int) :
    (emitted type g nl is).filter (fun p => decide (p.2 ≠ 0))
      = is.reverse.map (fun i => (type (type KEV_ANGSTROM / g.bin_hi (nl (i - 1))), (1 : Int))) := by
  induction is with
  | nil => simp [emitted_nil]
  | cons i rest ih =>
    rw [emitted_cons, List.filter_append, ih, List.reverse_cons, List.map_append]
    congr 1
    unfold emit_entries
    by_cases hgap : pair_diff g nl i > double_mul TOL (pair_avg g nl i) <;> simp [hgap]

theorem loop_range_shift (n : Int) :
    (loop_range 1 n).map (fun i => i - 1) = loop_range 0 (n - 1) := by
  unfold loop_range
  rw [List.map_map]
  have : (n - 1 - 0).toNat = (n - 1).toNat := by omega
  rw [this]
  apply List.map_congr_left
  intro j _
  simp only [Function.comp]
  omega

/-- The keep entries of the grid, by ascending index, are the entries of the
noticed bins `n_notice-1, ..., 0`. -/
theorem grid_spec_keep_entries (type : ℚ → ℚ) (g : Isis_Hist_t) (nl : Int → Int)
    (hn : 1 ≤ g.n_notice) :
    (((grid_spec type g nl).ebins.zip (grid_spec type g nl).keep).filter
        (fun p => decide (p.2 ≠ 0))).map Prod.fst
      = (loop_range 0 g.n_notice).reverse.map
          (fun j => type (type KEV_ANGSTROM / g.bin_hi (nl j))) := by
  simp only [grid_spec]
  rw [zip_fst_snd, List.filter_cons]
  simp only [ne_eq, one_ne_zero, not_false_eq_true, decide_True, if_true, List.map_cons]
  have hsplit : loop_range 0 g.n_notice = loop_range 0 (g.n_notice - 1) ++ [g.n_notice - 1] := by
    have := loop_range_snoc 0 (g.n_notice - 1) (by omega)
    rwa [show g.n_notice - 1 + 1 = g.n_notice by omega] at this
  have hfilt := emitted_keep_entries type g nl (loop_range 1 g.n_notice)
  simp only [ne_eq] at hfilt
  rw [hfilt, hsplit, List.reverse_append, ← loop_range_shift]
  simp [List.map_reverse, Function.comp_def]

theorem grid_spec_keep_count (type : ℚ → ℚ) (g : Isis_Hist_t) (nl : Int → Int)
    (hn : 1 ≤ g.n_notice) :
    (((grid_spec type g nl).keep.filter (fun v => decide (v ≠ 0))).length : Int)
      = g.n_notice := by
  have h := congrArg List.length (grid_spec_keep_entries type g nl hn)
  simp only [List.length_map, List.length_reverse, loop_range_length] at h
  have hz : (grid_spec type g nl).keep.filter (fun v => decide (v ≠ 0))
      = (((grid_spec type g nl).ebins.zip (grid_spec type g nl).keep).filter
        (fun p => decide (p.2 ≠ 0))).map Prod.snd := by
    simp only [grid_spec]
    rw [zip_fst_snd, List.filter_map]
    rfl
  rw [hz, List.length_map, h]
  omega

/-- C5: in a grid built by the double-precision translator, exactly `n_notice`
bins are marked keep; listing the keep bins by ascending index, their lower
edges are `KEV_ANGSTROM / bin_hi[notice_list[j]]` for `j = n_notice-1, ..., 0`
(so the `j`-th keep bin from the top belongs to the `j`-th noticed bin); the
topmost edge `ebins[nbins]` is `KEV_ANGSTROM / bin_lo[notice_list[0]]` and the
bottom edge `ebins[0]` is `KEV_ANGSTROM / bin_hi[notice_list[n_notice-1]]`. -/
theorem make_d_xspec_grid_keep_bins (raw : Raw_Memory) (g : Isis_Hist_t) (nl : Int → Int)
    (x : Xspec_Info_Type) (hnl : g.notice_list = some nl)
    (hbuilt : make_d_xspec_grid raw (some g) = some x) :
    ((x.keep.filter (fun v => decide (v ≠ 0))).length : Int) = g.n_notice ∧
    ((x.ebins.zip x.keep).filter (fun p => decide (p.2 ≠ 0))).map Prod.fst
      = (loop_range 0 g.n_notice).reverse.map (fun j => KEV_ANGSTROM / g.bin_hi (nl j)) ∧
    x.ebins.getD x.nbins.toNat 0 = KEV_ANGSTROM / g.bin_lo (nl 0) ∧
    x.ebins.getD 0 0 = KEV_ANGSTROM / g.bin_hi (nl (g.n_notice - 1)) := by
  unfold make_d_xspec_grid at hbuilt
  have hn := MAKE_XG_some_n_notice id raw g x hbuilt
  obtain ⟨_, rfl⟩ := (MAKE_XG_some_iff id raw g nl hnl hn x).mp hbuilt
  refine ⟨grid_spec_keep_count id g nl hn, ?_, ?_, ?_⟩
  · simpa using grid_spec_keep_entries id g nl hn
  · simp only [grid_spec, Int.toNat_ofNat, id]
    rw [List.getD_eq_getElem?_getD, List.getElem?_append_right (by simp)]
    simp
  · simp [grid_spec]

/-- Witness for C5: unit bins 0, 2 and 4 noticed. -/
theorem make_d_xspec_grid_keep_bins_witness :
    example_gapped.notice_list = some (fun i => 2 * i) ∧
    make_d_xspec_grid example_raw (some example_gapped)
      = some (grid_spec id example_gapped (fun i => 2 * i)) ∧
    (((grid_spec id example_gapped (fun i => 2 * i)).keep.filter
      (fun v => decide (v ≠ 0))).length : Int) = example_gapped.n_notice ∧
    (grid_spec id example_gapped (fun i => 2 * i)).ebins.getD 0 0
      = KEV_ANGSTROM / example_gapped.bin_hi (2 * (example_gapped.n_notice - 1)) :=
  ⟨rfl, example_gapped_built id example_raw,
    (make_d_xspec_grid_keep_bins example_raw example_gapped (fun i => 2 * i) _ rfl
      (example_gapped_built id example_raw)).1,
    (make_d_xspec_grid_keep_bins example_raw example_gapped (fun i => 2 * i) _ rfl
      (example_gapped_built id example_raw)).2.2.2⟩

theorem ebins_chain (g : Isis_Hist_t) (nl : Int → Int)
    (hpos : ∀ j, 0 ≤ j → j < g.n_notice → 0 < g.bin_lo (nl j))
    (hbin : ∀ j, 0 ≤ j → j < g.n_notice → g.bin_lo (nl j) < g.bin_hi (nl j))
    (hord : ∀ j, 1 ≤ j → j < g.n_notice → g.bin_hi (nl (j - 1)) ≤ g.bin_lo (nl j))
    (m : Nat) (hm : (m : Int) < g.n_notice) :
    List.Chain' (· < ·) (KEV_ANGSTROM / g.bin_hi (nl m)
      :: ((emitted id g nl (loop_range 1 (m + 1))).map Prod.fst
          ++ [KEV_ANGSTROM / g.bin_lo (nl 0)])) := by
  induction m with
  | zero =>
    have h0 := hpos 0 (le_refl _) (by simpa using hm)
    have h1 := hbin 0 (le_refl _) (by simpa using hm)
    have he : loop_range 1 ((0 : Nat) + 1) = [] := loop_range_empty _ _ (by simp)
    rw [he, emitted_nil]
    simp only [List.map_nil, List.nil_append, Nat.cast_zero, List.chain'_cons, List.chain'_singleton,
      and_true]
    exact div_lt_div_of_pos_left KEV_ANGSTROM_pos h0 h1
  | succ m ih =>
    have ih' := ih (by omega)
    have hlo := hpos (m + 1) (by omega) (by exact_mod_cast hm)
    have hb := hbin (m + 1) (by omega) (by exact_mod_cast hm)
    have ho := hord (m + 1) (by omega) (by exact_mod_cast hm)
    have hlo' := hpos m (by omega) (by omega)
    have hb' := hbin m (by omega) (by omega)
    have e1 : ((m : Int) + 1 - 1) = m := by omega
    rw [e1] at ho
    have hsn : loop_range 1 (((m + 1 : Nat) : Int) + 1)
        = loop_range 1 ((m : Int) + 1) ++ [(m : Int) + 1] := by
      push_cast
      exact loop_range_snoc 1 ((m : Int) + 1) (by omega)
    rw [hsn, emitted_append, emitted_cons, emitted_nil, List.nil_append, List.map_append,
      List.append_assoc]
    push_cast
    unfold emit_entries
    by_cases hgap : pair_diff g nl ((m : Int) + 1) > double_mul TOL (pair_avg g nl ((m : Int) + 1))
    · have hne : g.bin_hi (nl m) ≠ g.bin_lo (nl ((m : Int) + 1)) := by
        intro heq
        have hz : pair_diff g nl ((m : Int) + 1) = 0 := by
          rw [pair_diff, e1, heq, double_sub, sub_self]
          exact fabs_double_round_zero
        have ht : 0 ≤ double_mul TOL (pair_avg g nl ((m : Int) + 1)) := tol_avg_nonneg g nl _
        rw [hz] at hgap
        exact absurd hgap (not_lt.mpr ht)
      have hlt : g.bin_hi (nl m) < g.bin_lo (nl ((m : Int) + 1)) := lt_of_le_of_ne ho hne
      simp only [hgap, if_true, List.map_cons, List.map_nil, id, e1, List.cons_append,
        List.nil_append, List.chain'_cons]
      refine ⟨div_lt_div_of_pos_left KEV_ANGSTROM_pos hlo hb,
        div_lt_div_of_pos_left KEV_ANGSTROM_pos (lt_trans hlo' hb') hlt, ?_⟩
      simpa using ih'
    · simp only [hgap, if_false, List.map_cons, List.map_nil, id, e1, List.cons_append,
        List.nil_append, List.chain'_cons]
      refine ⟨div_lt_div_of_pos_left KEV_ANGSTROM_pos (lt_trans hlo' hb')
        (lt_of_le_of_lt ho hb), ?_⟩
      simpa using ih'

/-- C6: under exact arithmetic, when every noticed bin has strictly positive
edges with `bin_lo < bin_hi` and `bin_hi` of each noticed bin is at most
`bin_lo` of the next noticed bin, the edges `ebins[0..nbins]` of a grid built by
the double-precision translator are strictly ascending. -/
theorem make_d_xspec_grid_ascending (raw : Raw_Memory) (g : Isis_Hist_t) (nl : Int → Int)
    (x : Xspec_Info_Type) (hnl : g.notice_list = some nl)
    (hbuilt : make_d_xspec_grid raw (some g) = some x)
    (hpos : ∀ j, 0 ≤ j → j < g.n_notice → 0 < g.bin_lo (nl j))
    (hbin : ∀ j, 0 ≤ j → j < g.n_notice → g.bin_lo (nl j) < g.bin_hi (nl j))
    (hord : ∀ j, 1 ≤ j → j < g.n_notice → g.bin_hi (nl (j - 1)) ≤ g.bin_lo (nl j)) :
    List.Sorted (· < ·) x.ebins ∧ (x.ebins.length : Int) = x.nbins + 1 := by
  unfold make_d_xspec_grid at hbuilt
  have hn := MAKE_XG_some_n_notice id raw g x hbuilt
  obtain ⟨_, rfl⟩ := (MAKE_XG_some_iff id raw g nl hnl hn x).mp hbuilt
  have hch := ebins_chain g nl hpos hbin hord (g.n_notice - 1).toNat (by omega)
  have e1 : (((g.n_notice - 1).toNat : Nat) : Int) = g.n_notice - 1 := by omega
  rw [e1, show g.n_notice - 1 + 1 = g.n_notice by omega] at hch
  constructor
  · unfold List.Sorted
    rw [← List.chain'_iff_pairwise]
    simpa [grid_spec] using hch
  · simp [grid_spec]

/-- Witness for C6: unit bins 0, 2 and 4 noticed. -/
theorem make_d_xspec_grid_ascending_witness :
    example_gapped.notice_list = some (fun i => 2 * i) ∧
    make_d_xspec_grid example_raw (some example_gapped)
      = some (grid_spec id example_gapped (fun i => 2 * i)) ∧
    (∀ j, 0 ≤ j → j < example_gapped.n_notice → 0 < example_gapped.bin_lo (2 * j)) ∧
    (∀ j, 0 ≤ j → j < example_gapped.n_notice →
      example_gapped.bin_lo (2 * j) < example_gapped.bin_hi (2 * j)) ∧
    (∀ j, 1 ≤ j → j < example_gapped.n_notice →
      example_gapped.bin_hi (2 * (j - 1)) ≤ example_gapped.bin_lo (2 * j)) ∧
    List.Sorted (· < ·) (grid_spec id example_gapped (fun i => 2 * i)).ebins ∧
    ((grid_spec id example_gapped (fun i => 2 * i)).ebins.length : Int)
      = (grid_spec id example_gapped (fun i => 2 * i)).nbins + 1 :=
  have hpos : ∀ j : Int, 0 ≤ j → j < example_gapped.n_notice →
      0 < example_gapped.bin_lo (2 * j) := by
    intro j h1 _; simp only [example_gapped, unit_bins]; positivity
  have hbin : ∀ j : Int, 0 ≤ j → j < example_gapped.n_notice →
      example_gapped.bin_lo (2 * j) < example_gapped.bin_hi (2 * j) := by
    intro j _ _; simp only [example_gapped, unit_bins]; linarith
  have hord : ∀ j : Int, 1 ≤ j → j < example_gapped.n_notice →
      example_gapped.bin_hi (2 * (j - 1)) ≤ example_gapped.bin_lo (2 * j) := by
    intro j _ _; simp only [example_gapped, unit_bins]; push_cast; linarith
  ⟨rfl, example_gapped_built id example_raw, hpos, hbin, hord,
    make_d_xspec_grid_ascending example_raw example_gapped (fun i => 2 * i) _ rfl
      (example_gapped_built id example_raw) hpos hbin hord⟩

/-! ## Foreign-call adapter: loops -/

theorem unpack_fold_spec (type : ℚ → ℚ) (keep : List Int) (photar : List ℚ) (norm : ℚ)
    (is : List Int) :
    ∀ s : Unpack_State,
      (is.foldl (unpack_step type keep photar norm) s).k
        = s.k - (is.filter (fun i => decide (keep.getD i.toNat 0 ≠ 0))).length ∧
      ∀ m : Int, (is.foldl (unpack_step type keep photar norm) s).val m
        = if s.k - (is.filter (fun i => decide (keep.getD i.toNat 0 ≠ 0))).length ≤ m ∧ m < s.k
          then type (norm * photar.getD
            ((is.filter (fun i => decide (keep.getD i.toNat 0 ≠ 0))).getD
              (s.k - 1 - m).toNat 0).toNat 0)
          else s.val m := by
  induction is with
  | nil =>
    intro s
    refine ⟨by simp, fun m => ?_⟩
    have : ¬ (s.k ≤ m ∧ m < s.k) := by omega
    simp [this]
  | cons i rest ih =>
    intro s
    simp only [List.foldl_cons]
    by_cases hk : keep.getD i.toNat 0 ≠ 0
    · have hstep : unpack_step type keep photar norm s i
          = { k := s.k - 1
              val := Function.update s.val (s.k - 1) (type (norm * photar.getD i.toNat 0)) } := by
        unfold unpack_step
        rw [if_pos hk]
      obtain ⟨h1, h2⟩ := ih (unpack_step type keep photar norm s i)
      rw [hstep] at h1 h2
      simp only [] at h1 h2
      rw [hstep, List.filter_cons_of_pos (by simpa using hk)]
      simp only [List.length_cons]
      refine ⟨by rw [h1]; push_cast; omega, fun m => ?_⟩
      rw [h2 m]
      push_cast
      by_cases hm1 : m = s.k - 1
      · subst hm1
        have c1 : ¬ (s.k - 1 - ((List.filter (fun i => decide (keep.getD i.toNat 0 ≠ 0))
            rest).length : Int) ≤ s.k - 1 ∧ s.k - 1 < s.k - 1) := by omega
        have c2 : s.k - (((List.filter (fun i => decide (keep.getD i.toNat 0 ≠ 0))
            rest).length : Int) + 1) ≤ s.k - 1 ∧ s.k - 1 < s.k := by omega
        rw [if_neg c1, if_pos c2]
        have e : (s.k - 1 - (s.k - 1)).toNat = 0 := by omega
        simp [e]
      · by_cases hin : s.k - 1 - ((List.filter (fun i => decide (keep.getD i.toNat 0 ≠ 0))
            rest).length : Int) ≤ m ∧ m < s.k - 1
        · have c2 : s.k - (((List.filter (fun i => decide (keep.getD i.toNat 0 ≠ 0))
              rest).length : Int) + 1) ≤ m ∧ m < s.k := by omega
          rw [if_pos hin, if_pos c2]
          have e : (s.k - 1 - m).toNat = (s.k - 1 - 1 - m).toNat + 1 := by omega
          rw [e, List.getD_cons_succ]
        · have c2 : ¬ (s.k - (((List.filter (fun i => decide (keep.getD i.toNat 0 ≠ 0))
              rest).length : Int) + 1) ≤ m ∧ m < s.k) := by omega
          rw [if_neg hin, if_neg c2, Function.update_noteq hm1]
    · have hstep : unpack_step type keep photar norm s i = s := by
        unfold unpack_step
        rw [if_neg hk]
      rw [hstep, List.filter_cons_of_neg (by simpa using hk)]
      exact ih s

theorem getD_set_self {α : Type} (l : List α) (n : Nat) (v d : α) (h : n < l.length) :
    (l.set n v).getD n d = v := by
  rw [List.getD_eq_getElem?_getD, List.getElem?_set]
  simp [h]

theorem getD_set_ne {α : Type} (l : List α) (n a : Nat) (v d : α) (h : n ≠ a) :
    (l.set n v).getD a d = l.getD a d := by
  rw [List.getD_eq_getElem?_getD, List.getD_eq_getElem?_getD, List.getElem?_set]
  simp [h]

theorem seed_fold_spec (type : ℚ → ℚ) (keep : List Int) (val : Int → ℚ) (is : List Int) :
    ∀ s : Seed_State, (is.map Int.toNat).Nodup → (∀ i ∈ is, i.toNat < s.photar.length) →
      (is.foldl (seed_step type keep val) s).photar.length = s.photar.length ∧
      (∀ j : Nat, j < (is.filter (fun i => decide (keep.getD i.toNat 0 ≠ 0))).length →
        (is.foldl (seed_step type keep val) s).photar.getD
            ((is.filter (fun i => decide (keep.getD i.toNat 0 ≠ 0))).getD j 0).toNat 0
          = type (val (s.k - 1 - j))) ∧
      (∀ a : Nat, (∀ i ∈ is.filter (fun i => decide (keep.getD i.toNat 0 ≠ 0)), i.toNat ≠ a) →
        (is.foldl (seed_step type keep val) s).photar.getD a 0 = s.photar.getD a 0) := by
  induction is with
  | nil =>
    intro s _ _
    simp
  | cons i rest ih =>
    intro s hnd hlen
    simp only [List.foldl_cons]
    rw [List.map_cons, List.nodup_cons] at hnd
    by_cases hk : keep.getD i.toNat 0 ≠ 0
    · have hstep : seed_step type keep val s i
          = { k := s.k - 1, photar := s.photar.set i.toNat (type (val (s.k - 1))) } := by
        unfold seed_step
        rw [if_pos hk]
      have hi := hlen i (List.mem_cons_self _ _)
      obtain ⟨h1, h2, h3⟩ := ih (seed_step type keep val s i) hnd.2 (by
        intro i' hi'
        rw [hstep]
        simpa using hlen i' (List.mem_cons_of_mem _ hi'))
      rw [hstep] at h1 h2 h3
      simp only [List.length_set] at h1 h2 h3
      rw [hstep, List.filter_cons_of_pos (by simpa using hk)]
      refine ⟨h1, ?_, ?_⟩
      · intro j hj
        cases j with
        | zero =>
          simp only [List.getD_cons_zero]
          rw [h3 i.toNat]
          · rw [getD_set_self _ _ _ _ hi]
            simp
          · intro i' hi' heq
            apply hnd.1
            rw [← heq]
            exact List.mem_map_of_mem _ (List.mem_of_mem_filter hi')
        | succ j =>
          simp only [List.getD_cons_succ]
          rw [h2 j (by simpa using hj)]
          congr 2
          push_cast
          omega
      · intro a ha
        rw [h3 a (fun i' hi' => ha i' (List.mem_cons_of_mem _ hi'))]
        exact getD_set_ne _ _ _ _ _ (ha i (List.mem_cons_self _ _))
    · have hstep : seed_step type keep val s i = s := by
        unfold seed_step
        rw [if_neg hk]
      rw [hstep, List.filter_cons_of_neg (by simpa using hk)]
      exact ih s hnd.2 (fun i' hi' => hlen i' (List.mem_cons_of_mem _ hi'))

theorem keep_positions_length (l : List Int) :
    (keep_positions l l.length).length = (l.filter (fun v => decide (v ≠ 0))).length := by
  induction l using List.reverseRecOn with
  | nil => simp [keep_positions, loop_range]
  | append_singleton l a ih =>
    unfold keep_positions at ih ⊢
    have hlen : (((l ++ [a]).length : Nat) : Int) = (l.length : Int) + 1 := by simp
    rw [hlen, loop_range_snoc 0 l.length (by omega), List.filter_append, List.filter_append,
      List.length_append, List.length_append, ← ih]
    congr 1
    · congr 1
      apply List.filter_congr
      intro i hi
      have hi' := (mem_loop_range _ _ _).mp hi
      rw [List.getD_append _ _ _ _ (by omega)]
    · have e : ((l.length : Int)).toNat = l.length := by omega
      simp only [List.filter_cons, List.filter_nil, e]
      rw [List.getD_append_right _ _ _ _ (le_refl _)]
      simp only [Nat.sub_self, List.getD_cons_zero, ne_eq, decide_not]
      by_cases ha : a = 0 <;> simp [ha]

theorem keep_positions_mem (keep : List Int) (nbins i : Int) :
    i ∈ keep_positions keep nbins ↔ (0 ≤ i ∧ i < nbins) ∧ keep.getD i.toNat 0 ≠ 0 := by
  simp [keep_positions, mem_loop_range]

theorem loop_range_toNat_nodup (n : Int) : ((loop_range 0 n).map Int.toNat).Nodup := by
  have : (loop_range 0 n).map Int.toNat = List.range (n - 0).toNat := by
    unfold loop_range
    rw [List.map_map]
    conv_rhs => rw [← List.map_id (List.range (n - 0).toNat)]
    apply List.map_congr_left
    intro j _
    simp
  rw [this]
  exact List.nodup_range _

theorem EVAL_XF_none (type : ℚ → ℚ) (op : Int) (fname : Option String) (raw : Raw_Memory)
    (fn : Xspec_Fun_t) (val : Int → ℚ) (g : Option Isis_Hist_t) (param : Int → ℚ) (norm : ℚ)
    (category : Int) (h : MAKE_XG type raw g = none) :
    EVAL_XF type op fname raw fn val g param norm category
      = { ret := -1, val := val, calls := [] } := by
  unfold EVAL_XF
  rw [h]
  cases g <;> rfl

/-- The invocation record built by `EVAL_XF` for the grid `x`. -/
theorem EVAL_XF_some (type : ℚ → ℚ) (op : Int) (fname : Option String) (raw : Raw_Memory)
    (fn : Xspec_Fun_t) (val : Int → ℚ) (g : Isis_Hist_t) (param : Int → ℚ) (norm : ℚ)
    (category : Int) (x : Xspec_Info_Type) (h : MAKE_XG type raw (some g) = some x) :
    ∃ p : Xspec_Param_t,
      p.photar = (if category = op then
          ((loop_range 0 x.nbins).foldl (seed_step type x.keep val)
            { k := g.n_notice, photar := x.photar }).photar
        else x.photar) ∧
      p.ear = x.ebins ∧ p.ne = x.nbins ∧ p.param = param ∧
      EVAL_XF type op fname raw fn val (some g) param norm category
        = { ret := if ((loop_range 0 x.nbins).foldl (unpack_step type x.keep (fn p).photar norm)
                    { k := g.n_notice, val := val }).k = 0 then 0 else -1
            val := ((loop_range 0 x.nbins).foldl (unpack_step type x.keep (fn p).photar norm)
                    { k := g.n_notice, val := val }).val
            calls := [p] } := by
  refine ⟨{ ear := x.ebins
            param := param
            photar := (if category = op then
                ((loop_range 0 x.nbins).foldl (seed_step type x.keep val)
                  { k := g.n_notice, photar := x.photar }).photar
              else x.photar)
            photer := List.replicate x.nbins.toNat 0
            ne := x.nbins
            ifl := 0
            filename := fname }, rfl, rfl, rfl, rfl, ?_⟩
  unfold EVAL_XF
  rw [h]
  simp only []
  split_ifs <;> rfl

theorem grid_spec_shape (type : ℚ → ℚ) (g : Isis_Hist_t) (nl : Int → Int) :
    (grid_spec type g nl).nbins = ((grid_spec type g nl).keep.length : Int) ∧
    (grid_spec type g nl).photar = List.replicate (grid_spec type g nl).keep.length 0 ∧
    (grid_spec type g nl).ebins.length = (grid_spec type g nl).keep.length + 1 := by
  simp [grid_spec]

/-- The unpacking loop on a grid built by the translator. -/
theorem unpack_built (type : ℚ → ℚ) (raw : Raw_Memory) (g : Isis_Hist_t) (nl : Int → Int)
    (x : Xspec_Info_Type) (hnl : g.notice_list = some nl)
    (hbuilt : MAKE_XG type raw (some g) = some x) (photar : List ℚ) (norm : ℚ)
    (val : Int → ℚ) :
    ((keep_positions x.keep x.nbins).length : Int) = g.n_notice ∧
    ((loop_range 0 x.nbins).foldl (unpack_step type x.keep photar norm)
      { k := g.n_notice, val := val }).k = 0 ∧
    (∀ j : Nat, (j : Int) < g.n_notice →
      ((loop_range 0 x.nbins).foldl (unpack_step type x.keep photar norm)
        { k := g.n_notice, val := val }).val (g.n_notice - 1 - j)
        = type (norm * photar.getD ((keep_positions x.keep x.nbins).getD j 0).toNat 0)) ∧
    (∀ m : Int, m < 0 ∨ g.n_notice ≤ m →
      ((loop_range 0 x.nbins).foldl (unpack_step type x.keep photar norm)
        { k := g.n_notice, val := val }).val m = val m) := by
  have hn := MAKE_XG_some_n_notice type raw g x hbuilt
  obtain ⟨_, rfl⟩ := (MAKE_XG_some_iff type raw g nl hnl hn x).mp hbuilt
  have hcount : ((keep_positions (grid_spec type g nl).keep (grid_spec type g nl).nbins).length
      : Int) = g.n_notice := by
    rw [(grid_spec_shape type g nl).1, keep_positions_length]
    exact grid_spec_keep_count type g nl hn
  obtain ⟨h1, h2⟩ := unpack_fold_spec type (grid_spec type g nl).keep photar norm
    (loop_range 0 (grid_spec type g nl).nbins) { k := g.n_notice, val := val }
  change (_ : Int) = g.n_notice - ((keep_positions _ _).length : Int) at h1
  simp only [] at h2
  refine ⟨hcount, by rw [h1, hcount]; omega, ?_, ?_⟩
  · intro j hj
    rw [h2]
    have hc : g.n_notice - ((keep_positions (grid_spec type g nl).keep
        (grid_spec type g nl).nbins).length : Int) ≤ g.n_notice - 1 - j
        ∧ g.n_notice - 1 - (j : Int) < g.n_notice := by
      rw [hcount]; omega
    have e : (g.n_notice - 1 - (g.n_notice - 1 - (j : Int))).toNat = j := by omega
    unfold keep_positions at hc ⊢
    rw [if_pos hc, e]
  · intro m hm
    rw [h2]
    have hc : ¬ (g.n_notice - ((keep_positions (grid_spec type g nl).keep
        (grid_spec type g nl).nbins).length : Int) ≤ m ∧ m < g.n_notice) := by
      rw [hcount]; omega
    unfold keep_positions at hc
    rw [if_neg hc]

/-! ## Foreign-call adapter: claims -/

/-- C7: when the grid is built, the double-precision adapter invokes the
routine once and returns 0; the grid has exactly `n_notice` keep positions
`i_0 < ... < i_{n-1}`, and `val[n_notice-1-j] = norm * photar[i_j]` for the
routine's output `photar`, so the count-mismatch branch is not taken and values
at non-keep positions are not used; elements of `val` outside
`0 .. n_notice-1` are unchanged.  For a single noticed bin and `norm = 1`,
`val[0] = photar[0]`. -/
theorem eval_d_xspec_fun_unpacks (ISIS_FUN_OPERATOR : Int) (fname : Option String)
    (raw : Raw_Memory) (fn : Xspec_Fun_t) (val : Int → ℚ) (g : Isis_Hist_t) (nl : Int → Int)
    (param : Int → ℚ) (norm : ℚ) (category : Int) (x : Xspec_Info_Type)
    (hnl : g.notice_list = some nl) (hbuilt : make_d_xspec_grid raw (some g) = some x) :
    ∃ p : Xspec_Param_t,
      (eval_d_xspec_fun ISIS_FUN_OPERATOR fname raw fn val (some g) param norm category).calls
        = [p] ∧
      (eval_d_xspec_fun ISIS_FUN_OPERATOR fname raw fn val (some g) param norm category).ret
        = 0 ∧
      ((keep_positions x.keep x.nbins).length : Int) = g.n_notice ∧
      (∀ j : Nat, (j : Int) < g.n_notice →
        (eval_d_xspec_fun ISIS_FUN_OPERATOR fname raw fn val (some g) param norm category).val
            (g.n_notice - 1 - j)
          = norm * (fn p).photar.getD ((keep_positions x.keep x.nbins).getD j 0).toNat 0) ∧
      (∀ m : Int, m < 0 ∨ g.n_notice ≤ m →
        (eval_d_xspec_fun ISIS_FUN_OPERATOR fname raw fn val (some g) param norm category).val m
          = val m) ∧
      (g.n_notice = 1 → norm = 1 →
        (eval_d_xspec_fun ISIS_FUN_OPERATOR fname raw fn val (some g) param norm category).val 0
          = (fn p).photar.getD 0 0) := by
  unfold make_d_xspec_grid at hbuilt
  obtain ⟨p, _, _, _, _, heval⟩ := EVAL_XF_some id ISIS_FUN_OPERATOR fname raw fn val g param
    norm category x hbuilt
  obtain ⟨h1, h2, h3, h4⟩ := unpack_built id raw g nl x hnl hbuilt (fn p).photar norm val
  unfold eval_d_xspec_fun
  rw [heval]
  simp only [h2, if_true]
  refine ⟨p, rfl, trivial, h1, fun j hj => by rw [h3 j hj]; rfl, h4, ?_⟩
  intro hone hnorm
  have h0 := h3 0 (by rw [hone]; decide)
  have e0 : g.n_notice - 1 - ((0 : Nat) : Int) = 0 := by rw [hone]; rfl
  rw [e0] at h0
  rw [h0, hnorm]
  simp only [id, one_mul]
  have hn := MAKE_XG_some_n_notice id raw g x hbuilt
  obtain ⟨_, rfl⟩ := (MAKE_XG_some_iff id raw g nl hnl hn x).mp hbuilt
  have hr : loop_range 1 g.n_notice = [] := loop_range_empty _ _ (by omega)
  have hpos : keep_positions (grid_spec id g nl).keep (grid_spec id g nl).nbins = [0] := by
    simp only [grid_spec, hr, emitted_nil]
    simp [keep_positions, loop_range, List.range_succ]
  rw [hpos]
  rfl

/-- Witness for C7: one noticed unit bin, `norm = 1`. -/
theorem eval_d_xspec_fun_unpacks_witness :
    example_single.notice_list = some id ∧
    make_d_xspec_grid example_raw (some example_single)
      = some (grid_spec id example_single id) ∧
    (eval_d_xspec_fun 2 none example_raw example_routine (fun _ => 0) (some example_single)
      (fun _ => 0) 1 1).ret = 0 :=
  ⟨rfl, example_single_built id example_raw,
    (eval_d_xspec_fun_unpacks 2 none example_raw example_routine (fun _ => 0) example_single id
      (fun _ => 0) 1 1 _ rfl (example_single_built id example_raw)).elim (fun _ h => h.2.1)⟩

/-- The seeding loop on a grid built by the translator. -/
theorem seed_built (type : ℚ → ℚ) (raw : Raw_Memory) (g : Isis_Hist_t) (nl : Int → Int)
    (x : Xspec_Info_Type) (hnl : g.notice_list = some nl)
    (hbuilt : MAKE_XG type raw (some g) = some x) (val : Int → ℚ) :
    ((loop_range 0 x.nbins).foldl (seed_step type x.keep val)
      { k := g.n_notice, photar := x.photar }).photar.length = x.nbins.toNat ∧
    (∀ j : Nat, (j : Int) < g.n_notice →
      ((loop_range 0 x.nbins).foldl (seed_step type x.keep val)
        { k := g.n_notice, photar := x.photar }).photar.getD
          ((keep_positions x.keep x.nbins).getD j 0).toNat 0
        = type (val (g.n_notice - 1 - j))) ∧
    (∀ i : Int, 0 ≤ i → i < x.nbins → x.keep.getD i.toNat 0 = 0 →
      ((loop_range 0 x.nbins).foldl (seed_step type x.keep val)
        { k := g.n_notice, photar := x.photar }).photar.getD i.toNat 0 = 0) ∧
    x.photar = List.replicate x.nbins.toNat 0 := by
  have hn := MAKE_XG_some_n_notice type raw g x hbuilt
  have hcount := (unpack_built type raw g nl x hnl hbuilt [] 0 val).1
  obtain ⟨_, rfl⟩ := (MAKE_XG_some_iff type raw g nl hnl hn x).mp hbuilt
  obtain ⟨s1, s2, s3⟩ := grid_spec_shape type g nl
  have hphot : (grid_spec type g nl).photar
      = List.replicate (grid_spec type g nl).nbins.toNat 0 := by
    rw [s2, s1]
    simp
  obtain ⟨h1, h2, h3⟩ := seed_fold_spec type (grid_spec type g nl).keep val
    (loop_range 0 (grid_spec type g nl).nbins)
    { k := g.n_notice, photar := (grid_spec type g nl).photar }
    (loop_range_toNat_nodup _) (by
      intro i hi
      have hi' := (mem_loop_range _ _ _).mp hi
      simp only [s2, List.length_replicate]
      omega)
  simp only [] at h1 h2 h3
  refine ⟨?_, ?_, ?_, hphot⟩
  · rw [h1, hphot, List.length_replicate]
  · intro j hj
    exact h2 j (by
      have : (j : Int) < ((keep_positions (grid_spec type g nl).keep
        (grid_spec type g nl).nbins).length : Int) := by rw [hcount]; exact hj
      unfold keep_positions at this
      exact_mod_cast this)
  · intro i hi0 hi1 hkeep
    rw [h3 i.toNat]
    · rw [hphot, List.getD_eq_getElem?_getD, List.getElem?_replicate]
      split <;> rfl
    · intro i' hi' heq
      have hm := (keep_positions_mem _ _ _).mp hi'
      have : i' = i := by omega
      rw [this] at hm
      exact hm.2 hkeep

/-- C8: when the grid is built, the double-precision adapter invokes the routine
once; for category `ISIS_FUN_OPERATOR` the result buffer of the invocation holds
`photar[i_j] = val[n_notice-1-j]` at the keep positions `i_0 < i_1 < ...` and 0
at every non-keep position; for any other category it is all zeros. -/
theorem eval_d_xspec_fun_seeds (ISIS_FUN_OPERATOR : Int) (fname : Option String)
    (raw : Raw_Memory) (fn : Xspec_Fun_t) (val : Int → ℚ) (g : Isis_Hist_t) (nl : Int → Int)
    (param : Int → ℚ) (norm : ℚ) (category : Int) (x : Xspec_Info_Type)
    (hnl : g.notice_list = some nl) (hbuilt : make_d_xspec_grid raw (some g) = some x) :
    ∃ p : Xspec_Param_t,
      (eval_d_xspec_fun ISIS_FUN_OPERATOR fname raw fn val (some g) param norm category).calls
        = [p] ∧
      p.photar.length = x.nbins.toNat ∧
      (category = ISIS_FUN_OPERATOR →
        (∀ j : Nat, (j : Int) < g.n_notice →
          p.photar.getD ((keep_positions x.keep x.nbins).getD j 0).toNat 0
            = val (g.n_notice - 1 - j)) ∧
        (∀ i : Int, 0 ≤ i → i < x.nbins → x.keep.getD i.toNat 0 = 0 →
          p.photar.getD i.toNat 0 = 0)) ∧
      (category ≠ ISIS_FUN_OPERATOR → p.photar = List.replicate x.nbins.toNat 0) := by
  unfold make_d_xspec_grid at hbuilt
  obtain ⟨p, hp, _, _, _, heval⟩ := EVAL_XF_some id ISIS_FUN_OPERATOR fname raw fn val g param
    norm category x hbuilt
  obtain ⟨h1, h2, h3, h4⟩ := seed_built id raw g nl x hnl hbuilt val
  unfold eval_d_xspec_fun
  rw [heval]
  refine ⟨p, rfl, ?_, ?_, ?_⟩
  · rw [hp]
    split
    · exact h1
    · rw [h4, List.length_replicate]
  · intro hcat
    rw [hp, if_pos hcat]
    exact ⟨fun j hj => by rw [h2 j hj]; rfl, h3⟩
  · intro hcat
    rw [hp, if_neg hcat, h4]

/-- Witness for C8: one noticed unit bin, category `ISIS_FUN_OPERATOR`. -/
theorem eval_d_xspec_fun_seeds_witness :
    example_single.notice_list = some id ∧
    make_d_xspec_grid example_raw (some example_single)
      = some (grid_spec id example_single id) ∧
    ∃ p : Xspec_Param_t,
      (eval_d_xspec_fun 2 none example_raw example_routine (fun _ => 3) (some example_single)
        (fun _ => 0) 1 2).calls = [p] ∧
      p.photar.length = (grid_spec id example_single id).nbins.toNat :=
  ⟨rfl, example_single_built id example_raw,
    (eval_d_xspec_fun_seeds 2 none example_raw example_routine (fun _ => 3) example_single id
      (fun _ => 0) 1 2 _ rfl (example_single_built id example_raw)).elim
      (fun p h => ⟨p, h.1, h.2.1⟩)⟩

/-- C9: when the grid pointer is null, its notice list is null, or
`n_notice < 1`, the double-precision adapter returns -1, does not invoke the
external routine, and leaves `val` unchanged. -/
theorem eval_d_xspec_fun_bad_grid (ISIS_FUN_OPERATOR : Int) (fname : Option String)
    (raw : Raw_Memory) (fn : Xspec_Fun_t) (val : Int → ℚ) (g : Option Isis_Hist_t)
    (param : Int → ℚ) (norm : ℚ) (category : Int)
    (hbad : g = none ∨ ∃ g0, g = some g0 ∧ (g0.notice_list = none ∨ g0.n_notice < 1)) :
    (eval_d_xspec_fun ISIS_FUN_OPERATOR fname raw fn val g param norm category).ret = -1 ∧
    (eval_d_xspec_fun ISIS_FUN_OPERATOR fname raw fn val g param norm category).calls = [] ∧
    (eval_d_xspec_fun ISIS_FUN_OPERATOR fname raw fn val g param norm category).val = val := by
  unfold eval_d_xspec_fun
  rw [EVAL_XF_none id ISIS_FUN_OPERATOR fname raw fn val g param norm category
    (MAKE_XG_null id raw g hbad)]
  exact ⟨rfl, rfl, rfl⟩

/-- Witness for C9: a grid with `n_notice = 0`. -/
theorem eval_d_xspec_fun_bad_grid_witness :
    (some example_empty = none ∨ ∃ g0, some example_empty = some g0 ∧
      (g0.notice_list = none ∨ g0.n_notice < 1)) ∧
    (eval_d_xspec_fun 2 none example_raw example_routine (fun _ => 3) (some example_empty)
      (fun _ => 0) 1 2).ret = -1 ∧
    (eval_d_xspec_fun 2 none example_raw example_routine (fun _ => 3) (some example_empty)
      (fun _ => 0) 1 2).calls = [] ∧
    (eval_d_xspec_fun 2 none example_raw example_routine (fun _ => 3) (some example_empty)
      (fun _ => 0) 1 2).val = (fun _ => 3) :=
  ⟨Or.inr ⟨example_empty, rfl, Or.inr (by decide)⟩,
    eval_d_xspec_fun_bad_grid 2 none example_raw example_routine (fun _ => 3)
      (some example_empty) (fun _ => 0) 1 2 (Or.inr ⟨example_empty, rfl, Or.inr (by decide)⟩)⟩

/-! ## Fit-function registry -/

/-- Registration of a name that no registered descriptor carries: the
descriptor is linked in at the tail with the tail's type id + 1. -/
theorem append_walk_new (pf ff : Fit_Fun_t) (rest : List Fit_Fun_t)
    (hfresh : ∀ r ∈ rest, r.fun_name ≠ pf.fun_name) :
    append_walk pf ff rest
      = ((ff :: rest) ++ [{ pf with fun_type :=
            (((ff :: rest).getLast (List.cons_ne_nil _ _)).fun_type + 1) % (UINT_MAX + 1) }],
          []) := by
  induction rest generalizing ff with
  | nil => rfl
  | cons nxt rest ih =>
    have hne : nxt.fun_name ≠ pf.fun_name := hfresh nxt (List.mem_cons_self _ _)
    have := ih nxt (fun r hr => hfresh r (List.mem_cons_of_mem _ hr))
    simp only [append_walk, hne, if_false, this, List.cons_append]
    rw [List.getLast_cons (List.cons_ne_nil _ _)]

/-- Redefinition: the first registered descriptor with the name of `pf` is
replaced in place. -/
theorem append_walk_redefine (pf ff old : Fit_Fun_t) (pre post : List Fit_Fun_t)
    (hpre : ∀ r ∈ pre, r.fun_name ≠ pf.fun_name) (hold : old.fun_name = pf.fun_name) :
    append_walk pf ff (pre ++ old :: post)
      = (ff :: pre ++ { pf with fun_type := old.fun_type, fun_version := old.fun_version + 1 }
            :: post, [old]) := by
  induction pre generalizing ff with
  | nil => simp [append_walk, hold]
  | cons nxt pre ih =>
    have hne : nxt.fun_name ≠ pf.fun_name := hpre nxt (List.mem_cons_self _ _)
    have := ih nxt (fun r hr => hpre r (List.mem_cons_of_mem _ hr))
    rw [List.cons_append]
    simp only [append_walk, hne, if_false]
    rw [this]
    rfl

theorem append_fit_fun_cons (pf ff : Fit_Fun_t) (rest : List Fit_Fun_t) :
    append_fit_fun (some pf) (ff :: rest)
      = { ret := 0, table := (append_walk pf ff rest).1, freed := (append_walk pf ff rest).2 } :=
  rfl

theorem filter_fresh (regs : List Fit_Fun_t) (f : String)
    (hfresh : ∀ r ∈ regs, r.fun_name ≠ f) :
    regs.filter (fun r => decide (r.fun_name = f)) = [] := by
  rw [List.filter_eq_nil_iff]
  intro r hr
  simpa using hfresh r hr

/-- C10: registering a descriptor `pf1` (version 1, as `new_fit_fun` makes it)
under a name carried by no registered descriptor and then a descriptor `pf2`
of the same name leaves the registry with the length it had after the first
registration and exactly one descriptor of that name; it stands at the list
position of the first, has version 2 and the type id the first registration
assigned.  In general a redefinition replaces the first registered descriptor
of that name in place, keeps its type id and sets the version to the old
version + 1. -/
theorem append_fit_fun_twice (sentinel : Fit_Fun_t) (regs : List Fit_Fun_t)
    (pf1 pf2 : Fit_Fun_t) (hfresh : ∀ r ∈ regs, r.fun_name ≠ pf1.fun_name)
    (hname : pf2.fun_name = pf1.fun_name) (hv : pf1.fun_version = 1) :
    (append_fit_fun (some pf1) (sentinel :: regs)).ret = 0 ∧
    (append_fit_fun (some pf2) (append_fit_fun (some pf1) (sentinel :: regs)).table).ret = 0 ∧
    (append_fit_fun (some pf2) (append_fit_fun (some pf1) (sentinel :: regs)).table).table.length
      = (append_fit_fun (some pf1) (sentinel :: regs)).table.length ∧
    ((append_fit_fun (some pf2)
        (append_fit_fun (some pf1) (sentinel :: regs)).table).table.tail.filter
      (fun r => decide (r.fun_name = pf1.fun_name))).length = 1 ∧
    (∃ d1 d2 : Fit_Fun_t,
      (append_fit_fun (some pf1) (sentinel :: regs)).table = sentinel :: regs ++ [d1] ∧
      (append_fit_fun (some pf2) (append_fit_fun (some pf1) (sentinel :: regs)).table).table
        = sentinel :: regs ++ [d2] ∧
      d1.fun_name = pf1.fun_name ∧ d2.fun_name = pf1.fun_name ∧
      d2.fun_version = 2 ∧ d2.fun_type = d1.fun_type ∧
      d2 = { pf2 with fun_type := d1.fun_type, fun_version := 2 }) ∧
    (∀ (head old pf : Fit_Fun_t) (pre post : List Fit_Fun_t),
      (∀ r ∈ pre, r.fun_name ≠ pf.fun_name) → old.fun_name = pf.fun_name →
      append_fit_fun (some pf) (head :: pre ++ old :: post)
        = { ret := 0
            table := head :: pre ++
              { pf with fun_type := old.fun_type, fun_version := old.fun_version + 1 } :: post
            freed := [old] }) := by
  have h1 : append_fit_fun (some pf1) (sentinel :: regs)
      = { ret := 0
          table := sentinel :: (regs ++ [{ pf1 with fun_type :=
            (((sentinel :: regs).getLast (List.cons_ne_nil _ _)).fun_type + 1) % (UINT_MAX + 1) }])
          freed := [] } := by
    rw [append_fit_fun_cons, append_walk_new pf1 sentinel regs hfresh]
    rfl
  generalize (((sentinel :: regs).getLast (List.cons_ne_nil _ _)).fun_type + 1) % (UINT_MAX + 1)
    = t at h1
  have h2 : append_fit_fun (some pf2) (sentinel :: (regs ++ [{ pf1 with fun_type := t }]))
      = { ret := 0
          table := sentinel :: (regs ++ [{ pf2 with fun_type := t, fun_version := 2 }])
          freed := [{ pf1 with fun_type := t }] } := by
    rw [append_fit_fun_cons, append_walk_redefine pf2 sentinel { pf1 with fun_type := t } regs []
      (fun r hr => by rw [hname]; exact hfresh r hr) hname.symm, hv]
    rfl
  rw [h1, h2]
  refine ⟨rfl, rfl, ?_, ?_, ⟨_, _, rfl, rfl, rfl, hname, rfl, rfl, rfl⟩, ?_⟩
  · simp
  · simp only [List.tail_cons, List.filter_append, filter_fresh regs _ hfresh, List.nil_append]
    rw [List.filter_cons_of_pos (by simpa using hname)]
    rfl
  · intro head old pf pre post hpre hold
    rw [List.cons_append, append_fit_fun_cons, append_walk_redefine pf head old pre post hpre hold]

/-- The registry after "f" is registered twice next to "g", evaluated. -/
theorem example_registry_twice :
    (append_fit_fun (some example_f2)
        (append_fit_fun (some example_f1) (init_fun_table 0 ++ [example_g])).table).table
      = init_fun_table 0 ++ [example_g, { example_f2 with fun_type := 1, fun_version := 2 }] := by
  decide

/-- Witness for C10: "f" is registered twice in a registry that holds "g". -/
theorem append_fit_fun_twice_witness :
    (∀ r ∈ [example_g], r.fun_name ≠ example_f1.fun_name) ∧
    example_f2.fun_name = example_f1.fun_name ∧ example_f1.fun_version = 1 ∧
    (append_fit_fun (some example_f2)
        (append_fit_fun (some example_f1) (init_fun_table 0 ++ [example_g])).table).table.length
      = (append_fit_fun (some example_f1) (init_fun_table 0 ++ [example_g])).table.length ∧
    ((append_fit_fun (some example_f2)
        (append_fit_fun (some example_f1) (init_fun_table 0 ++ [example_g])).table
      ).table.tail.filter (fun r => decide (r.fun_name = example_f1.fun_name))).length = 1 :=
  ⟨by decide, by decide, by decide,
    (append_fit_fun_twice { new_fit_fun 0 0 with fun_type := UINT_MAX } [example_g]
      example_f1 example_f2 (by decide) (by decide) (by decide)).2.2.1,
    (append_fit_fun_twice { new_fit_fun 0 0 with fun_type := UINT_MAX } [example_g]
      example_f1 example_f2 (by decide) (by decide) (by decide)).2.2.2.1⟩


/-! ## Fit-function registry: operations -/

theorem exists_first_named (n : String) (regs : List Fit_Fun_t) :
    (∀ r ∈ regs, r.fun_name ≠ n) ∨
    ∃ pre old post, regs = pre ++ old :: post ∧ (∀ r ∈ pre, r.fun_name ≠ n) ∧
      old.fun_name = n := by
  induction regs with
  | nil => left; simp
  | cons a rest ih =>
    by_cases ha : a.fun_name = n
    · right
      exact ⟨[], a, rest, rfl, by simp, ha⟩
    · rcases ih with h | ⟨pre, old, post, h1, h2, h3⟩
      · left
        intro r hr
        rcases List.mem_cons.mp hr with rfl | hr
        · exact ha
        · exact h r hr
      · right
        refine ⟨a :: pre, old, post, by rw [h1]; rfl, ?_, h3⟩
        intro r hr
        rcases List.mem_cons.mp hr with rfl | hr
        · exact ha
        · exact h2 r hr

theorem del_walk_absent (n : String) (regs : List Fit_Fun_t)
    (h : ∀ r ∈ regs, r.fun_name ≠ n) : del_walk n regs = (regs, []) := by
  induction regs with
  | nil => rfl
  | cons a rest ih =>
    have ha : a.fun_name ≠ n := h a (List.mem_cons_self _ _)
    have := ih (fun r hr => h r (List.mem_cons_of_mem _ hr))
    simp only [del_walk, ha, if_false, this]

theorem del_walk_present (n : String) (pre post : List Fit_Fun_t) (old : Fit_Fun_t)
    (hpre : ∀ r ∈ pre, r.fun_name ≠ n) (hold : old.fun_name = n) :
    del_walk n (pre ++ old :: post) = (pre ++ post, [old]) := by
  induction pre with
  | nil => simp [del_walk, hold]
  | cons a pre ih =>
    have ha : a.fun_name ≠ n := hpre a (List.mem_cons_self _ _)
    have := ih (fun r hr => hpre r (List.mem_cons_of_mem _ hr))
    rw [List.cons_append]
    simp only [del_walk, ha, if_false]
    rw [this]
    rfl

theorem set_category_walk_names (n : String) (c : Int) (l : List Fit_Fun_t) :
    (set_category_walk n c l).map Fit_Fun_t.fun_name = l.map Fit_Fun_t.fun_name ∧
    (set_category_walk n c l).map Fit_Fun_t.fun_type = l.map Fit_Fun_t.fun_type := by
  induction l with
  | nil => exact ⟨rfl, rfl⟩
  | cons a rest ih =>
    unfold set_category_walk
    by_cases ha : a.fun_name = n
    · rw [if_pos ha]
      exact ⟨rfl, rfl⟩
    · rw [if_neg ha]
      simp only [List.map_cons, ih.1, ih.2, and_self]

theorem pairwise_lt_le_last (l : List Nat) (h : l.Pairwise (· < ·)) :
    ∀ x ∈ l, ∀ y, l.getLast? = some y → x ≤ y := by
  induction l with
  | nil => simp
  | cons a rest ih =>
    intro x hx y hy
    rw [List.pairwise_cons] at h
    cases rest with
    | nil =>
      simp at hx hy
      omega
    | cons b rest' =>
      have hy' : (b :: rest').getLast? = some y := by
        rw [List.getLast?_cons_cons] at hy
        exact hy
      rcases List.mem_cons.mp hx with rfl | hx
      · have hb := ih h.2 b (List.mem_cons_self _ _) y hy'
        have := h.1 b (List.mem_cons_self _ _)
        omega
      · exact ih h.2 x hx y hy'

/-- The effect of one operation on a chain that starts with a sentinel: the
names and type ids of the registered descriptors stay as they are, or a
descriptor of a new name is linked in at the tail with the tail's type id + 1,
or the first descriptor of the given name is unlinked. -/
theorem registry_step_shape (sentinel : Fit_Fun_t) (regs : List Fit_Fun_t) (op : Registry_Op) :
    ∃ sentinel1 regs1, registry_step (sentinel :: regs) op = sentinel1 :: regs1 ∧
      sentinel1.fun_type = sentinel.fun_type ∧
      ((hands_out_id (sentinel :: regs) op = false ∧
          regs1.map Fit_Fun_t.fun_name = regs.map Fit_Fun_t.fun_name ∧
          regs1.map Fit_Fun_t.fun_type = regs.map Fit_Fun_t.fun_type) ∨
        (hands_out_id (sentinel :: regs) op = true ∧
          ∃ new, regs1 = regs ++ [new] ∧ (∀ r ∈ regs, r.fun_name ≠ new.fun_name) ∧
            new.fun_type = (((sentinel :: regs).getLast (List.cons_ne_nil _ _)).fun_type + 1)
              % (UINT_MAX + 1)) ∨
        (hands_out_id (sentinel :: regs) op = false ∧
          ∃ n pre old post, op = Registry_Op.del (some n) ∧ regs = pre ++ old :: post ∧
            regs1 = pre ++ post ∧ old.fun_name = n ∧ ∀ r ∈ pre, r.fun_name ≠ n)) := by
  cases op with
  | add pf =>
    rcases exists_first_named pf.fun_name regs with h | ⟨pre, old, post, h1, h2, h3⟩
    · refine ⟨sentinel, regs ++ [{ pf with fun_type :=
        (((sentinel :: regs).getLast (List.cons_ne_nil _ _)).fun_type + 1) % (UINT_MAX + 1) }],
        ?_, rfl, Or.inr (Or.inl ⟨?_, _, rfl, h, rfl⟩)⟩
      · simp only [registry_step, append_fit_fun_cons, append_walk_new pf sentinel regs h]
        rfl
      · simp only [hands_out_id, List.tail_cons, List.all_eq_true, decide_eq_true_eq]
        exact h
    · refine ⟨sentinel,
        pre ++ { pf with fun_type := old.fun_type, fun_version := old.fun_version + 1 } :: post,
        ?_, rfl, Or.inl ⟨?_, ?_, ?_⟩⟩
      · simp only [registry_step, append_fit_fun_cons, h1,
          append_walk_redefine pf sentinel old pre post h2 h3]
        rfl
      · simp only [hands_out_id, List.tail_cons, h1]
        rw [Bool.eq_false_iff]
        intro hall
        rw [List.all_eq_true] at hall
        have := hall old (by simp)
        simp at this
        exact this h3
      · rw [h1]
        simp only [List.map_append, List.map_cons]
        congr 2
        exact h3.symm
      · rw [h1]
        simp only [List.map_append, List.map_cons]
  | del fun_name =>
    cases fun_name with
    | none => exact ⟨sentinel, regs, rfl, rfl, Or.inl ⟨rfl, rfl, rfl⟩⟩
    | some n =>
      rcases exists_first_named n regs with h | ⟨pre, old, post, h1, h2, h3⟩
      · refine ⟨sentinel, regs, ?_, rfl, Or.inl ⟨rfl, rfl, rfl⟩⟩
        simp only [registry_step, del_function, del_walk_absent n regs h]
      · refine ⟨sentinel, pre ++ post, ?_, rfl,
          Or.inr (Or.inr ⟨rfl, n, pre, old, post, rfl, h1, rfl, h3, h2⟩)⟩
        simp only [registry_step, del_function, h1, del_walk_present n pre post old h2 h3]
  | set_category fun_name category =>
    cases fun_name with
    | none => exact ⟨sentinel, regs, rfl, rfl, Or.inl ⟨rfl, rfl, rfl⟩⟩
    | some n =>
      by_cases hs : sentinel.fun_name = n
      · refine ⟨{ sentinel with category := category }, regs, ?_, rfl, Or.inl ⟨rfl, rfl, rfl⟩⟩
        simp only [registry_step, set_function_category, set_category_walk, hs, if_true]
      · refine ⟨sentinel, set_category_walk n category regs, ?_, rfl, Or.inl ⟨rfl,
          (set_category_walk_names n category regs).1,
          (set_category_walk_names n category regs).2⟩⟩
        simp only [registry_step, set_function_category, set_category_walk, hs, if_false]

/-! ## Fit-function registry: invariants -/

theorem registry_inv_init (A : Int) : Registry_Inv (init_fun_table A) 0 :=
  ⟨_, [], rfl, rfl, by simp, by simp, by simp⟩

theorem registry_inv_mono (s : List Fit_Fun_t) (k k1 : Nat) (h : Registry_Inv s k)
    (hk : k ≤ k1) : Registry_Inv s k1 := by
  obtain ⟨sentinel, regs, h1, h2, h3, h4, h5⟩ := h
  exact ⟨sentinel, regs, h1, h2, h3, h4, fun r hr => lt_of_lt_of_le (h5 r hr) hk⟩

/-- Under the invariant with `k < UINT_MAX`, the type id handed to a new name is
`next_id`: the increment of the tail's id does not wrap, and the sentinel's
`UINT_MAX` wraps to 0. -/
theorem new_id_eq (sentinel : Fit_Fun_t) (regs : List Fit_Fun_t) (k : Nat)
    (hs : sentinel.fun_type = UINT_MAX) (hk : k < UINT_MAX)
    (hlt : ∀ r ∈ regs, r.fun_type < k) :
    (((sentinel :: regs).getLast (List.cons_ne_nil _ _)).fun_type + 1) % (UINT_MAX + 1)
      = next_id (sentinel :: regs) := by
  unfold next_id
  rw [List.tail_cons]
  cases regs with
  | nil => simp [hs]
  | cons a rest =>
    have hne : a :: rest ≠ [] := List.cons_ne_nil _ _
    rw [List.getLast_cons hne, List.getLast?_eq_getLast _ hne]
    have hl := hlt _ (List.getLast_mem hne)
    simp only []
    exact Nat.mod_eq_of_lt (by omega)

theorem registry_inv_lt_next_id (s : List Fit_Fun_t) (k : Nat) (h : Registry_Inv s k) :
    ∀ r ∈ s.tail, r.fun_type < next_id s := by
  obtain ⟨sentinel, regs, rfl, _, _, h4, _⟩ := h
  intro r hr
  rw [List.tail_cons] at hr
  unfold next_id
  rw [List.tail_cons]
  cases hl : regs.getLast? with
  | none =>
    rw [List.getLast?_eq_none_iff] at hl
    rw [hl] at hr
    simp at hr
  | some l =>
    have hl' : (regs.map Fit_Fun_t.fun_type).getLast? = some l.fun_type := by
      rw [List.getLast?_map, hl]
      rfl
    have := pairwise_lt_le_last _ h4 r.fun_type (List.mem_map_of_mem _ hr) _ hl'
    simp only []
    omega

theorem registry_inv_step (s : List Fit_Fun_t) (k : Nat) (op : Registry_Op)
    (h : Registry_Inv s k)
    (hb : k + (if hands_out_id s op then 1 else 0) ≤ UINT_MAX) :
    Registry_Inv (registry_step s op) (k + (if hands_out_id s op then 1 else 0)) := by
  have hlt := registry_inv_lt_next_id s k h
  obtain ⟨sentinel, regs, rfl, h2, h3, h4, h5⟩ := h
  obtain ⟨sentinel1, regs1, e1, e2, hcase⟩ := registry_step_shape sentinel regs op
  rw [e1]
  rcases hcase with ⟨ho, hn, ht⟩ | ⟨ho, new, hr, hfresh, hid⟩ | ⟨ho, n, pre, old, post, _, hr, hr1, _, _⟩
  · rw [ho]
    refine ⟨sentinel1, regs1, rfl, by rw [e2, h2], by rw [hn]; exact h3, by rw [ht]; exact h4, ?_⟩
    intro r hr
    have hm : r.fun_type ∈ regs.map Fit_Fun_t.fun_type := by
      rw [← ht]
      exact List.mem_map_of_mem _ hr
    obtain ⟨r0, hr0, e0⟩ := List.mem_map.mp hm
    have := h5 r0 hr0
    simp only [Bool.false_eq_true, if_false, Nat.add_zero]
    omega
  · rw [ho] at hb ⊢
    simp only [if_true] at hb ⊢
    have hnew : new.fun_type = next_id (sentinel :: regs) := by
      rw [hid]
      exact new_id_eq sentinel regs k h2 (by omega) h5
    refine ⟨sentinel1, regs1, rfl, by rw [e2, h2], ?_, ?_, ?_⟩
    · rw [hr, List.map_append, List.nodup_append]
      refine ⟨h3, by simp, ?_⟩
      intro a ha hb'
      simp only [List.map_cons, List.map_nil, List.mem_singleton] at hb'
      obtain ⟨r0, hr0, e0⟩ := List.mem_map.mp ha
      exact hfresh r0 hr0 (by rw [e0, hb'])
    · rw [hr, List.map_append, List.pairwise_append]
      refine ⟨h4, by simp, ?_⟩
      intro a ha b hb'
      simp only [List.map_cons, List.map_nil, List.mem_singleton] at hb'
      obtain ⟨r0, hr0, e0⟩ := List.mem_map.mp ha
      have := hlt r0 (by simpa using hr0)
      omega
    · intro r hr'
      rw [hr] at hr'
      rcases List.mem_append.mp hr' with hr' | hr'
      · have := h5 r hr'
        omega
      · simp only [List.mem_singleton] at hr'
        rw [hr', hnew]
        unfold next_id
        rw [List.tail_cons]
        cases hl : regs.getLast? with
        | none => simp
        | some l =>
          have := h5 l (List.mem_of_getLast?_eq_some hl)
          simp only []
          omega
  · rw [ho]
    have hsub : List.Sublist regs1 regs := by
      rw [hr, hr1]
      exact List.Sublist.append (List.Sublist.refl _) (List.sublist_cons_self _ _)
    refine ⟨sentinel1, regs1, rfl, by rw [e2, h2], ?_, ?_, ?_⟩
    · exact List.Nodup.sublist (List.Sublist.map _ hsub) h3
    · exact List.Pairwise.sublist (List.Sublist.map _ hsub) h4
    · intro r hr'
      have := h5 r (hsub.subset hr')
      simp only [Bool.false_eq_true, if_false, Nat.add_zero]
      omega

theorem registry_inv_run (ops : List Registry_Op) :
    ∀ (s : List Fit_Fun_t) (k : Nat), Registry_Inv s k →
      k + ids_handed_out ops s ≤ UINT_MAX →
      Registry_Inv (registry_run ops s) (k + ids_handed_out ops s) := by
  induction ops with
  | nil =>
    intro s k h _
    exact h
  | cons op ops ih =>
    intro s k h hb
    simp only [ids_handed_out, registry_run] at hb ⊢
    have hstep := registry_inv_step s k op h (by omega)
    have := ih (registry_step s op) _ hstep (by omega)
    rw [Nat.add_assoc] at this
    exact this

theorem registry_inv_trace (ops : List Registry_Op) :
    ∀ (s : List Fit_Fun_t) (k : Nat), Registry_Inv s k →
      k + ids_handed_out ops s ≤ UINT_MAX →
      ∀ s1 ∈ registry_trace ops s, Registry_Inv s1 (k + ids_handed_out ops s) := by
  induction ops with
  | nil =>
    intro s k h _ s1 hs1
    simp only [registry_trace, List.mem_singleton] at hs1
    rw [hs1]
    exact h
  | cons op ops ih =>
    intro s k h hb s1 hs1
    simp only [ids_handed_out] at hb ⊢
    simp only [registry_trace, List.mem_cons] at hs1
    rcases hs1 with rfl | hs1
    · exact registry_inv_mono _ _ _ h (by omega)
    · have hstep := registry_inv_step s k op h (by omega)
      have := ih (registry_step s op) _ hstep (by omega) s1 hs1
      rw [Nat.add_assoc] at this
      exact this

theorem names_nodup_step (sentinel : Fit_Fun_t) (regs : List Fit_Fun_t) (op : Registry_Op)
    (h : (regs.map Fit_Fun_t.fun_name).Nodup) :
    ∃ sentinel1 regs1, registry_step (sentinel :: regs) op = sentinel1 :: regs1 ∧
      (regs1.map Fit_Fun_t.fun_name).Nodup := by
  obtain ⟨sentinel1, regs1, e1, _, hcase⟩ := registry_step_shape sentinel regs op
  refine ⟨sentinel1, regs1, e1, ?_⟩
  rcases hcase with ⟨_, hn, _⟩ | ⟨_, new, hr, hfresh, _⟩ | ⟨_, n, pre, old, post, _, hr, hr1, _, _⟩
  · rw [hn]
    exact h
  · rw [hr, List.map_append, List.nodup_append]
    refine ⟨h, by simp, ?_⟩
    intro a ha hb
    simp only [List.map_cons, List.map_nil, List.mem_singleton] at hb
    obtain ⟨r0, hr0, e0⟩ := List.mem_map.mp ha
    exact hfresh r0 hr0 (by rw [e0, hb])
  · have hsub : List.Sublist regs1 regs := by
      rw [hr, hr1]
      exact List.Sublist.append (List.Sublist.refl _) (List.sublist_cons_self _ _)
    exact List.Nodup.sublist (List.Sublist.map _ hsub) h

theorem names_nodup_run (ops : List Registry_Op) :
    ∀ (sentinel : Fit_Fun_t) (regs : List Fit_Fun_t), (regs.map Fit_Fun_t.fun_name).Nodup →
      ∃ sentinel1 regs1, registry_run ops (sentinel :: regs) = sentinel1 :: regs1 ∧
        (regs1.map Fit_Fun_t.fun_name).Nodup := by
  induction ops with
  | nil =>
    intro sentinel regs h
    exact ⟨sentinel, regs, rfl, h⟩
  | cons op ops ih =>
    intro sentinel regs h
    obtain ⟨s1, r1, e1, h1⟩ := names_nodup_step sentinel regs op h
    simp only [registry_run, e1]
    exact ih s1 r1 h1

theorem next_id_map (sentinel : Fit_Fun_t) (regs : List Fit_Fun_t) :
    next_id (sentinel :: regs)
      = match (regs.map Fit_Fun_t.fun_type).getLast? with
        | none => 0
        | some t => t + 1 := by
  unfold next_id
  rw [List.tail_cons, List.getLast?_map]
  cases regs.getLast? <;> rfl

theorem next_id_congr (sentinel1 sentinel : Fit_Fun_t) (regs1 regs : List Fit_Fun_t)
    (h : regs1.map Fit_Fun_t.fun_type = regs.map Fit_Fun_t.fun_type) :
    next_id (sentinel :: regs) = next_id (sentinel1 :: regs1) := by
  rw [next_id_map, next_id_map, h]

/-- Without a removal of the tail, a registered descriptor of a later state
either carries the name and type id of a descriptor registered now, or its type
id is at least `next_id` of the present state. -/
theorem registry_later (ops : List Registry_Op) :
    ∀ (s : List Fit_Fun_t) (k : Nat), Registry_Inv s k →
      k + ids_handed_out ops s ≤ UINT_MAX → no_tail_removal ops s = true →
      ∀ s1 ∈ registry_trace ops s, ∀ r1 ∈ s1.tail,
        (∃ r ∈ s.tail, r.fun_name = r1.fun_name ∧ r.fun_type = r1.fun_type) ∨
          next_id s ≤ r1.fun_type := by
  induction ops with
  | nil =>
    intro s k _ _ _ s1 hs1 r1 hr1
    simp only [registry_trace, List.mem_singleton] at hs1
    rw [hs1] at hr1
    exact Or.inl ⟨r1, hr1, rfl, rfl⟩
  | cons op ops ih =>
    intro s k h hb hno s1 hs1 r1 hr1
    simp only [registry_trace, List.mem_cons] at hs1
    rcases hs1 with rfl | hs1
    · exact Or.inl ⟨r1, hr1, rfl, rfl⟩
    simp only [ids_handed_out] at hb
    simp only [no_tail_removal, Bool.and_eq_true, Bool.not_eq_true'] at hno
    have hstep := registry_inv_step s k op h (by omega)
    have hrec := ih (registry_step s op) _ hstep (by omega) hno.2 s1 hs1 r1 hr1
    have hlt := registry_inv_lt_next_id s k h
    obtain ⟨sentinel, regs, rfl, h2, h3, h4, h5⟩ := h
    obtain ⟨sentinel1, regs1, e1, e2, hcase⟩ := registry_step_shape sentinel regs op
    rw [e1] at hrec
    simp only [List.tail_cons] at hrec hlt ⊢
    -- facts about one step: descriptors of the next state, and its `next_id`
    have hone : (∀ r ∈ regs1, (∃ r0 ∈ regs, r0.fun_name = r.fun_name ∧ r0.fun_type = r.fun_type)
        ∨ next_id (sentinel :: regs) ≤ r.fun_type)
        ∧ next_id (sentinel :: regs) ≤ next_id (sentinel1 :: regs1) := by
      rcases hcase with ⟨ho, hn, ht⟩ | ⟨ho, new, hr, hfresh, hid⟩ |
        ⟨ho, n, pre, old, post, hop, hr, hr', hold, hpre⟩
      · constructor
        · intro r hr
          left
          have hm : (r.fun_name, r.fun_type) ∈ regs1.map (fun x => (x.fun_name, x.fun_type)) :=
            List.mem_map_of_mem _ hr
          have hzip : regs1.map (fun x => (x.fun_name, x.fun_type))
              = regs.map (fun x => (x.fun_name, x.fun_type)) := by
            have e : ∀ l : List Fit_Fun_t, l.map (fun x => (x.fun_name, x.fun_type))
                = (l.map Fit_Fun_t.fun_name).zip (l.map Fit_Fun_t.fun_type) := by
              intro l
              induction l with
              | nil => rfl
              | cons a t iht => simp [iht]
            rw [e, e, hn, ht]
          rw [hzip] at hm
          obtain ⟨r0, hr0, e0⟩ := List.mem_map.mp hm
          simp only [Prod.mk.injEq] at e0
          exact ⟨r0, hr0, e0.1, e0.2⟩
        · rw [next_id_congr sentinel1 sentinel regs1 regs ht]
      · have hnew : new.fun_type = next_id (sentinel :: regs) := by
          rw [hid]
          rw [ho] at hb
          exact new_id_eq sentinel regs k h2 (by simp only [if_true] at hb; omega) h5
        constructor
        · intro r hr1'
          rw [hr] at hr1'
          rcases List.mem_append.mp hr1' with hr1' | hr1'
          · exact Or.inl ⟨r, hr1', rfl, rfl⟩
          · simp only [List.mem_singleton] at hr1'
            right
            rw [hr1', hnew]
        · have : next_id (sentinel1 :: regs1) = new.fun_type + 1 := by
            unfold next_id
            rw [List.tail_cons, hr, List.getLast?_concat]
          rw [this, hnew]
          omega
      · constructor
        · intro r hr1'
          have hsub : List.Sublist regs1 regs := by
            rw [hr, hr']
            exact List.Sublist.append (List.Sublist.refl _) (List.sublist_cons_self _ _)
          exact Or.inl ⟨r, hsub.subset hr1', rfl, rfl⟩
        · -- the removed descriptor is not the last one
          have hnt := hno.1
          rw [hop] at hnt
          simp only [removes_tail, List.tail_cons] at hnt
          have hpost : post ≠ [] := by
            intro hp
            rw [hr, hp, List.getLast?_concat] at hnt
            simp only [decide_eq_false_iff_not] at hnt
            exact hnt hold
          obtain ⟨b, post1, rfl⟩ := List.exists_cons_of_ne_nil hpost
          unfold next_id
          simp only [List.tail_cons]
          rw [hr, hr', List.getLast?_append, List.getLast?_append, List.getLast?_cons_cons]
    obtain ⟨hone1, hone2⟩ := hone
    rcases hrec with ⟨r, hr, hname, htype⟩ | hge
    · rcases hone1 r hr with ⟨r0, hr0, e0, e0'⟩ | hge
      · exact Or.inl ⟨r0, hr0, by rw [e0, hname], by rw [e0', htype]⟩
      · right
        omega
    · right
      omega

theorem registry_inv_inj (s : List Fit_Fun_t) (k : Nat) (h : Registry_Inv s k) :
    ∀ r ∈ s.tail, ∀ r1 ∈ s.tail,
      (r.fun_type = r1.fun_type → r = r1) ∧ (r.fun_name = r1.fun_name → r = r1) := by
  obtain ⟨sentinel, regs, rfl, _, h3, h4, _⟩ := h
  intro r hr r1 hr1
  rw [List.tail_cons] at hr hr1
  have hnd : (regs.map Fit_Fun_t.fun_type).Nodup :=
    List.Pairwise.imp (fun hab => ne_of_lt hab) h4
  exact ⟨fun e => List.inj_on_of_nodup_map hnd hr hr1 e,
    fun e => List.inj_on_of_nodup_map h3 hr hr1 e⟩

theorem registry_no_reuse (ops : List Registry_Op) :
    ∀ (s : List Fit_Fun_t) (k : Nat), Registry_Inv s k →
      k + ids_handed_out ops s ≤ UINT_MAX → no_tail_removal ops s = true →
      (registry_trace ops s).Pairwise (fun s0 s1 => ∀ r ∈ s0.tail, ∀ r1 ∈ s1.tail,
        r.fun_type = r1.fun_type → r.fun_name = r1.fun_name) := by
  induction ops with
  | nil =>
    intro s k _ _ _
    simp [registry_trace]
  | cons op ops ih =>
    intro s k h hb hno
    have hlater := registry_later (op :: ops) s k h hb hno
    have hlt := registry_inv_lt_next_id s k h
    have hinj := registry_inv_inj s k h
    simp only [ids_handed_out] at hb
    simp only [no_tail_removal, Bool.and_eq_true, Bool.not_eq_true'] at hno
    have hstep := registry_inv_step s k op h (by omega)
    simp only [registry_trace, List.pairwise_cons]
    refine ⟨?_, ih (registry_step s op) _ hstep (by omega) hno.2⟩
    intro s1 hs1 r hr r1 hr1 heq
    have hs1' : s1 ∈ registry_trace (op :: ops) s := by
      simp only [registry_trace, List.mem_cons]
      exact Or.inr hs1
    rcases hlater s1 hs1' r1 hr1 with ⟨r0, hr0, e0, e0'⟩ | hge
    · have : r = r0 := (hinj r hr r0 hr0).1 (by rw [heq, e0'])
      rw [this, e0]
    · have := hlt r hr
      omega

theorem sentinel_run (ops : List Registry_Op) :
    ∀ (sentinel : Fit_Fun_t) (regs : List Fit_Fun_t),
      ∃ sentinel1 regs1, registry_run ops (sentinel :: regs) = sentinel1 :: regs1 ∧
        sentinel1.fun_type = sentinel.fun_type := by
  induction ops with
  | nil =>
    intro sentinel regs
    exact ⟨sentinel, regs, rfl, rfl⟩
  | cons op ops ih =>
    intro sentinel regs
    obtain ⟨s1, r1, e1, e2, _⟩ := registry_step_shape sentinel regs op
    obtain ⟨s2, r2, e3, e4⟩ := ih s1 r1
    simp only [registry_run, e1]
    exact ⟨s2, r2, e3, by rw [e4, e2]⟩

theorem find_fit_fun_sentinel (sentinel : Fit_Fun_t) (regs : List Fit_Fun_t) :
    find_fit_fun sentinel.fun_type (sentinel :: regs) = some sentinel := by
  simp [find_fit_fun]

/-- A lookup of a type id other than the sentinel's scans the registered
descriptors only: the result is the first of them holding the id. -/
theorem find_fit_fun_registered (t : Nat) (sentinel : Fit_Fun_t) (regs : List Fit_Fun_t)
    (h : sentinel.fun_type ≠ t) :
    find_fit_fun t (sentinel :: regs) = regs.find? (fun r => decide (r.fun_type = t)) := by
  have hgen : ∀ l : List Fit_Fun_t,
      find_fit_fun t l = l.find? (fun r => decide (r.fun_type = t)) := by
    intro l
    induction l with
    | nil => rfl
    | cons a rest ih =>
      unfold find_fit_fun
      by_cases ha : a.fun_type = t
      · simp [ha]
      · simp [ha, ih]
  rw [hgen, List.find?_cons_of_neg]
  simpa using h

theorem Fit_get_fun_type_absent (name : String) (l : List Fit_Fun_t)
    (h : ∀ r ∈ l, r.fun_name ≠ name) : Fit_get_fun_type name l = -1 := by
  induction l with
  | nil => rfl
  | cons a rest ih =>
    have ha : ¬ name = a.fun_name := fun e => h a (List.mem_cons_self _ _) e.symm
    unfold Fit_get_fun_type
    rw [if_neg ha]
    exact ih (fun r hr => h r (List.mem_cons_of_mem _ hr))

theorem reachable_inv (A : Int) (ops : List Registry_Op)
    (hb : ids_handed_out ops (init_fun_table A) < 2 ^ 32 - 1) :
    Registry_Inv (registry_run ops (init_fun_table A)) (ids_handed_out ops (init_fun_table A)) := by
  have h := registry_inv_run ops (init_fun_table A) 0 (registry_inv_init A)
    (by unfold UINT_MAX; omega)
  rwa [Nat.zero_add] at h

theorem append_new_in_inv (s : List Fit_Fun_t) (k : Nat) (pf : Fit_Fun_t)
    (h : Registry_Inv s k) (hk : k < UINT_MAX)
    (hfresh : ∀ r ∈ s.tail, r.fun_name ≠ pf.fun_name) :
    append_fit_fun (some pf) s
      = { ret := 0, table := s ++ [{ pf with fun_type := next_id s }], freed := [] } := by
  obtain ⟨sentinel, regs, rfl, hs, _, _, hlt⟩ := h
  rw [List.tail_cons] at hfresh
  rw [append_fit_fun_cons, append_walk_new pf sentinel regs hfresh,
    new_id_eq sentinel regs k hs hk hlt]

theorem next_id_max (s : List Fit_Fun_t) (k : Nat) (h : Registry_Inv s k)
    (hne : s.tail ≠ []) :
    ∃ m ∈ s.tail.map Fit_Fun_t.fun_type,
      (∀ t ∈ s.tail.map Fit_Fun_t.fun_type, t ≤ m) ∧ next_id s = 1 + m := by
  obtain ⟨sentinel, regs, rfl, _, _, h4, _⟩ := h
  rw [List.tail_cons] at hne ⊢
  have hl : regs.getLast? = some (regs.getLast hne) := List.getLast?_eq_getLast _ hne
  refine ⟨(regs.getLast hne).fun_type, List.mem_map_of_mem _ (List.getLast_mem hne), ?_, ?_⟩
  · intro t ht
    refine pairwise_lt_le_last _ h4 t ht _ ?_
    rw [List.getLast?_map, hl]
    rfl
  · unfold next_id
    rw [List.tail_cons, hl]
    exact Nat.add_comm _ _

/-! ## Fit-function registry: claims on type ids and names -/

/-- C11: in a registry reached from the fresh one with fewer than `2^32 - 1` ids
handed out, registering a function again under the name of a registered
descriptor `old` puts the new descriptor in the place of `old` with the type id
of `old`, no other descriptor has that name, and a function of a new name
registered after that is linked in last with a strictly greater type id. -/
theorem type_id_stable_then_greater (A : Int) (ops : List Registry_Op) (old pf pg : Fit_Fun_t)
    (hb : ids_handed_out ops (init_fun_table A) < 2 ^ 32 - 1)
    (hold : old ∈ (registry_run ops (init_fun_table A)).tail)
    (hf : pf.fun_name = old.fun_name)
    (hg : ∀ r ∈ (registry_run ops (init_fun_table A)).tail, r.fun_name ≠ pg.fun_name) :
    ∃ sentinel pre post t,
      registry_run ops (init_fun_table A) = sentinel :: pre ++ old :: post ∧
      (∀ r ∈ pre ++ post, r.fun_name ≠ old.fun_name) ∧
      registry_step (registry_run ops (init_fun_table A)) (Registry_Op.add pf)
        = sentinel :: pre ++
            { pf with fun_type := old.fun_type, fun_version := old.fun_version + 1 } :: post ∧
      registry_step (registry_step (registry_run ops (init_fun_table A)) (Registry_Op.add pf))
          (Registry_Op.add pg)
        = registry_step (registry_run ops (init_fun_table A)) (Registry_Op.add pf)
            ++ [{ pg with fun_type := t }] ∧
      old.fun_type < t := by
  have hinv := reachable_inv A ops hb
  have hk : ids_handed_out ops (init_fun_table A) < UINT_MAX := by unfold UINT_MAX; omega
  generalize registry_run ops (init_fun_table A) = s at hinv hold hg ⊢
  generalize ids_handed_out ops (init_fun_table A) = k at hinv hk
  have hinv0 := hinv
  obtain ⟨sentinel, regs, rfl, hs, hnd, hpw, hlt⟩ := hinv
  rw [List.tail_cons] at hold hg
  obtain ⟨pre, post, rfl⟩ := List.mem_iff_append.1 hold
  rw [List.map_append, List.map_cons] at hnd
  obtain ⟨_, hnd2, hdis⟩ := List.nodup_append.1 hnd
  have hpre : ∀ r ∈ pre, r.fun_name ≠ pf.fun_name := by
    intro r hr e
    exact hdis (List.mem_map_of_mem _ hr) (by rw [e, hf]; exact List.mem_cons_self _ _)
  have hpost : ∀ r ∈ post, r.fun_name ≠ pf.fun_name := by
    intro r hr e
    exact (List.nodup_cons.1 hnd2).1 (by rw [← hf, ← e]; exact List.mem_map_of_mem _ hr)
  have hstep1 : registry_step (sentinel :: (pre ++ old :: post)) (Registry_Op.add pf)
      = sentinel :: pre ++
          { pf with fun_type := old.fun_type, fun_version := old.fun_version + 1 } :: post := by
    show (append_fit_fun (some pf) (sentinel :: (pre ++ old :: post))).table = _
    rw [append_fit_fun_cons, append_walk_redefine pf sentinel old pre post hpre hf.symm]
  have hout : hands_out_id (sentinel :: (pre ++ old :: post)) (Registry_Op.add pf) = false := by
    simp only [hands_out_id, List.tail_cons, List.all_eq_false]
    exact ⟨old, hold, by simp [hf]⟩
  have hinv1 := registry_inv_step _ k (Registry_Op.add pf) hinv0 (by rw [hout]; simp; omega)
  rw [hout] at hinv1
  simp only [Bool.false_eq_true, if_false, Nat.add_zero] at hinv1
  have hfresh : ∀ r ∈ (registry_step (sentinel :: (pre ++ old :: post))
      (Registry_Op.add pf)).tail, r.fun_name ≠ pg.fun_name := by
    rw [hstep1]
    intro r hr
    simp only [List.cons_append, List.tail_cons, List.mem_append, List.mem_cons] at hr
    rcases hr with hr | rfl | hr
    · exact hg r (List.mem_append_left _ hr)
    · show pf.fun_name ≠ pg.fun_name
      rw [hf]
      exact hg old hold
    · exact hg r (List.mem_append_right _ (List.mem_cons_of_mem _ hr))
  have hlast := registry_inv_lt_next_id _ k hinv1
    { pf with fun_type := old.fun_type, fun_version := old.fun_version + 1 }
    (by rw [hstep1]; simp)
  refine ⟨sentinel, pre, post, next_id (registry_step (sentinel :: (pre ++ old :: post))
    (Registry_Op.add pf)), rfl, ?_, hstep1, ?_, hlast⟩
  · intro r hr
    rw [← hf]
    rcases List.mem_append.1 hr with hr | hr
    · exact hpre r hr
    · exact hpost r hr
  · show (append_fit_fun (some pg) _).table = _
    rw [append_new_in_inv _ k pg hinv1 hk hfresh]

/-- Witness for C11: after the example session "f" is registered again and then
"g". -/
theorem type_id_stable_then_greater_witness :
    ∃ sentinel pre post t,
      registry_run example_ops (init_fun_table 0)
        = sentinel :: pre ++ { example_f2 with fun_type := 2 } :: post ∧
      (∀ r ∈ pre ++ post, r.fun_name ≠ Fit_Fun_t.fun_name { example_f2 with fun_type := 2 }) ∧
      registry_step (registry_run example_ops (init_fun_table 0)) (Registry_Op.add example_f1)
        = sentinel :: pre ++ { example_f1 with fun_type := 2, fun_version := 2 } :: post ∧
      registry_step (registry_step (registry_run example_ops (init_fun_table 0))
          (Registry_Op.add example_f1)) (Registry_Op.add example_g)
        = registry_step (registry_run example_ops (init_fun_table 0))
            (Registry_Op.add example_f1) ++ [{ example_g with fun_type := t }] ∧
      2 < t :=
  type_id_stable_then_greater 0 example_ops { example_f2 with fun_type := 2 } example_f1
    example_g (by decide) (by decide) (by decide) (by decide)

/-- C12, as the code has it: over a session that starts from the fresh registry,
hands out fewer than `2^32 - 1` ids and never removes the descriptor standing
last, a type id held by a descriptor named `a` in one state is held in every
later state, and in the same state, only by descriptors named `a`. -/
theorem type_id_not_reused_without_tail_removal (A : Int) (ops : List Registry_Op)
    (hb : ids_handed_out ops (init_fun_table A) < 2 ^ 32 - 1)
    (hno : no_tail_removal ops (init_fun_table A) = true) :
    (registry_trace ops (init_fun_table A)).Pairwise (fun s0 s1 =>
      ∀ r ∈ s0.tail, ∀ r1 ∈ s1.tail, r.fun_type = r1.fun_type → r.fun_name = r1.fun_name) ∧
    ∀ s ∈ registry_trace ops (init_fun_table A),
      ∀ r ∈ s.tail, ∀ r1 ∈ s.tail, r.fun_type = r1.fun_type → r.fun_name = r1.fun_name := by
  have hb1 : 0 + ids_handed_out ops (init_fun_table A) ≤ UINT_MAX := by unfold UINT_MAX; omega
  refine ⟨registry_no_reuse ops _ 0 (registry_inv_init A) hb1 hno, ?_⟩
  intro s hs r hr r1 hr1 e
  have hinv := registry_inv_trace ops _ 0 (registry_inv_init A) hb1 s hs
  rw [(registry_inv_inj s _ hinv r hr r1 hr1).1 e]

/-- Witness for C12: the example session removes "f" while "h" stands last. -/
theorem type_id_not_reused_without_tail_removal_witness :
    ids_handed_out example_ops (init_fun_table 0) < 2 ^ 32 - 1 ∧
    no_tail_removal example_ops (init_fun_table 0) = true ∧
    (registry_trace example_ops (init_fun_table 0)).Pairwise (fun s0 s1 =>
      ∀ r ∈ s0.tail, ∀ r1 ∈ s1.tail, r.fun_type = r1.fun_type → r.fun_name = r1.fun_name) :=
  ⟨by decide, by decide,
    (type_id_not_reused_without_tail_removal 0 example_ops (by decide) (by decide)).1⟩

/-- Counterexample for C12: "f" is registered with type id 0 and removed; "h",
registered next, is assigned type id 0 again. -/
theorem type_id_reused_counterexample :
    registry_trace example_reuse_ops (init_fun_table 0)
      = [init_fun_table 0,
          init_fun_table 0 ++ [{ example_f1 with fun_type := 0 }],
          init_fun_table 0,
          init_fun_table 0 ++ [{ example_h with fun_type := 0 }]] ∧
    Fit_Fun_t.fun_name { example_f1 with fun_type := 0 }
      ≠ Fit_Fun_t.fun_name { example_h with fun_type := 0 } ∧
    ¬ (registry_trace example_reuse_ops (init_fun_table 0)).Pairwise (fun s0 s1 =>
      ∀ r ∈ s0.tail, ∀ r1 ∈ s1.tail, r.fun_type = r1.fun_type → r.fun_name = r1.fun_name) := by
  decide

/-- C13, as the code has it: in a registry reached from the fresh one with fewer
than `2^32 - 1` ids handed out and holding at least one registered function,
`append_fit_fun` links a descriptor of a new name in last; the entries before it
are unchanged, its type id is 1 + the largest registered type id, and it keeps
the version 1 that `new_fit_fun` gave it. -/
theorem append_fit_fun_new_name (A : Int) (ops : List Registry_Op) (pf : Fit_Fun_t)
    (hb : ids_handed_out ops (init_fun_table A) < 2 ^ 32 - 1)
    (hne : (registry_run ops (init_fun_table A)).tail ≠ [])
    (hfresh : ∀ r ∈ (registry_run ops (init_fun_table A)).tail, r.fun_name ≠ pf.fun_name)
    (hv : pf.fun_version = 1) :
    ∃ m ∈ (registry_run ops (init_fun_table A)).tail.map Fit_Fun_t.fun_type,
      (∀ t ∈ (registry_run ops (init_fun_table A)).tail.map Fit_Fun_t.fun_type, t ≤ m) ∧
      append_fit_fun (some pf) (registry_run ops (init_fun_table A))
        = { ret := 0
            table := registry_run ops (init_fun_table A) ++ [{ pf with fun_type := 1 + m }]
            freed := [] } ∧
      Fit_Fun_t.fun_version { pf with fun_type := 1 + m } = 1 := by
  have hinv := reachable_inv A ops hb
  have hk : ids_handed_out ops (init_fun_table A) < UINT_MAX := by unfold UINT_MAX; omega
  obtain ⟨m, hm, hmax, hnext⟩ := next_id_max _ _ hinv hne
  refine ⟨m, hm, hmax, ?_, hv⟩
  rw [append_new_in_inv _ _ pf hinv hk hfresh, hnext]

/-- Witness for C13: "g" is registered after the example session, whose
registered type ids are 1 and 2. -/
theorem append_fit_fun_new_name_witness :
    ∃ m ∈ (registry_run example_ops (init_fun_table 0)).tail.map Fit_Fun_t.fun_type,
      (∀ t ∈ (registry_run example_ops (init_fun_table 0)).tail.map Fit_Fun_t.fun_type, t ≤ m) ∧
      append_fit_fun (some example_g) (registry_run example_ops (init_fun_table 0))
        = { ret := 0
            table := registry_run example_ops (init_fun_table 0)
              ++ [{ example_g with fun_type := 1 + m }]
            freed := [] } ∧
      Fit_Fun_t.fun_version { example_g with fun_type := 1 + m } = 1 :=
  append_fit_fun_new_name 0 example_ops example_g (by decide) (by decide) (by decide)
    (by decide)

/-- Counterexample for C13: when the registered function "g" holds the type id
`UINT_MAX` and "f", registered after it, the type id 0, the new name "h" is
assigned type id 1, which is not 1 + the largest registered type id, neither as
an integer nor in `unsigned int` arithmetic. -/
theorem append_fit_fun_wraps_counterexample :
    (∀ r ∈ [example_g_last, example_f1], r.fun_name ≠ example_h.fun_name) ∧
    (append_fit_fun (some example_h) (init_fun_table 0 ++ [example_g_last, example_f1])).table
      = init_fun_table 0 ++ [example_g_last, example_f1, { example_h with fun_type := 1 }] ∧
    example_g_last.fun_type ∈ [example_g_last, example_f1].map Fit_Fun_t.fun_type ∧
    (∀ t ∈ [example_g_last, example_f1].map Fit_Fun_t.fun_type, t ≤ example_g_last.fun_type) ∧
    Fit_Fun_t.fun_type { example_h with fun_type := 1 } ≠ 1 + example_g_last.fun_type ∧
    Fit_Fun_t.fun_type { example_h with fun_type := 1 }
      ≠ (1 + example_g_last.fun_type) % (UINT_MAX + 1) := by
  decide

/-- C14: in every registry reached from the fresh one by registrations,
redefinitions, removals and category assignments, no two descriptors after the
sentinel have the same function name. -/
theorem registry_names_unique (A : Int) (ops : List Registry_Op) :
    ((registry_run ops (init_fun_table A)).tail.map Fit_Fun_t.fun_name).Nodup := by
  obtain ⟨sentinel1, regs1, h1, h2⟩ :=
    names_nodup_run ops { new_fit_fun A 0 with fun_type := UINT_MAX } [] (by simp)
  have h : registry_run ops (init_fun_table A) = sentinel1 :: regs1 := h1
  rw [h]
  exact h2

/-- C15: in every registry reached from the fresh one with fewer than `2^32 - 1`
ids handed out, the type ids after the sentinel are strictly increasing in list
order, hence pairwise distinct, the last descriptor holds the largest of them,
and none of them is the `UINT_MAX` of the sentinel. -/
theorem registry_type_ids_increasing (A : Int) (ops : List Registry_Op)
    (hb : ids_handed_out ops (init_fun_table A) < 2 ^ 32 - 1) :
    ((registry_run ops (init_fun_table A)).tail.map Fit_Fun_t.fun_type).Pairwise (· < ·) ∧
    ((registry_run ops (init_fun_table A)).tail.map Fit_Fun_t.fun_type).Nodup ∧
    (∀ l, (registry_run ops (init_fun_table A)).tail.getLast? = some l →
      ∀ r ∈ (registry_run ops (init_fun_table A)).tail, r.fun_type ≤ l.fun_type) ∧
    (∀ r ∈ (registry_run ops (init_fun_table A)).tail, r.fun_type ≠ UINT_MAX) ∧
    (registry_run ops (init_fun_table A)).head?.map Fit_Fun_t.fun_type = some UINT_MAX := by
  have hinv := reachable_inv A ops hb
  have hk : ids_handed_out ops (init_fun_table A) < UINT_MAX := by unfold UINT_MAX; omega
  obtain ⟨sentinel, regs, hrun, hs, _, hpw, hlt⟩ := hinv
  rw [hrun, List.tail_cons]
  refine ⟨hpw, List.Pairwise.imp (fun hab => ne_of_lt hab) hpw, ?_, ?_, ?_⟩
  · intro l hl r hr
    refine pairwise_lt_le_last _ hpw _ (List.mem_map_of_mem _ hr) _ ?_
    rw [List.getLast?_map, hl]
    rfl
  · intro r hr
    have := hlt r hr
    omega
  · simp [hs]

/-- Witness for C15: the registry after the example session. -/
theorem registry_type_ids_increasing_witness :
    ids_handed_out example_ops (init_fun_table 0) < 2 ^ 32 - 1 ∧
    ((registry_run example_ops (init_fun_table 0)).tail.map Fit_Fun_t.fun_type).Pairwise
      (· < ·) :=
  ⟨by decide, (registry_type_ids_increasing 0 example_ops (by decide)).1⟩

/-! ## Fit-function registry: claims on removal, lookup and teardown -/

/-- C16: `del_function` leaves the registry unchanged and frees nothing when the
name is `NULL` or no descriptor after the sentinel has it; otherwise it unlinks
and frees the first descriptor after the sentinel that has the name and leaves
the others as they are, in their order; the sentinel stays the head for every
name; where names are unique no descriptor of the name remains. -/
theorem del_function_removes_named (sentinel : Fit_Fun_t) (regs : List Fit_Fun_t) (n : String) :
    del_function none (sentinel :: regs) = { table := sentinel :: regs, freed := [] } ∧
    ((∀ r ∈ regs, r.fun_name ≠ n) →
      del_function (some n) (sentinel :: regs) = { table := sentinel :: regs, freed := [] }) ∧
    (∀ pre old post, regs = pre ++ old :: post → (∀ r ∈ pre, r.fun_name ≠ n) →
      old.fun_name = n →
      del_function (some n) (sentinel :: regs)
        = { table := sentinel :: (pre ++ post), freed := [old] }) ∧
    (∀ fun_name, (del_function fun_name (sentinel :: regs)).table.head? = some sentinel) ∧
    ((regs.map Fit_Fun_t.fun_name).Nodup →
      ∀ r ∈ (del_function (some n) (sentinel :: regs)).table.tail, r.fun_name ≠ n) := by
  have habs : (∀ r ∈ regs, r.fun_name ≠ n) →
      del_function (some n) (sentinel :: regs) = { table := sentinel :: regs, freed := [] } := by
    intro h
    simp only [del_function, del_walk_absent n regs h]
  have hpres : ∀ pre old post, regs = pre ++ old :: post → (∀ r ∈ pre, r.fun_name ≠ n) →
      old.fun_name = n →
      del_function (some n) (sentinel :: regs)
        = { table := sentinel :: (pre ++ post), freed := [old] } := by
    intro pre old post e hpre hold
    simp only [del_function, e, del_walk_present n pre post old hpre hold]
  refine ⟨rfl, habs, hpres, ?_, ?_⟩
  · intro fun_name
    cases fun_name with
    | none => rfl
    | some m => rfl
  · intro hnd r hr
    rcases exists_first_named n regs with h | ⟨pre, old, post, e, hpre, hold⟩
    · rw [habs h, List.tail_cons] at hr
      exact h r hr
    · rw [hpres pre old post e hpre hold, List.tail_cons] at hr
      rw [e, List.map_append, List.map_cons] at hnd
      obtain ⟨_, hnd2, _⟩ := List.nodup_append.1 hnd
      rcases List.mem_append.1 hr with hr | hr
      · exact hpre r hr
      · intro hn
        exact (List.nodup_cons.1 hnd2).1 (by rw [hold, ← hn]; exact List.mem_map_of_mem _ hr)

/-- Witness for C16: "f" is removed from a registry holding "g", "f" and "h";
the name "" removes nothing. -/
theorem del_function_removes_named_witness :
    del_function (some "f") (init_fun_table 0 ++ [example_g, example_old, example_h])
      = { table := init_fun_table 0 ++ [example_g, example_h], freed := [example_old] } ∧
    del_function (some "") (init_fun_table 0 ++ [example_g, example_old, example_h])
      = { table := init_fun_table 0 ++ [example_g, example_old, example_h], freed := [] } :=
  ⟨(del_function_removes_named { new_fit_fun 0 0 with fun_type := UINT_MAX }
      [example_g, example_old, example_h] "f").2.2.1 [example_g] example_old [example_h] rfl
      (by decide) (by decide),
    (del_function_removes_named { new_fit_fun 0 0 with fun_type := UINT_MAX }
      [example_g, example_old, example_h] "").2.1 (by decide)⟩

/-- C17: `Fit_get_fun_type` yields -1 for a name that is not registered, and
`Fit_get_fit_fun (-1)` returns the sentinel head in every registry reached from
the fresh one: as an `unsigned int` the value -1 is `UINT_MAX`, the type id the
sentinel holds, and the scan starts at the sentinel. -/
theorem Fit_get_fit_fun_returns_sentinel (A : Int) (ops : List Registry_Op) :
    Fit_get_fun_type "gauss" (init_fun_table A) = -1 ∧
    Fit_get_fit_fun (Fit_get_fun_type "gauss" (init_fun_table A)) (init_fun_table A)
      = some { new_fit_fun A 0 with fun_type := UINT_MAX } ∧
    (registry_run ops (init_fun_table A)).head? ≠ none ∧
    Fit_get_fit_fun (-1) (registry_run ops (init_fun_table A))
      = (registry_run ops (init_fun_table A)).head? := by
  have hconv : ((-1 : Int) % ((UINT_MAX : Int) + 1)).toNat = UINT_MAX := by decide
  have h1 : Fit_get_fun_type "gauss" (init_fun_table A) = -1 :=
    Fit_get_fun_type_absent "gauss" _ (by
      intro r hr
      simp only [init_fun_table, List.mem_singleton] at hr
      rw [hr]
      show ("" : String) ≠ "gauss"
      decide)
  obtain ⟨sentinel1, regs1, hrun, hs⟩ :=
    sentinel_run ops { new_fit_fun A 0 with fun_type := UINT_MAX } []
  have hrun1 : registry_run ops (init_fun_table A) = sentinel1 :: regs1 := hrun
  have hs1 : sentinel1.fun_type = UINT_MAX := hs
  refine ⟨h1, ?_, ?_, ?_⟩
  · rw [h1]
    unfold Fit_get_fit_fun
    rw [hconv]
    exact find_fit_fun_sentinel { new_fit_fun A 0 with fun_type := UINT_MAX } []
  · rw [hrun1]
    simp
  · rw [hrun1]
    unfold Fit_get_fit_fun
    rw [hconv, ← hs1]
    exact find_fit_fun_sentinel sentinel1 regs1

/-- C18: when `append_fit_fun` meets a descriptor `old` with the name of `pf`,
`free_fit_fun` is called for `old` and for no other descriptor; that call runs
the `function_exit` hook of `old`, when set, and then its `destroy_fun`; `pf`
stands in the place of `old`, and no descriptor after the head equals `old`
when no later descriptor has the name. -/
theorem append_fit_fun_teardown (pf head old : Fit_Fun_t) (pre post : List Fit_Fun_t)
    (hpre : ∀ r ∈ pre, r.fun_name ≠ pf.fun_name) (hold : old.fun_name = pf.fun_name) :
    (append_fit_fun (some pf) (head :: pre ++ old :: post)).freed = [old] ∧
    (append_fit_fun (some pf) (head :: pre ++ old :: post)).freed.map
        (fun ff => free_fit_fun (some ff))
      = [(match old.function_exit with
            | some hook => [Teardown_Call.function_exit hook]
            | none => [])
          ++ [Teardown_Call.destroy_fun old.destroy_fun old]] ∧
    (append_fit_fun (some pf) (head :: pre ++ old :: post)).table
      = head :: pre ++
          { pf with fun_type := old.fun_type, fun_version := old.fun_version + 1 } :: post ∧
    ((∀ r ∈ post, r.fun_name ≠ pf.fun_name) →
      old ∉ (append_fit_fun (some pf) (head :: pre ++ old :: post)).table.tail) := by
  rw [List.cons_append, append_fit_fun_cons, append_walk_redefine pf head old pre post hpre hold]
  refine ⟨rfl, rfl, rfl, ?_⟩
  intro hpost
  simp only [List.cons_append, List.tail_cons, List.mem_append, List.mem_cons, not_or]
  refine ⟨fun h => hpre old h hold, ?_, fun h => hpost old h hold⟩
  intro h
  have hv := congrArg Fit_Fun_t.fun_version h
  simp at hv

/-- Witness for C18: "f", registered with an exit hook between "g" and "h", is
replaced by a descriptor with two parameters. -/
theorem append_fit_fun_teardown_witness :
    (append_fit_fun (some example_f2)
        (init_fun_table 0 ++ [example_g, example_old, example_h])).freed.map
        (fun ff => free_fit_fun (some ff))
      = [[Teardown_Call.function_exit 5,
          Teardown_Call.destroy_fun Destroy_Fun.default_destroy_fun example_old]] ∧
    example_old ∉ (append_fit_fun (some example_f2)
        (init_fun_table 0 ++ [example_g, example_old, example_h])).table.tail :=
  ⟨(append_fit_fun_teardown example_f2 { new_fit_fun 0 0 with fun_type := UINT_MAX }
      example_old [example_g] [example_h] (by decide) (by decide)).2.1,
    (append_fit_fun_teardown example_f2 { new_fit_fun 0 0 with fun_type := UINT_MAX }
      example_old [example_g] [example_h] (by decide) (by decide)).2.2.2 (by decide)⟩

/-! ## Validation of names -/

theorem check_name_loop_spec (cs : List Char) : ∀ size : Int, 0 ≤ size →
    (check_name_loop cs size = -1 ↔
      (∃ c ∈ cs, (isspace c || iscntrl c) = true) ∨ size < (cs.length : Int)) ∧
    (check_name_loop cs size = -1 ∨ check_name_loop cs size = 0) := by
  induction cs with
  | nil =>
    intro size h
    have h0 : ¬ size < 0 := by omega
    simp [check_name_loop, h0]
  | cons c cs ih =>
    intro size h
    unfold check_name_loop
    by_cases hpos : size > 0
    · rw [if_pos hpos]
      by_cases hbad : (isspace c || iscntrl c) = true
      · rw [if_pos hbad]
        exact ⟨⟨fun _ => Or.inl ⟨c, List.mem_cons_self _ _, hbad⟩, fun _ => rfl⟩, Or.inl rfl⟩
      · rw [if_neg hbad]
        obtain ⟨ih1, ih2⟩ := ih (size - 1) (by omega)
        refine ⟨?_, ih2⟩
        rw [ih1]
        constructor
        · rintro (⟨d, hd, hdb⟩ | hlen)
          · exact Or.inl ⟨d, List.mem_cons_of_mem _ hd, hdb⟩
          · right
            rw [List.length_cons]
            push_cast
            omega
        · rintro (⟨d, hd, hdb⟩ | hlen)
          · rcases List.mem_cons.1 hd with rfl | hd
            · exact absurd hdb hbad
            · exact Or.inl ⟨d, hd, hdb⟩
          · right
            rw [List.length_cons] at hlen
            push_cast at hlen
            omega
    · rw [if_neg hpos]
      have h1 : size - 1 < 0 := by omega
      rw [if_pos h1]
      refine ⟨⟨fun _ => Or.inr ?_, fun _ => rfl⟩, Or.inl rfl⟩
      rw [List.length_cons]
      push_cast
      omega

theorem check_name_string_range (s : Option String) (size : Int) :
    check_name_string s size = -1 ∨ check_name_string s size = 0 := by
  cases s with
  | none => exact Or.inl rfl
  | some s =>
    simp only [check_name_string]
    split_ifs with h1 h2
    · exact Or.inr rfl
    · exact Or.inl rfl
    · exact (check_name_loop_spec s.data (size - 1) (by omega)).2

theorem check_name_string_rejects_iff (s : String) (size : Int) (hs : s.data ≠ []) :
    check_name_string (some s) size = -1 ↔
      (∃ c ∈ s.data, (isspace c || iscntrl c) = true) ∨ size ≤ (s.length : Int) := by
  have hlen : s.length = s.data.length := rfl
  have hpos : 0 < s.data.length := List.length_pos.2 hs
  simp only [check_name_string, if_neg hs]
  split_ifs with h2
  · refine ⟨fun _ => Or.inr ?_, fun _ => rfl⟩
    rw [hlen]
    omega
  · rw [(check_name_loop_spec s.data (size - 1) (by omega)).1, hlen]
    constructor
    · rintro (h | h)
      · exact Or.inl h
      · exact Or.inr (by omega)
    · rintro (h | h)
      · exact Or.inl h
      · exact Or.inr (by omega)

theorem check_name_string_accepts_iff (s : String) (size : Int) :
    check_name_string (some s) size = 0 ↔
      s.data = [] ∨
        ((∀ c ∈ s.data, isspace c = false ∧ iscntrl c = false) ∧ (s.length : Int) < size) := by
  by_cases hs : s.data = []
  · simp [check_name_string, hs]
  · have hrej := check_name_string_rejects_iff s size hs
    have hrange := check_name_string_range (some s) size
    constructor
    · intro h0
      right
      have hn : ¬ check_name_string (some s) size = -1 := by rw [h0]; decide
      rw [hrej, not_or] at hn
      refine ⟨?_, by omega⟩
      intro c hc
      have := hn.1
      simp only [not_exists, not_and, Bool.or_eq_true, not_or, Bool.not_eq_true] at this
      exact this c hc
    · rintro (h | ⟨hclean, hlen⟩)
      · exact absurd h hs
      · rcases hrange with hr | hr
        · rw [hrej] at hr
          rcases hr with ⟨c, hc, hb⟩ | hr
          · have := hclean c hc
            simp [this.1, this.2] at hb
          · omega
        · exact hr

theorem check_params_loop_succ (MAX_NAME_SIZE : Int) (param_unit : Option (Int → Option String))
    (param_name : Int → Option String) (n : Nat) (j : Int) :
    check_params_loop MAX_NAME_SIZE param_unit param_name (n + 1) j
      = if check_name_string (param_name j) MAX_NAME_SIZE = -1 then -1
        else
          match param_unit with
          | none => check_params_loop MAX_NAME_SIZE param_unit param_name n (j + 1)
          | some units =>
            match units j with
            | none => check_params_loop MAX_NAME_SIZE param_unit param_name n (j + 1)
            | some u =>
              if (u.length : Int) ≥ MAX_NAME_SIZE then -1
              else check_params_loop MAX_NAME_SIZE param_unit param_name n (j + 1) := by
  rfl

theorem check_params_loop_range (MAX_NAME_SIZE : Int) (param_unit : Option (Int → Option String))
    (param_name : Int → Option String) (n : Nat) : ∀ j : Int,
    check_params_loop MAX_NAME_SIZE param_unit param_name n j = -1 ∨
      check_params_loop MAX_NAME_SIZE param_unit param_name n j = 0 := by
  induction n with
  | zero =>
    intro j
    exact Or.inr rfl
  | succ n ih =>
    intro j
    rw [check_params_loop_succ]
    split_ifs with h1
    · exact Or.inl rfl
    · split
      · exact ih _
      · split
        · exact ih _
        · split_ifs
          · exact Or.inl rfl
          · exact ih _

theorem check_params_loop_accepts_iff (MAX_NAME_SIZE : Int)
    (param_unit : Option (Int → Option String)) (param_name : Int → Option String) (n : Nat) :
    ∀ j : Int, check_params_loop MAX_NAME_SIZE param_unit param_name n j = 0 ↔
      ∀ i : Int, j ≤ i → i < j + n →
        check_name_string (param_name i) MAX_NAME_SIZE = 0 ∧
        ∀ units u, param_unit = some units → units i = some u →
          (u.length : Int) < MAX_NAME_SIZE := by
  induction n with
  | zero =>
    intro j
    simp only [check_params_loop, true_iff]
    intro i h1 h2
    exfalso
    simp at h2
    omega
  | succ n ih =>
    intro j
    have hsplit : ∀ P : Int → Prop, (∀ i : Int, j ≤ i → i < j + ((n + 1 : Nat) : Int) → P i) ↔
        (P j ∧ ∀ i : Int, j + 1 ≤ i → i < j + 1 + (n : Int) → P i) := by
      intro P
      constructor
      · intro h
        exact ⟨h j (le_refl _) (by push_cast; omega), fun i h1 h2 => h i (by omega) (by push_cast; omega)⟩
      · rintro ⟨h0, h⟩ i h1 h2
        by_cases e : i = j
        · rw [e]; exact h0
        · exact h i (by omega) (by push_cast at h2; omega)
    rw [check_params_loop_succ, hsplit, ← ih (j + 1)]
    have hrange := check_name_string_range (param_name j) MAX_NAME_SIZE
    by_cases h1 : check_name_string (param_name j) MAX_NAME_SIZE = -1
    · rw [if_pos h1]
      constructor
      · intro h; exact absurd h (by decide)
      · rintro ⟨⟨h, _⟩, _⟩
        rw [h1] at h
        exact absurd h (by decide)
    · rw [if_neg h1]
      have h0 : check_name_string (param_name j) MAX_NAME_SIZE = 0 := by
        rcases hrange with h | h
        · exact absurd h h1
        · exact h
      cases param_unit with
      | none => simp [h0]
      | some units =>
        simp only []
        cases hu : units j with
        | none =>
          simp only []
          constructor
          · intro h
            refine ⟨⟨h0, ?_⟩, h⟩
            intro units1 u1 e1 e2
            cases e1
            rw [hu] at e2
            cases e2
          · rintro ⟨_, h⟩
            exact h
        | some u =>
          simp only []
          by_cases hlen : (u.length : Int) ≥ MAX_NAME_SIZE
          · rw [if_pos hlen]
            constructor
            · intro h; exact absurd h (by decide)
            · rintro ⟨⟨_, h⟩, _⟩
              have := h units u rfl hu
              omega
          · rw [if_neg hlen]
            constructor
            · intro h
              refine ⟨⟨h0, ?_⟩, h⟩
              intro units1 u1 e1 e2
              cases e1
              rw [hu] at e2
              cases e2
              omega
            · rintro ⟨_, h⟩
              exact h

theorem data_ne_nil_of_ne_empty (s : String) (h : s ≠ "") : s.data ≠ [] :=
  fun e => h (String.ext e)

theorem check_name_string_some_iff (MAX_NAME_SIZE : Int) (p : Option String) :
    check_name_string p MAX_NAME_SIZE = 0 ↔
      ∃ nm, p = some nm ∧ (nm = "" ∨
        ((∀ c ∈ nm.data, isspace c = false ∧ iscntrl c = false) ∧
          (nm.length : Int) < MAX_NAME_SIZE)) := by
  have hdata : ∀ nm : String, nm.data = [] ↔ nm = "" :=
    fun nm => ⟨fun e => String.ext e, fun e => by rw [e]⟩
  cases p with
  | none =>
    constructor
    · intro h
      simp [check_name_string] at h
    · rintro ⟨nm, h, _⟩
      cases h
  | some s =>
    rw [check_name_string_accepts_iff, hdata]
    constructor
    · intro h
      exact ⟨s, rfl, h⟩
    · rintro ⟨nm, h, h1⟩
      cases h
      exact h1

theorem check_new_function_range (MAX_NAME_SIZE : Int) (fun_name : Option String)
    (nparams : Int) (param_name param_unit : Option (Int → Option String)) :
    check_new_function MAX_NAME_SIZE fun_name nparams param_name param_unit = -1 ∨
      check_new_function MAX_NAME_SIZE fun_name nparams param_name param_unit = 0 := by
  cases fun_name with
  | none => exact Or.inl rfl
  | some f =>
    simp only [check_new_function]
    by_cases hn : nparams < 0
    · rw [if_pos hn]
      exact Or.inl rfl
    · rw [if_neg hn]
      by_cases hf : check_name_string (some f) MAX_NAME_SIZE = -1
      · rw [if_pos hf]
        exact Or.inl rfl
      · rw [if_neg hf]
        cases param_name with
        | none => exact Or.inr rfl
        | some names =>
          by_cases h0 : nparams = 0
          · exact Or.inr (if_pos h0)
          · rw [show (match some names with
                | none => (0 : Int)
                | some names => if nparams = 0 then 0
                    else check_params_loop MAX_NAME_SIZE param_unit names nparams.toNat 0)
              = check_params_loop MAX_NAME_SIZE param_unit names nparams.toNat 0
              from if_neg h0]
            exact check_params_loop_range _ _ _ _ _

theorem check_new_function_accepts_iff (MAX_NAME_SIZE : Int) (fun_name : String)
    (nparams : Int) (param_name param_unit : Option (Int → Option String)) :
    check_new_function MAX_NAME_SIZE (some fun_name) nparams param_name param_unit = 0 ↔
      0 ≤ nparams ∧ check_name_string (some fun_name) MAX_NAME_SIZE = 0 ∧
      ∀ names, param_name = some names → ∀ j : Int, 0 ≤ j → j < nparams →
        check_name_string (names j) MAX_NAME_SIZE = 0 ∧
        ∀ units u, param_unit = some units → units j = some u →
          (u.length : Int) < MAX_NAME_SIZE := by
  have hrange := check_name_string_range (some fun_name) MAX_NAME_SIZE
  simp only [check_new_function]
  by_cases hn : nparams < 0
  · rw [if_pos hn]
    constructor
    · intro h
      exact absurd h (by decide)
    · rintro ⟨h, _⟩
      omega
  · rw [if_neg hn]
    by_cases hf : check_name_string (some fun_name) MAX_NAME_SIZE = -1
    · rw [if_pos hf]
      constructor
      · intro h
        exact absurd h (by decide)
      · rintro ⟨_, h, _⟩
        rw [hf] at h
        exact absurd h (by decide)
    · rw [if_neg hf]
      have hf0 : check_name_string (some fun_name) MAX_NAME_SIZE = 0 := by
        rcases hrange with h | h
        · exact absurd h hf
        · exact h
      cases param_name with
      | none =>
        simp only []
        refine ⟨fun _ => ⟨by omega, hf0, ?_⟩, fun _ => by trivial⟩
        intro names e
        cases e
      | some names =>
        simp only []
        by_cases h0 : nparams = 0
        · rw [if_pos h0]
          refine ⟨fun _ => ⟨by omega, hf0, ?_⟩, fun _ => by trivial⟩
          intro names1 _ j h1 h2
          omega
        · rw [if_neg h0, check_params_loop_accepts_iff]
          have hcast : ((nparams.toNat : Nat) : Int) = nparams := Int.toNat_of_nonneg (by omega)
          constructor
          · intro h
            refine ⟨by omega, hf0, ?_⟩
            intro names1 e j h1 h2
            cases e
            exact h j h1 (by rw [hcast]; omega)
          · rintro ⟨_, _, h⟩ i h1 h2
            exact h names rfl i h1 (by rw [hcast] at h2; omega)

/-- Names and units checked by `check_name_string` and `check_new_function`,
evaluated with `MAX_NAME_SIZE = 4`. -/
theorem example_check_names :
    check_name_string (some "abc") 4 = 0 ∧ check_name_string (some "abcd") 4 = -1 ∧
    check_name_string (some "a b") 4 = -1 ∧ check_name_string (some "") 4 = 0 ∧
    check_name_string none 4 = -1 ∧
    check_new_function 4 (some "f") 2 (some example_param_names) (some example_param_units)
      = 0 ∧
    check_new_function 4 (some "f") 2 (some example_param_names)
      (some (fun _ => some "ergs")) = -1 := by
  decide

/-- C19, as the code has it: `check_name_string` rejects a non-empty string
exactly when it contains a whitespace or control character or has
`MAX_NAME_SIZE` or more characters, and accepts it otherwise;
`check_new_function` returns -1 when the function name is rejected and, where
parameter names are given, when the name of a parameter below `nparams` is
rejected or a unit supplied for such a parameter has `MAX_NAME_SIZE` or more
characters; without parameter names it returns 0 once the function name is
accepted, whatever the units. -/
theorem check_name_string_rejects (MAX_NAME_SIZE : Int) (s : String) (hs : s ≠ "") :
    (check_name_string (some s) MAX_NAME_SIZE = -1 ↔
      (∃ c ∈ s.data, isspace c = true ∨ iscntrl c = true) ∨
        MAX_NAME_SIZE ≤ (s.length : Int)) ∧
    (check_name_string (some s) MAX_NAME_SIZE ≠ -1 →
      check_name_string (some s) MAX_NAME_SIZE = 0) ∧
    ((∀ c ∈ s.data, isspace c = false ∧ iscntrl c = false) →
      (s.length : Int) = MAX_NAME_SIZE - 1 → check_name_string (some s) MAX_NAME_SIZE = 0) ∧
    ((s.length : Int) = MAX_NAME_SIZE → check_name_string (some s) MAX_NAME_SIZE = -1) ∧
    ∀ (fun_name : String) (nparams : Int) (param_name param_unit : Option (Int → Option String)),
      (check_name_string (some fun_name) MAX_NAME_SIZE = -1 →
        check_new_function MAX_NAME_SIZE (some fun_name) nparams param_name param_unit = -1) ∧
      (∀ names j, param_name = some names → 0 ≤ j → j < nparams →
        check_name_string (names j) MAX_NAME_SIZE = -1 →
        check_new_function MAX_NAME_SIZE (some fun_name) nparams param_name param_unit = -1) ∧
      (∀ names units j u, param_name = some names → param_unit = some units →
        0 ≤ j → j < nparams → units j = some u → MAX_NAME_SIZE ≤ (u.length : Int) →
        check_new_function MAX_NAME_SIZE (some fun_name) nparams param_name param_unit
          = -1) ∧
      (0 ≤ nparams → check_name_string (some fun_name) MAX_NAME_SIZE = 0 →
        check_new_function MAX_NAME_SIZE (some fun_name) nparams none param_unit = 0) := by
  have hd := data_ne_nil_of_ne_empty s hs
  have hiff : check_name_string (some s) MAX_NAME_SIZE = -1 ↔
      (∃ c ∈ s.data, isspace c = true ∨ iscntrl c = true) ∨
        MAX_NAME_SIZE ≤ (s.length : Int) := by
    rw [check_name_string_rejects_iff s MAX_NAME_SIZE hd]
    simp only [Bool.or_eq_true]
  have hrange := check_name_string_range (some s) MAX_NAME_SIZE
  refine ⟨hiff, ?_, ?_, ?_, ?_⟩
  · intro h
    rcases hrange with h1 | h1
    · exact absurd h1 h
    · exact h1
  · intro hclean hlen
    rw [check_name_string_accepts_iff]
    exact Or.inr ⟨hclean, by omega⟩
  · intro hlen
    rw [hiff]
    exact Or.inr (by omega)
  · intro fun_name nparams param_name param_unit
    have hnot : ∀ P : Prop, (check_new_function MAX_NAME_SIZE (some fun_name) nparams
        param_name param_unit = 0 → P) → ¬ P →
        check_new_function MAX_NAME_SIZE (some fun_name) nparams param_name param_unit
          = -1 := by
      intro P h1 h2
      rcases check_new_function_range MAX_NAME_SIZE (some fun_name) nparams param_name
        param_unit with h | h
      · exact h
      · exact absurd (h1 h) h2
    refine ⟨?_, ?_, ?_, ?_⟩
    rotate_left 3
    · intro h1 h2
      rw [check_new_function_accepts_iff]
      refine ⟨h1, h2, ?_⟩
      intro names e
      cases e
    · intro h
      refine hnot _ (fun h0 => ((check_new_function_accepts_iff _ _ _ _ _).1 h0).2.1) ?_
      rw [h]
      decide
    · intro names j e h1 h2 h
      refine hnot _
        (fun h0 => (((check_new_function_accepts_iff _ _ _ _ _).1 h0).2.2 names e j h1 h2).1) ?_
      rw [h]
      decide
    · intro names units j u e1 e2 h1 h2 e3 hlen
      refine hnot _
        (fun h0 => (((check_new_function_accepts_iff _ _ _ _ _).1 h0).2.2 names e1 j h1 h2).2
          units u e2 e3) ?_
      omega

/-- Witness for C19: the name "a b" with `MAX_NAME_SIZE = 4`. -/
theorem check_name_string_rejects_witness :
    ("a b" : String) ≠ "" ∧
    (check_name_string (some "a b") 4 = -1 ↔
      (∃ c ∈ ("a b" : String).data, isspace c = true ∨ iscntrl c = true) ∨
        (4 : Int) ≤ (("a b" : String).length : Int)) :=
  ⟨by decide, (check_name_string_rejects 4 "a b" (by decide)).1⟩

/-- Counterexample for C19: the unit "ergs" has `MAX_NAME_SIZE = 4` characters
and is supplied for the one parameter of "f", whose names are not given;
`check_new_function` returns 0. -/
theorem check_new_function_unit_counterexample :
    (4 : Int) ≤ (("ergs" : String).length : Int) ∧
    check_new_function 4 (some "f") 1 none (some (fun _ => some "ergs")) = 0 := by
  decide

/-- C20, as the code has it: `check_name_string` accepts the empty string for
every size, and `check_new_function` returns 0 exactly when `nparams` is not
negative, the function name is empty or a name without whitespace and control
characters shorter than `MAX_NAME_SIZE`, and, when parameter names are given,
each of the `nparams` names is such a string and each unit supplied for them is
shorter than `MAX_NAME_SIZE`. -/
theorem check_new_function_accepts_empty_names (MAX_NAME_SIZE : Int) (fun_name : String)
    (nparams : Int) (param_name param_unit : Option (Int → Option String)) :
    (∀ size, check_name_string (some "") size = 0) ∧
    (check_new_function MAX_NAME_SIZE (some fun_name) nparams param_name param_unit = 0 ↔
      0 ≤ nparams ∧
      (fun_name = "" ∨
        ((∀ c ∈ fun_name.data, isspace c = false ∧ iscntrl c = false) ∧
          (fun_name.length : Int) < MAX_NAME_SIZE)) ∧
      ∀ names, param_name = some names → ∀ j : Int, 0 ≤ j → j < nparams →
        (∃ nm, names j = some nm ∧ (nm = "" ∨
          ((∀ c ∈ nm.data, isspace c = false ∧ iscntrl c = false) ∧
            (nm.length : Int) < MAX_NAME_SIZE))) ∧
        ∀ units u, param_unit = some units → units j = some u →
          (u.length : Int) < MAX_NAME_SIZE) := by
  refine ⟨fun size => rfl, ?_⟩
  rw [check_new_function_accepts_iff, check_name_string_some_iff]
  constructor
  · rintro ⟨h1, ⟨nm, e, h2⟩, h3⟩
    cases e
    refine ⟨h1, h2, ?_⟩
    intro names e j hj1 hj2
    obtain ⟨h4, h5⟩ := h3 names e j hj1 hj2
    exact ⟨(check_name_string_some_iff _ _).1 h4, h5⟩
  · rintro ⟨h1, h2, h3⟩
    refine ⟨h1, ⟨fun_name, rfl, h2⟩, ?_⟩
    intro names e j hj1 hj2
    obtain ⟨h4, h5⟩ := h3 names e j hj1 hj2
    exact ⟨(check_name_string_some_iff _ _).2 h4, h5⟩

/-- Counterexample for C20: a definition whose function name is the empty string
and a definition whose second parameter name is the empty string pass
`check_new_function`. -/
theorem check_new_function_empty_name_counterexample :
    check_new_function 32 (some "") 0 none none = 0 ∧
    example_param_names 1 = some "" ∧
    check_new_function 32 (some "f") 2 (some example_param_names) (some example_param_units)
      = 0 ∧
    check_new_function 32 (some "") 2 (some example_param_names) none = 0 := by
  decide


/-! ## Registration -/

theorem linked_new (pf sentinel new : Fit_Fun_t) (regs : List Fit_Fun_t)
    (hfresh : ∀ r ∈ regs, r.fun_name ≠ pf.fun_name) (hnew : new.fun_name = pf.fun_name) :
    linked pf ((sentinel :: regs) ++ [new]) = some new := by
  unfold linked
  rw [List.cons_append, List.tail_cons, List.find?_append]
  have h1 : regs.find? (fun r => decide (r.fun_name = pf.fun_name)) = none := by
    rw [List.find?_eq_none]
    intro r hr
    simpa using hfresh r hr
  rw [h1]
  simp [hnew]

theorem linked_redefine (pf sentinel new : Fit_Fun_t) (pre post : List Fit_Fun_t)
    (hpre : ∀ r ∈ pre, r.fun_name ≠ pf.fun_name) (hnew : new.fun_name = pf.fun_name) :
    linked pf (sentinel :: pre ++ new :: post) = some new := by
  unfold linked
  rw [List.cons_append, List.tail_cons, List.find?_append]
  have h1 : pre.find? (fun r => decide (r.fun_name = pf.fun_name)) = none := by
    rw [List.find?_eq_none]
    intro r hr
    simpa using hpre r hr
  rw [h1]
  simp [hnew]

/-- A registration that fails before the descriptor is built leaves the chain as
it was. -/
theorem do_add_function_not_built (load : String → Nat → Int)
    (make : Option (UDF_Info_Type → Option Fit_Fun_t)) (u : Option UDF_Info_Type)
    (Fit_Fun : List Fit_Fun_t)
    (h : u = none ∨ make = none ∨ ∃ u0 m, u = some u0 ∧ make = some m ∧ m u0 = none) :
    (do_add_function load make u Fit_Fun).ret = -1 ∧
    (do_add_function load make u Fit_Fun).table = Fit_Fun ∧
    (do_add_function load make u Fit_Fun).freed = [] := by
  have hadd : add_function_of_type make u Fit_Fun
      = { ret := none, table := Fit_Fun, freed := [] } := by
    rcases h with rfl | rfl | ⟨u0, m, rfl, rfl, hm⟩
    · rfl
    · cases u <;> rfl
    · simp only [add_function_of_type, hm]
  simp [do_add_function, hadd]

theorem add_function_of_type_new (make : UDF_Info_Type → Option Fit_Fun_t) (u : UDF_Info_Type)
    (pf sentinel new : Fit_Fun_t) (regs : List Fit_Fun_t) (hmake : make u = some pf)
    (hfresh : ∀ r ∈ regs, r.fun_name ≠ pf.fun_name)
    (happ : append_walk pf sentinel regs = ((sentinel :: regs) ++ [new], []))
    (hnew : new.fun_name = pf.fun_name) :
    add_function_of_type (some make) (some u) (sentinel :: regs)
      = { ret := some new, table := (sentinel :: regs) ++ [new], freed := [] } := by
  simp only [add_function_of_type, hmake, append_fit_fun_cons, happ]
  rw [if_neg (by decide), linked_new pf sentinel new regs hfresh hnew]

theorem add_function_of_type_redefine (make : UDF_Info_Type → Option Fit_Fun_t)
    (u : UDF_Info_Type) (pf sentinel old new : Fit_Fun_t) (pre post : List Fit_Fun_t)
    (hmake : make u = some pf) (hpre : ∀ r ∈ pre, r.fun_name ≠ pf.fun_name)
    (happ : append_walk pf sentinel (pre ++ old :: post)
      = (sentinel :: pre ++ new :: post, [old]))
    (hnew : new.fun_name = pf.fun_name) :
    add_function_of_type (some make) (some u) (sentinel :: pre ++ old :: post)
      = { ret := some new, table := sentinel :: pre ++ new :: post, freed := [old] } := by
  simp only [add_function_of_type, hmake, List.cons_append, append_fit_fun_cons, happ]
  have hl := linked_redefine pf sentinel new pre post hpre hnew
  rw [List.cons_append] at hl
  rw [if_neg (by decide), hl]

theorem do_add_function_rollback (load : String → Nat → Int)
    (make : Option (UDF_Info_Type → Option Fit_Fun_t)) (u : Option UDF_Info_Type)
    (Fit_Fun t f : List Fit_Fun_t) (new : Fit_Fun_t)
    (hadd : add_function_of_type make u Fit_Fun = { ret := some new, table := t, freed := f })
    (hl : load new.fun_name new.fun_type = -1) :
    (do_add_function load make u Fit_Fun).ret = -1 ∧
    (do_add_function load make u Fit_Fun).table
      = (del_function (u.bind UDF_Info_Type.fun_name) t).table ∧
    (do_add_function load make u Fit_Fun).freed
      = f ++ (del_function (u.bind UDF_Info_Type.fun_name) t).freed := by
  simp only [do_add_function, hadd, wrap_mode_switch]
  rw [if_pos hl]
  exact ⟨rfl, rfl, rfl⟩

/-- The rollback of a failed registration of a new name: the descriptor linked
in last is unlinked again. -/
theorem do_add_function_new_fails (load : String → Nat → Int)
    (make : UDF_Info_Type → Option Fit_Fun_t) (u : UDF_Info_Type) (pf sentinel : Fit_Fun_t)
    (regs : List Fit_Fun_t) (hmake : make u = some pf) (hname : u.fun_name = some pf.fun_name)
    (hfresh : ∀ r ∈ regs, r.fun_name ≠ pf.fun_name)
    (hload : ∀ t, load pf.fun_name t = -1) :
    (do_add_function load (some make) (some u) (sentinel :: regs)).ret = -1 ∧
    (do_add_function load (some make) (some u) (sentinel :: regs)).table = sentinel :: regs := by
  have hadd := add_function_of_type_new make u pf sentinel _ regs hmake hfresh
    (append_walk_new pf sentinel regs hfresh) rfl
  obtain ⟨h1, h2, _⟩ := do_add_function_rollback load (some make) (some u) _ _ _ _ hadd
    (hload _)
  have hdel : ∀ t : Nat, del_walk pf.fun_name (regs ++ [{ pf with fun_type := t }])
      = (regs ++ [], [{ pf with fun_type := t }]) :=
    fun t => del_walk_present pf.fun_name regs [] { pf with fun_type := t } hfresh rfl
  refine ⟨h1, ?_⟩
  rw [h2]
  simp only [Option.bind, hname, del_function, List.cons_append]
  rw [hdel, List.append_nil]

/-- The rollback of a failed redefinition: the old descriptor was freed when the
new one took its place, and the rollback unlinks the new one. -/
theorem do_add_function_redefine_fails (load : String → Nat → Int)
    (make : UDF_Info_Type → Option Fit_Fun_t) (u : UDF_Info_Type) (pf sentinel old : Fit_Fun_t)
    (pre post : List Fit_Fun_t) (hmake : make u = some pf)
    (hname : u.fun_name = some pf.fun_name)
    (hpre : ∀ r ∈ pre, r.fun_name ≠ pf.fun_name) (hold : old.fun_name = pf.fun_name)
    (hload : ∀ t, load pf.fun_name t = -1) :
    (do_add_function load (some make) (some u) (sentinel :: pre ++ old :: post)).ret = -1 ∧
    (do_add_function load (some make) (some u) (sentinel :: pre ++ old :: post)).table
      = sentinel :: pre ++ post ∧
    (do_add_function load (some make) (some u) (sentinel :: pre ++ old :: post)).freed
      = [old, { pf with fun_type := old.fun_type, fun_version := old.fun_version + 1 }] := by
  have hadd := add_function_of_type_redefine make u pf sentinel old _ pre post hmake hpre
    (append_walk_redefine pf sentinel old pre post hpre hold) rfl
  obtain ⟨h1, h2, h3⟩ := do_add_function_rollback load (some make) (some u) _ _ _ _ hadd
    (hload _)
  have hdel : ∀ t v : Nat,
      del_walk pf.fun_name (pre ++ { pf with fun_type := t, fun_version := v } :: post)
        = (pre ++ post, [{ pf with fun_type := t, fun_version := v }]) :=
    fun t v => del_walk_present pf.fun_name pre post
      { pf with fun_type := t, fun_version := v } hpre rfl
  rw [h2, h3]
  simp only [Option.bind, hname, del_function, List.cons_append]
  rw [hdel]
  exact ⟨h1, rfl, rfl⟩

/-- C21: a registration of "f" whose wrapper fails to load, made while "f" is
registered between "g" and "h", returns -1 and leaves a chain without any
descriptor named "f": the registered one was freed when the new one took its
place, and the rollback `del_function` unlinked the new one.  The same request
made while "f" is not registered leaves the chain as it was. -/
theorem do_add_function_failed_redefinition :
    (do_add_function (fun _ _ => -1) (some (fun _ => some example_f2)) (some example_udf)
      (init_fun_table 0 ++ [example_g, example_old, example_h])).ret = -1 ∧
    (do_add_function (fun _ _ => -1) (some (fun _ => some example_f2)) (some example_udf)
      (init_fun_table 0 ++ [example_g, example_old, example_h])).table
      = init_fun_table 0 ++ [example_g, example_h] ∧
    (do_add_function (fun _ _ => -1) (some (fun _ => some example_f2)) (some example_udf)
      (init_fun_table 0 ++ [example_g, example_old, example_h])).freed
      = [example_old, { example_f2 with fun_type := 1, fun_version := 4 }] ∧
    Fit_get_fun_type "f" (init_fun_table 0 ++ [example_g, example_old, example_h]) = 1 ∧
    Fit_get_fun_type "f"
      (do_add_function (fun _ _ => -1) (some (fun _ => some example_f2)) (some example_udf)
        (init_fun_table 0 ++ [example_g, example_old, example_h])).table = -1 ∧
    (do_add_function (fun _ _ => -1) (some (fun _ => some example_f2)) (some example_udf)
      (init_fun_table 0 ++ [example_g, example_h])).ret = -1 ∧
    (do_add_function (fun _ _ => -1) (some (fun _ => some example_f2)) (some example_udf)
      (init_fun_table 0 ++ [example_g, example_h])).table
      = init_fun_table 0 ++ [example_g, example_h] := by
  decide

/-! ## Norm parameters -/

theorem norm_scan_none (pnames : Int → String) (n : Nat) :
    norm_scan pnames n = none ↔
      ∀ i : Nat, i < n → isis_strcasecmp (pnames i) "norm" ≠ 0 := by
  induction n with
  | zero => simp [norm_scan]
  | succ n ih =>
    unfold norm_scan
    by_cases h : isis_strcasecmp (pnames n) "norm" = 0
    · rw [if_pos h]
      constructor
      · intro e
        cases e
      · intro hall
        exact absurd h (hall n (Nat.lt_succ_self n))
    · rw [if_neg h, ih]
      constructor
      · intro hall i hi
        rcases Nat.lt_succ_iff_lt_or_eq.1 hi with hlt | rfl
        · exact hall i hlt
        · exact h
      · intro hall i hi
        exact hall i (Nat.lt_succ_of_lt hi)

theorem norm_scan_some (pnames : Int → String) (n i : Nat) :
    norm_scan pnames n = some i ↔
      i < n ∧ isis_strcasecmp (pnames i) "norm" = 0 ∧
      ∀ j : Nat, i < j → j < n → isis_strcasecmp (pnames j) "norm" ≠ 0 := by
  induction n with
  | zero => simp [norm_scan]
  | succ n ih =>
    unfold norm_scan
    by_cases h : isis_strcasecmp (pnames n) "norm" = 0
    · rw [if_pos h]
      constructor
      · intro e
        cases e
        exact ⟨Nat.lt_succ_self _, h, fun j h1 h2 => by omega⟩
      · rintro ⟨h1, _, h3⟩
        by_cases e : i = n
        · rw [e]
        · exact absurd h (h3 n (by omega) (Nat.lt_succ_self _))
    · rw [if_neg h, ih]
      constructor
      · rintro ⟨h1, h2, h3⟩
        refine ⟨by omega, h2, ?_⟩
        intro j hj1 hj2
        rcases Nat.lt_succ_iff_lt_or_eq.1 hj2 with hlt | rfl
        · exact h3 j hj1 hlt
        · exact h
      · rintro ⟨h1, h2, h3⟩
        have hne : i ≠ n := by
          intro e
          rw [e] at h2
          exact h h2
        exact ⟨by omega, h2, fun j hj1 hj2 => h3 j hj1 (by omega)⟩

/-- C22: a norm-index list that is not empty and whose first element differs
from the parameter count is copied as it is, `num_norms` being its length,
whatever the parameter names are; an absent or empty list, or one whose first
element is the parameter count, gives the result of the same request without a
list. -/
theorem set_slangfun_norms_explicit (u : UDF_Info_Type) :
    (∀ first rest, u.sl_norm_ids = some (first :: rest) → first ≠ u.num →
      set_slangfun_norms u
        = { ret := 0, num_norms := (first :: rest).length,
            norm_indexes := some (first :: rest) }) ∧
    ((u.sl_norm_ids = none ∨ u.sl_norm_ids = some [] ∨
        ∃ rest, u.sl_norm_ids = some (u.num :: rest)) →
      set_slangfun_norms u = set_slangfun_norms { u with sl_norm_ids := none }) := by
  constructor
  · intro first rest hids hne
    simp only [set_slangfun_norms, hids, List.length_cons, List.getD_cons_zero]
    rw [if_pos ⟨Nat.succ_pos _, hne⟩]
  · rintro (h | h | ⟨rest, h⟩)
    · simp only [set_slangfun_norms, h]
    · simp only [set_slangfun_norms, h]
      rw [if_neg (by simp)]
    · simp only [set_slangfun_norms, h]
      rw [if_neg (by simp)]

/-- Witness for C22: the list `[0, 2]` for "gauss" with three parameters, and
the list `[3]` that stands for no list. -/
theorem set_slangfun_norms_explicit_witness :
    set_slangfun_norms { example_gauss with sl_norm_ids := some [0, 2] }
      = { ret := 0, num_norms := 2, norm_indexes := some [0, 2] } ∧
    set_slangfun_norms { example_gauss with sl_norm_ids := some [3] }
      = set_slangfun_norms example_gauss :=
  ⟨(set_slangfun_norms_explicit { example_gauss with sl_norm_ids := some [0, 2] }).1 0 [2] rfl
      (by decide),
    (set_slangfun_norms_explicit { example_gauss with sl_norm_ids := some [3] }).2
      (Or.inr (Or.inr ⟨[], rfl⟩))⟩

/-- C23: without a norm-index list, when the name of parameter `i` equals "norm"
ignoring letter case and no parameter of a higher index does, there is exactly
one norm and its index is `i`; when some name matches there is exactly one
norm; when no name matches there is none. -/
theorem set_slangfun_norms_by_name (u : UDF_Info_Type) (hnone : u.sl_norm_ids = none) :
    (∀ i : Nat, i < u.num → isis_strcasecmp (u.pnames i) "norm" = 0 →
      (∀ j : Nat, i < j → j < u.num → isis_strcasecmp (u.pnames j) "norm" ≠ 0) →
      set_slangfun_norms u = { ret := 0, num_norms := 1, norm_indexes := some [i] }) ∧
    ((∃ i : Nat, i < u.num ∧ isis_strcasecmp (u.pnames i) "norm" = 0) →
      ∃ i : Nat, i < u.num ∧ isis_strcasecmp (u.pnames i) "norm" = 0 ∧
        set_slangfun_norms u = { ret := 0, num_norms := 1, norm_indexes := some [i] }) ∧
    ((∀ i : Nat, i < u.num → isis_strcasecmp (u.pnames i) "norm" ≠ 0) →
      set_slangfun_norms u = { ret := 0, num_norms := 0, norm_indexes := none }) := by
  refine ⟨?_, ?_, ?_⟩
  · intro i h1 h2 h3
    have hs := (norm_scan_some u.pnames u.num i).2 ⟨h1, h2, h3⟩
    simp only [set_slangfun_norms, hnone, hs]
  · rintro ⟨i, h1, h2⟩
    cases hs : norm_scan u.pnames u.num with
    | none => exact absurd h2 ((norm_scan_none u.pnames u.num).1 hs i h1)
    | some k =>
      obtain ⟨k1, k2, _⟩ := (norm_scan_some u.pnames u.num k).1 hs
      refine ⟨k, k1, k2, ?_⟩
      simp only [set_slangfun_norms, hnone, hs]
  · intro hall
    have hs := (norm_scan_none u.pnames u.num).2 hall
    simp only [set_slangfun_norms, hnone, hs]

/-- Witness for C23: the parameters "center", "width", "Norm" give the norm
index 2. -/
theorem set_slangfun_norms_by_name_witness :
    example_gauss.sl_norm_ids = none ∧
    set_slangfun_norms example_gauss = { ret := 0, num_norms := 1, norm_indexes := some [2] } :=
  ⟨rfl, (set_slangfun_norms_by_name example_gauss rfl).1 2 (by decide) (by decide)
    (fun j h1 h2 => absurd h2 (by
      have : example_gauss.num = 3 := rfl
      omega))⟩

/-! ## Parameter defaults and unbinned evaluation -/

/-- C25: `sl_diff_eval` on a descriptor without `slangfun_diff_eval` returns -1,
calls no script function and reports that the function does not support the
evaluation method; `c_diff_eval` on a descriptor without `s.unbinned` returns -1
and calls no routine; with the evaluator present each makes exactly one call,
with the `npts` points of the grid and the `nparams` parameters, and returns 0
or -1 by the outcome of that call. -/
theorem diff_eval_without_evaluator (sl_exec : Sl_Call → Int) (unbinned : Unbinned_Call → Int)
    (ff : Fit_Fun_t) (ug : Isis_User_Grid_t) (par : Int → ℚ) :
    (ff.slangfun_diff_eval = none →
      sl_diff_eval sl_exec ff ug par
        = { ret := -1, calls := [],
            messages := [ff.fun_name ++ " does not support this evaluation method"] }) ∧
    (ff.unbinned = none →
      (c_diff_eval unbinned ff ug par).ret = -1 ∧ (c_diff_eval unbinned ff ug par).calls = []) ∧
    (∀ f, ff.slangfun_diff_eval = some f →
      (sl_diff_eval sl_exec ff ug par).calls
        = [{ fn := f, args := [(loop_range 0 ug.npts).map ug.x,
              (loop_range 0 ff.nparams).map par] }] ∧
      ((sl_diff_eval sl_exec ff ug par).ret = 0 ∨ (sl_diff_eval sl_exec ff ug par).ret = -1) ∧
      ((sl_diff_eval sl_exec ff ug par).ret = 0 ↔
        sl_exec { fn := f, args := [(loop_range 0 ug.npts).map ug.x,
          (loop_range 0 ff.nparams).map par] } = 1)) ∧
    (∀ f, ff.unbinned = some f →
      (c_diff_eval unbinned ff ug par).calls
        = [{ fn := f, size := ug.npts, ug := ug, par := par, nparams := ff.nparams }] ∧
      ((c_diff_eval unbinned ff ug par).ret = 0 ∨ (c_diff_eval unbinned ff ug par).ret = -1) ∧
      ((c_diff_eval unbinned ff ug par).ret = -1 ↔
        unbinned { fn := f, size := ug.npts, ug := ug, par := par, nparams := ff.nparams }
          = -1)) := by
  refine ⟨?_, ?_, ?_, ?_⟩
  · intro h
    simp only [sl_diff_eval, h]
  · intro h
    simp only [c_diff_eval, h]
    exact ⟨trivial, trivial⟩
  · intro f h
    simp only [sl_diff_eval, h]
    split_ifs with h1
    · exact ⟨rfl, Or.inl rfl, ⟨fun _ => h1, fun _ => rfl⟩⟩
    · exact ⟨rfl, Or.inr rfl, ⟨fun (h0 : (-1 : Int) = 0) => absurd h0 (by decide), fun h0 => absurd h0 h1⟩⟩
  · intro f h
    simp only [c_diff_eval, h]
    split_ifs with h1
    · exact ⟨rfl, Or.inr rfl, ⟨fun _ => h1, fun _ => rfl⟩⟩
    · exact ⟨rfl, Or.inl rfl, ⟨fun h0 => h0.elim, fun h0 => absurd h0 h1⟩⟩

/-- Witness for C25: the descriptor "f" built by `new_fit_fun` has neither
evaluator. -/
theorem diff_eval_without_evaluator_witness :
    sl_diff_eval (fun _ => 1) example_f1 example_points (fun _ => 0)
      = { ret := -1, calls := [],
          messages := ["f does not support this evaluation method"] } ∧
    (c_diff_eval (fun _ => 0) example_f1 example_points (fun _ => 0)).ret = -1 :=
  ⟨(diff_eval_without_evaluator (fun _ => 1) (fun _ => 0) example_f1
      example_points (fun _ => 0)).1 rfl,
    ((diff_eval_without_evaluator (fun _ => 1) (fun _ => 0) example_f1
      example_points (fun _ => 0)).2.1 rfl).1⟩

/-! ## Precision instances of the grid translator -/

theorem emit_entries_keep_type (t1 t2 : ℚ → ℚ) (g : Isis_Hist_t) (nl : Int → Int) (i : Int) :
    (emit_entries t1 g nl i).map Prod.snd = (emit_entries t2 g nl i).map Prod.snd := by
  unfold emit_entries
  split_ifs <;> rfl

theorem emitted_keep_type (t1 t2 : ℚ → ℚ) (g : Isis_Hist_t) (nl : Int → Int) (is : List Int) :
    (emitted t1 g nl is).map Prod.snd = (emitted t2 g nl is).map Prod.snd := by
  unfold emitted
  induction is.reverse with
  | nil => rfl
  | cons i rest ih =>
    simp only [List.flatMap_cons, List.map_append, ih, emit_entries_keep_type t1 t2 g nl i]

theorem grid_spec_keep_type (t1 t2 : ℚ → ℚ) (g : Isis_Hist_t) (nl : Int → Int) :
    (grid_spec t1 g nl).keep = (grid_spec t2 g nl).keep ∧
    (grid_spec t1 g nl).nbins = (grid_spec t2 g nl).nbins ∧
    (grid_spec t1 g nl).photar = (grid_spec t2 g nl).photar ∧
    (grid_spec t1 g nl).ebins.length = (grid_spec t2 g nl).ebins.length := by
  have hk : (grid_spec t1 g nl).keep = (grid_spec t2 g nl).keep := by
    simp only [grid_spec, List.map_cons]
    rw [emitted_keep_type t1 t2]
  have hl := congrArg List.length hk
  obtain ⟨a1, a2, a3⟩ := grid_spec_shape t1 g nl
  obtain ⟨b1, b2, b3⟩ := grid_spec_shape t2 g nl
  refine ⟨hk, ?_, ?_, ?_⟩
  · rw [a1, b1, hl]
  · rw [a2, b2, hl]
  · rw [a3, b3, hl]

/-- The translator succeeds exactly when the grid and its notice list are
there, a bin is noticed, and no adjacent noticed pair has `diff = TOL * avg`;
the grid it returns is `grid_spec`. -/
theorem MAKE_XG_isSome_iff (type : ℚ → ℚ) (raw : Raw_Memory) (g : Option Isis_Hist_t) :
    (MAKE_XG type raw g).isSome = true ↔
      ∃ g0 nl, g = some g0 ∧ g0.notice_list = some nl ∧ 1 ≤ g0.n_notice ∧
        (∀ i, 1 ≤ i → i < g0.n_notice → pair_diff g0 nl i ≠ double_mul TOL (pair_avg g0 nl i)) ∧
        MAKE_XG type raw g = some (grid_spec type g0 nl) := by
  constructor
  · intro h
    obtain ⟨x, hx⟩ := Option.isSome_iff_exists.1 h
    cases g with
    | none =>
      rw [MAKE_XG_null type raw none (Or.inl rfl)] at hx
      cases hx
    | some g0 =>
      cases hnl : g0.notice_list with
      | none =>
        rw [MAKE_XG_null type raw (some g0) (Or.inr ⟨g0, rfl, Or.inl hnl⟩)] at hx
        cases hx
      | some nl =>
        have hn := MAKE_XG_some_n_notice type raw g0 x hx
        obtain ⟨h1, h2⟩ := (MAKE_XG_some_iff type raw g0 nl hnl hn x).1 hx
        exact ⟨g0, nl, rfl, hnl, hn, h1, by rw [hx, h2]⟩
  · rintro ⟨g0, nl, _, _, _, _, h⟩
    rw [h]
    rfl

/-- C28: the single-precision and the double-precision translator store the
same keep entries for every adjacent noticed pair, one or two by the same test
on the double-precision edges; they succeed or fail together; and when they
succeed they return the same `nbins`, the same `keep` and edge arrays of the
same length, the grids being `grid_spec` with and without the conversion to
single precision.  When the conversion changes no value the two grids are
equal. -/
theorem make_xspec_grid_precisions_agree (float : ℚ → ℚ) (rawf rawd : Raw_Memory)
    (g : Option Isis_Hist_t) :
    (∀ g0 nl i, (emit_entries float g0 nl i).map Prod.snd
      = (emit_entries id g0 nl i).map Prod.snd) ∧
    (make_f_xspec_grid float rawf g).isSome = (make_d_xspec_grid rawd g).isSome ∧
    (∀ xf xd, make_f_xspec_grid float rawf g = some xf → make_d_xspec_grid rawd g = some xd →
      xf.nbins = xd.nbins ∧ xf.keep = xd.keep ∧ xf.photar = xd.photar ∧
      xf.ebins.length = xd.ebins.length ∧
      ∃ g0 nl, g = some g0 ∧ g0.notice_list = some nl ∧
        xf = grid_spec float g0 nl ∧ xd = grid_spec id g0 nl) ∧
    ((∀ q, float q = q) → make_f_xspec_grid float rawf g = make_d_xspec_grid rawd g) := by
  unfold make_f_xspec_grid make_d_xspec_grid
  have hf := MAKE_XG_isSome_iff float rawf g
  have hd := MAKE_XG_isSome_iff id rawd g
  have hpair : ∀ xf xd, MAKE_XG float rawf g = some xf → MAKE_XG id rawd g = some xd →
      ∃ g0 nl, g = some g0 ∧ g0.notice_list = some nl ∧
        xf = grid_spec float g0 nl ∧ xd = grid_spec id g0 nl := by
    intro xf xd h1 h2
    obtain ⟨g0, nl, e1, e2, _, _, e3⟩ := hf.1 (by rw [h1]; rfl)
    obtain ⟨g1, nl1, e4, e5, _, _, e6⟩ := hd.1 (by rw [h2]; rfl)
    rw [e1] at e4
    cases e4
    rw [e2] at e5
    cases e5
    rw [h1] at e3
    rw [h2] at e6
    cases e3
    cases e6
    exact ⟨g0, nl, e1, e2, rfl, rfl⟩
  have hsome : (MAKE_XG float rawf g).isSome = (MAKE_XG id rawd g).isSome := by
    cases h1 : (MAKE_XG float rawf g).isSome
    · cases h2 : (MAKE_XG id rawd g).isSome
      · rfl
      · obtain ⟨g0, nl, e1, e2, e3, e4, _⟩ := hd.1 h2
        have hx := (MAKE_XG_some_iff float rawf g0 nl e2 e3 (grid_spec float g0 nl)).2 ⟨e4, rfl⟩
        rw [e1, hx] at h1
        cases h1
    · obtain ⟨g0, nl, e1, e2, e3, e4, _⟩ := hf.1 h1
      have hx := (MAKE_XG_some_iff id rawd g0 nl e2 e3 (grid_spec id g0 nl)).2 ⟨e4, rfl⟩
      rw [e1, hx]
      rfl
  refine ⟨fun g0 nl i => emit_entries_keep_type float id g0 nl i, hsome, ?_, ?_⟩
  · intro xf xd h1 h2
    obtain ⟨g0, nl, e1, e2, rfl, rfl⟩ := hpair xf xd h1 h2
    obtain ⟨k1, k2, k3, k4⟩ := grid_spec_keep_type float id g0 nl
    exact ⟨k2, k1, k3, k4, g0, nl, e1, e2, rfl, rfl⟩
  · intro hid
    have hfun : float = id := funext hid
    rw [hfun]
    cases h1 : MAKE_XG id rawf g with
    | none =>
      cases h2 : MAKE_XG id rawd g with
      | none => rfl
      | some xd =>
        rw [hfun, h1] at hsome
        rw [h2] at hsome
        cases hsome
    | some xf =>
      cases h2 : MAKE_XG id rawd g with
      | none =>
        rw [hfun, h1] at hsome
        rw [h2] at hsome
        cases hsome
      | some xd =>
        rw [hfun] at hpair
        obtain ⟨g0, nl, _, _, e3, e4⟩ := hpair xf xd h1 h2
        rw [e3, e4]

/-! ## Hooks of the XSPEC module -/

theorem copy_loop_succ (type : ℚ → ℚ) (par : Int → ℚ) (n : Nat) (block : List ℚ) :
    copy_loop type par (n + 1) block
      = (copy_loop type par n block).set n (type (par n)) := by
  unfold copy_loop
  have h : ((n + 1 : Nat) : Int) = (n : Int) + 1 := by push_cast; rfl
  rw [h, loop_range_snoc 0 n (by omega), List.foldl_append]
  simp

theorem copy_loop_spec (type : ℚ → ℚ) (par : Int → ℚ) (npar : Nat) (block : List ℚ)
    (h : npar ≤ block.length) :
    (copy_loop type par npar block).length = block.length ∧
    ∀ i : Nat, (copy_loop type par npar block).getD i 0
      = if i < npar then type (par i) else block.getD i 0 := by
  induction npar with
  | zero =>
    have e : copy_loop type par 0 block = block := by
      unfold copy_loop
      rw [loop_range_empty 0 _ (by simp)]
      rfl
    rw [e]
    simp
  | succ n ih =>
    obtain ⟨ih1, ih2⟩ := ih (by omega)
    rw [copy_loop_succ]
    refine ⟨by rw [List.length_set, ih1], ?_⟩
    intro i
    by_cases hi : i = n
    · rw [hi, getD_set_self _ _ _ _ (by rw [ih1]; omega), if_pos (Nat.lt_succ_self n)]
    · rw [getD_set_ne _ _ _ _ _ (fun e => hi e.symm), ih2]
      by_cases hlt : i < n
      · rw [if_pos hlt, if_pos (by omega)]
      · rw [if_neg hlt, if_neg (by omega)]

theorem add_param_spec (type : ℚ → ℚ) (heap : Nat → ℚ) (par : Int → ℚ) (npar : Nat) :
    additive_args type par npar
      (fun j => (add_param type heap par npar).getD (j + 1).toNat 0)
      ((add_param type heap par npar).getD 0 0) := by
  have hlen : npar ≤ (if npar > 2 then (List.range npar).map heap else [0, 0]).length := by
    split_ifs with h
    · simp
    · simp only [List.length_cons, List.length_nil]
      omega
  obtain ⟨_, hget⟩ := copy_loop_spec type par npar _ hlen
  unfold additive_args add_param
  constructor
  · rw [hget]
    by_cases h0 : npar = 0
    · rw [if_pos h0, if_neg (by omega), if_neg (by omega)]
      rfl
    · rw [if_neg h0, if_pos (by omega)]
      rfl
  · intro j hj0 hj1
    simp only []
    rw [hget, if_pos (by omega)]
    congr 2
    omega

theorem mul_param_spec (float : ℚ → ℚ) (heap : Nat → ℚ) (par : Int → ℚ) (npar : Nat) :
    all_args float par npar (fun j => (mul_param float heap par npar).getD j.toNat 0) := by
  intro j hj0 hj1
  have hpos : npar > 0 := by omega
  simp only [mul_param, if_pos hpos]
  obtain ⟨_, hget⟩ := copy_loop_spec float par npar ((List.range npar).map heap) (by simp)
  rw [hget, if_pos (by omega)]
  congr 2
  omega

/-- The adapter on a grid that is built: one invocation, with the parameter
vector it was given; return value 0; the value of the `j`-th keep bin, times
the normalization and converted, is stored for the noticed bin
`n_notice - 1 - j`. -/
theorem EVAL_XF_values (type : ℚ → ℚ) (op : Int) (fname : Option String) (raw : Raw_Memory)
    (fn : Xspec_Fun_t) (val : Int → ℚ) (g : Isis_Hist_t) (nl : Int → Int) (param : Int → ℚ)
    (norm : ℚ) (category : Int) (x : Xspec_Info_Type) (hnl : g.notice_list = some nl)
    (hbuilt : MAKE_XG type raw (some g) = some x) :
    ∃ p : Xspec_Param_t,
      (EVAL_XF type op fname raw fn val (some g) param norm category).calls = [p] ∧
      p.param = param ∧ p.ne = x.nbins ∧ (category ≠ op → p.photar = x.photar) ∧
      (EVAL_XF type op fname raw fn val (some g) param norm category).ret = 0 ∧
      (∀ j : Nat, (j : Int) < g.n_notice →
        (EVAL_XF type op fname raw fn val (some g) param norm category).val
            (g.n_notice - 1 - j)
          = type (norm * (fn p).photar.getD ((keep_positions x.keep x.nbins).getD j 0).toNat 0)) ∧
      (∀ m : Int, m < 0 ∨ g.n_notice ≤ m →
        (EVAL_XF type op fname raw fn val (some g) param norm category).val m = val m) := by
  obtain ⟨p, hphot, _, hne, hparam, heval⟩ := EVAL_XF_some type op fname raw fn val g param norm
    category x hbuilt
  obtain ⟨_, h2, h3, h4⟩ := unpack_built type raw g nl x hnl hbuilt (fn p).photar norm val
  rw [heval]
  simp only [h2, if_true]
  exact ⟨p, rfl, hparam, hne, fun hc => by rw [hphot, if_neg hc], trivial, h3, h4⟩

theorem example_pair_built (type : ℚ → ℚ) (raw : Raw_Memory) :
    MAKE_XG type raw (some example_pair) = some (grid_spec type example_pair id) :=
  (MAKE_XG_some_iff type raw example_pair id rfl (by decide) _).mpr
    ⟨fun i h1 h2 => by
      have h2' : i < 2 := h2
      interval_cases i
      decide!, rfl⟩

/-- C29: every additive hook passes `par[0]` on as the normalization (0 when
`npar = 0`) and `par[1..npar-1]` as the routine's parameter vector, converted to
single precision in `add_f` and `add_fn`; every multiplicative and convolution
hook passes all of `par` on (converted in the single-precision hooks) with the
normalization 1.  On a grid that is built, `add_F` and `add_C` invoke the routine
once with that vector, return 0 and store for each noticed bin `par[0]` times
the routine's value of its keep bin, and 0 when `npar = 0`. -/
theorem hooks_normalization (float : ℚ → ℚ) (OP ADDMUL : Int) (fname : Option String)
    (raw : Raw_Memory) (heap : Nat → ℚ) (G : Option Xspec_Fun_t)
    (GC : Option (Option String → Xspec_Fun_t)) (init : Option String) (val : Int → ℚ)
    (g : Option Isis_Hist_t) (par : Int → ℚ) (npar : Nat) :
    (∃ param norm, additive_args id par npar param norm ∧
      add_F OP ADDMUL fname raw heap G val g par npar
        = eval_d_xspec_fun OP fname raw (F_sub G) val g param norm ADDMUL) ∧
    (∃ param norm, additive_args id par npar param norm ∧
      add_C OP ADDMUL fname raw heap init GC val g par npar
        = eval_d_xspec_fun OP fname raw (C_sub init GC) val g param norm ADDMUL) ∧
    (∃ param norm, additive_args float par npar param norm ∧
      add_f float OP ADDMUL fname raw heap G val g par npar
        = eval_f_xspec_fun float OP fname raw (f_sub G) val g param norm ADDMUL) ∧
    (∃ param norm, additive_args float par npar param norm ∧
      add_fn float OP ADDMUL fname raw heap G val g par npar
        = eval_f_xspec_fun float OP fname raw (fn_sub G) val g param norm ADDMUL) ∧
    mul_F OP ADDMUL fname raw G val g par npar
      = eval_d_xspec_fun OP fname raw (F_sub G) val g par 1 ADDMUL ∧
    con_F OP fname raw G val g par npar
      = eval_d_xspec_fun OP fname raw (F_sub G) val g par 1 OP ∧
    mul_C OP ADDMUL fname raw init GC val g par npar
      = eval_d_xspec_fun OP fname raw (C_sub init GC) val g par 1 ADDMUL ∧
    con_C OP fname raw init GC val g par npar
      = eval_d_xspec_fun OP fname raw (C_sub init GC) val g par 1 OP ∧
    (∃ param, all_args float par npar param ∧
      mul_f float OP ADDMUL fname raw heap G val g par npar
        = eval_f_xspec_fun float OP fname raw (f_sub G) val g param 1 ADDMUL ∧
      con_f float OP fname raw heap G val g par npar
        = eval_f_xspec_fun float OP fname raw (f_sub G) val g param 1 OP ∧
      mul_fn float OP ADDMUL fname raw heap G val g par npar
        = eval_f_xspec_fun float OP fname raw (fn_sub G) val g param 1 ADDMUL ∧
      con_fn float OP fname raw heap G val g par npar
        = eval_f_xspec_fun float OP fname raw (fn_sub G) val g param 1 OP) ∧
    (∀ g0 nl x, g = some g0 → g0.notice_list = some nl →
      make_d_xspec_grid raw g = some x →
      (∃ p : Xspec_Param_t,
        (add_F OP ADDMUL fname raw heap G val g par npar).calls = [p] ∧
        (∀ j : Int, 0 ≤ j → j + 1 < npar → p.param j = par (j + 1)) ∧
        (add_F OP ADDMUL fname raw heap G val g par npar).ret = 0 ∧
        ∀ j : Nat, (j : Int) < g0.n_notice →
          (add_F OP ADDMUL fname raw heap G val g par npar).val (g0.n_notice - 1 - j)
            = (if npar = 0 then 0 else par 0) *
              (F_sub G p).photar.getD ((keep_positions x.keep x.nbins).getD j 0).toNat 0) ∧
      (∃ p : Xspec_Param_t,
        (add_C OP ADDMUL fname raw heap init GC val g par npar).calls = [p] ∧
        (∀ j : Int, 0 ≤ j → j + 1 < npar → p.param j = par (j + 1)) ∧
        (add_C OP ADDMUL fname raw heap init GC val g par npar).ret = 0 ∧
        ∀ j : Nat, (j : Int) < g0.n_notice →
          (add_C OP ADDMUL fname raw heap init GC val g par npar).val (g0.n_notice - 1 - j)
            = (if npar = 0 then 0 else par 0) *
              (C_sub init GC p).photar.getD
                ((keep_positions x.keep x.nbins).getD j 0).toNat 0)) := by
  have hadd := add_param_spec id heap par npar
  have haddf := add_param_spec float heap par npar
  refine ⟨⟨_, _, hadd, rfl⟩, ⟨_, _, hadd, rfl⟩, ⟨_, _, haddf, rfl⟩, ⟨_, _, haddf, rfl⟩,
    rfl, rfl, rfl, rfl, ⟨_, mul_param_spec float heap par npar, rfl, rfl, rfl, rfl⟩, ?_⟩
  intro g0 nl x hg hnl hbuilt
  rw [hg] at hbuilt ⊢
  unfold make_d_xspec_grid at hbuilt
  obtain ⟨hnorm, hparam⟩ := hadd
  constructor
  · obtain ⟨p, h1, h2, _, _, h3, h4, _⟩ := EVAL_XF_values id OP fname raw (F_sub G) val g0 nl
      (fun j => (add_param id heap par npar).getD (j + 1).toNat 0)
      ((add_param id heap par npar).getD 0 0) ADDMUL x hnl hbuilt
    refine ⟨p, h1, ?_, h3, ?_⟩
    · intro j hj0 hj1
      rw [h2]
      exact hparam j hj0 hj1
    · intro j hj
      refine (h4 j hj).trans ?_
      rw [hnorm]
      rfl
  · obtain ⟨p, h1, h2, _, _, h3, h4, _⟩ := EVAL_XF_values id OP fname raw (C_sub init GC) val g0 nl
      (fun j => (add_param id heap par npar).getD (j + 1).toNat 0)
      ((add_param id heap par npar).getD 0 0) ADDMUL x hnl hbuilt
    refine ⟨p, h1, ?_, h3, ?_⟩
    · intro j hj0 hj1
      rw [h2]
      exact hparam j hj0 hj1
    · intro j hj
      refine (h4 j hj).trans ?_
      rw [hnorm]
      rfl

/-- Seeding followed by unpacking with normalization 1, around a routine that
leaves the result buffer as it is, restores `val`. -/
theorem EVAL_XF_roundtrip (op : Int) (fname : Option String) (raw : Raw_Memory)
    (fn : Xspec_Fun_t) (val : Int → ℚ) (g : Isis_Hist_t) (nl : Int → Int) (param : Int → ℚ)
    (x : Xspec_Info_Type) (hnl : g.notice_list = some nl)
    (hbuilt : MAKE_XG id raw (some g) = some x) (hfn : ∀ p, (fn p).photar = p.photar) :
    (EVAL_XF id op fname raw fn val (some g) param 1 op).ret = 0 ∧
    (EVAL_XF id op fname raw fn val (some g) param 1 op).val = val ∧
    ∃ p, (EVAL_XF id op fname raw fn val (some g) param 1 op).calls = [p] := by
  obtain ⟨p, hp, _, _, _, heval⟩ := EVAL_XF_some id op fname raw fn val g param 1 op x hbuilt
  obtain ⟨_, h2, h3, h4⟩ := unpack_built id raw g nl x hnl hbuilt (fn p).photar 1 val
  obtain ⟨_, s2, _, _⟩ := seed_built id raw g nl x hnl hbuilt val
  rw [heval]
  simp only [h2, if_true]
  refine ⟨trivial, ?_, p, rfl⟩
  funext m
  by_cases hm : m < 0 ∨ g.n_notice ≤ m
  · exact h4 m hm
  · have hm0 : 0 ≤ m := by omega
    have hm1 : m < g.n_notice := by omega
    have hj : (((g.n_notice - 1 - m).toNat : Nat) : Int) < g.n_notice := by omega
    have e : g.n_notice - 1 - (((g.n_notice - 1 - m).toNat : Nat) : Int) = m := by omega
    have h3' := h3 (g.n_notice - 1 - m).toNat hj
    have s2' := s2 (g.n_notice - 1 - m).toNat hj
    rw [e] at h3' s2'
    rw [h3', hfn p, hp, if_pos rfl, s2']
    simp

/-- C30: on a grid that the double-precision translator builds, with or without
gaps, a call of category `ISIS_FUN_OPERATOR` with normalization 1 around a
routine that leaves the result buffer as it is invokes the routine once,
returns 0 and leaves `val` as it was; so do the hooks `con_F` and `con_C`. -/
theorem convolution_roundtrip (ISIS_FUN_OPERATOR : Int) (fname : Option String)
    (raw : Raw_Memory) (val : Int → ℚ) (g : Isis_Hist_t) (nl : Int → Int)
    (x : Xspec_Info_Type) (hnl : g.notice_list = some nl)
    (hbuilt : make_d_xspec_grid raw (some g) = some x) :
    (∀ (fn : Xspec_Fun_t) (param : Int → ℚ), (∀ p, (fn p).photar = p.photar) →
      (eval_d_xspec_fun ISIS_FUN_OPERATOR fname raw fn val (some g) param 1
        ISIS_FUN_OPERATOR).ret = 0 ∧
      (eval_d_xspec_fun ISIS_FUN_OPERATOR fname raw fn val (some g) param 1
        ISIS_FUN_OPERATOR).val = val ∧
      ∃ p, (eval_d_xspec_fun ISIS_FUN_OPERATOR fname raw fn val (some g) param 1
        ISIS_FUN_OPERATOR).calls = [p]) ∧
    (∀ (G : Option Xspec_Fun_t) (par : Int → ℚ) (npar : Nat),
      (∀ p, (F_sub G p).photar = p.photar) →
      (con_F ISIS_FUN_OPERATOR fname raw G val (some g) par npar).ret = 0 ∧
      (con_F ISIS_FUN_OPERATOR fname raw G val (some g) par npar).val = val) ∧
    (∀ (init : Option String) (GC : Option (Option String → Xspec_Fun_t)) (par : Int → ℚ)
      (npar : Nat), (∀ p, (C_sub init GC p).photar = p.photar) →
      (con_C ISIS_FUN_OPERATOR fname raw init GC val (some g) par npar).ret = 0 ∧
      (con_C ISIS_FUN_OPERATOR fname raw init GC val (some g) par npar).val = val) := by
  unfold make_d_xspec_grid at hbuilt
  refine ⟨?_, ?_, ?_⟩
  · intro fn param hfn
    exact EVAL_XF_roundtrip ISIS_FUN_OPERATOR fname raw fn val g nl param x hnl hbuilt hfn
  · intro G par npar hfn
    obtain ⟨h1, h2, _⟩ := EVAL_XF_roundtrip ISIS_FUN_OPERATOR fname raw (F_sub G) val g nl par
      x hnl hbuilt hfn
    exact ⟨h1, h2⟩
  · intro init GC par npar hfn
    obtain ⟨h1, h2, _⟩ := EVAL_XF_roundtrip ISIS_FUN_OPERATOR fname raw (C_sub init GC) val g nl
      par x hnl hbuilt hfn
    exact ⟨h1, h2⟩

/-- Witness for C30: the grid with two gaps and `con_F` without a routine behind
`Generic_Fptr`. -/
theorem convolution_roundtrip_witness :
    example_gapped.notice_list = some (fun i => 2 * i) ∧
    make_d_xspec_grid example_raw (some example_gapped)
      = some (grid_spec id example_gapped (fun i => 2 * i)) ∧
    (con_F 2 none example_raw none example_par (some example_gapped) (fun _ => 0) 0).ret = 0 ∧
    (con_F 2 none example_raw none example_par (some example_gapped) (fun _ => 0) 0).val
      = example_par :=
  ⟨rfl, example_gapped_built id example_raw,
    (convolution_roundtrip 2 none example_raw example_par example_gapped (fun i => 2 * i) _ rfl
      (example_gapped_built id example_raw)).2.1 none (fun _ => 0) 0 (fun _ => rfl)⟩

/-! ## The scenario of "gauss" -/

theorem example_pair_shape (type : ℚ → ℚ) :
    (grid_spec type example_pair id).keep = [1, 1] ∧
    (grid_spec type example_pair id).nbins = 2 ∧
    (grid_spec type example_pair id).photar = [0, 0] := by
  have hall : ∀ i ∈ loop_range 1 example_pair.n_notice,
      pair_diff example_pair id i < double_mul TOL (pair_avg example_pair id i) := by
    intro i hi
    obtain ⟨h1, h2⟩ := (mem_loop_range _ _ _).mp hi
    have h2' : i < 2 := h2
    interval_cases i
    decide!
  have hk := emitted_all_match type example_pair id _ hall
  have hlen : (loop_range 1 example_pair.n_notice).length = 1 := by
    rw [loop_range_length]
    rfl
  rw [hlen] at hk
  have hkeep : (grid_spec type example_pair id).keep = [1, 1] := by
    simp only [grid_spec, List.map_cons, hk]
    rfl
  obtain ⟨s1, s2, _⟩ := grid_spec_shape type example_pair id
  rw [hkeep] at s1 s2
  exact ⟨hkeep, s1, s2⟩

theorem example_par_values :
    example_par 0 = 1.5 ∧ example_par 1 = 0.2 ∧ example_par 2 = 5 ∧
    (loop_range 0 ((3 : Nat) : Int)).map example_par = [1.5, 0.2, 5.0] := by
  refine ⟨rfl, rfl, ?_, ?_⟩
  · show ([1.5, 0.2, 5.0] : List ℚ).getD 2 0 = 5
    norm_num
  · simp [loop_range, example_par, List.range_succ]

/-- The additive hook `add_F` on the grid with the edges 1, 2, 3 and the
parameters 1.5, 0.2, 5.0: one invocation on two bins with the parameter vector
0.2, 5.0; the two noticed bins get 1.5 times the routine's values. -/
theorem add_F_example (OP ADDMUL : Int) (fname : Option String) (raw : Raw_Memory)
    (heap : Nat → ℚ) (fcn : Xspec_Fun_t) (val : Int → ℚ) :
    ∃ p : Xspec_Param_t,
      (add_F OP ADDMUL fname raw heap (some fcn) val (some example_pair) example_par 3).calls
        = [p] ∧
      p.param 0 = 0.2 ∧ p.param 1 = 5 ∧ p.ne = 2 ∧ (ADDMUL ≠ OP → p.photar = [0, 0]) ∧
      (add_F OP ADDMUL fname raw heap (some fcn) val (some example_pair) example_par 3).ret
        = 0 ∧
      (add_F OP ADDMUL fname raw heap (some fcn) val (some example_pair) example_par 3).val 1
        = 1.5 * (fcn p).photar.getD 0 0 ∧
      (add_F OP ADDMUL fname raw heap (some fcn) val (some example_pair) example_par 3).val 0
        = 1.5 * (fcn p).photar.getD 1 0 ∧
      ∀ m : Int, m < 0 ∨ 2 ≤ m →
        (add_F OP ADDMUL fname raw heap (some fcn) val (some example_pair) example_par 3).val m
          = val m := by
  obtain ⟨hnorm, hparam⟩ := add_param_spec id heap example_par 3
  obtain ⟨k1, k2, k3⟩ := example_pair_shape id
  obtain ⟨e0, e1, e2, _⟩ := example_par_values
  obtain ⟨p, h1, h2, h3, h4, h5, h6, h7⟩ := EVAL_XF_values id OP fname raw (F_sub (some fcn)) val
    example_pair id (fun j => (add_param id heap example_par 3).getD (j + 1).toNat 0)
    ((add_param id heap example_par 3).getD 0 0) ADDMUL _ rfl (example_pair_built id raw)
  rw [k1, k2] at h6
  rw [k2] at h3
  rw [k3] at h4
  have hpos : keep_positions [1, 1] 2 = [0, 1] := by decide
  rw [hpos, hnorm] at h6
  have v1 := h6 0 (by decide)
  have v0 := h6 1 (by decide)
  refine ⟨p, h1, ?_, ?_, h3, h4, h5, ?_, ?_, h7⟩
  · rw [h2]
    have := hparam 0 (by decide) (by decide)
    rw [this]
    exact e1
  · rw [h2]
    have := hparam 1 (by decide) (by decide)
    rw [this]
    exact e2
  · refine v1.trans ?_
    rw [if_neg (by decide)]
    simp only [id, e0]
    rfl
  · refine v0.trans ?_
    rw [if_neg (by decide)]
    simp only [id, e0]
    rfl

/-- C26, as the code has it: for "gauss" with the parameters "center", "width",
"Norm" the norm index 2 is recorded; `sl_bin_eval` on a descriptor that is not
an operator makes one script call with the grid and the whole parameter vector
and applies no factor; the additive hook `add_F` on the grid with the edges
1, 2, 3 and the parameters 1.5, 0.2, 5.0 invokes the routine once on two bins
with the parameter vector 0.2, 5.0, returns 0 and stores for the two noticed
bins `par[0] = 1.5` times the routine's values, leaving the rest of `val`. -/
theorem additive_evaluation_norm (OP ADDMUL : Int) (fname : Option String) (raw : Raw_Memory)
    (heap : Nat → ℚ) (fcn : Xspec_Fun_t) (val : Int → ℚ) (pop : Int → Option (List ℚ))
    (exec : Sl_Bin_Call → Int) :
    set_slangfun_norms example_gauss = { ret := 0, num_norms := 1, norm_indexes := some [2] } ∧
    (∀ (ff : Fit_Fun_t) (g : Isis_Hist_t) (par : Int → ℚ), ff.category ≠ OP →
      (sl_bin_eval OP pop exec ff g par).calls
        = [{ fn := ff.fun_sl, g := g, par := (loop_range 0 ff.nparams).map par, arg := none }]) ∧
    (loop_range 0 example_gauss_fun.nparams).map example_par = [1.5, 0.2, 5.0] ∧
    ∃ p : Xspec_Param_t,
      (add_F OP ADDMUL fname raw heap (some fcn) val (some example_pair) example_par 3).calls
        = [p] ∧
      p.param 0 = 0.2 ∧ p.param 1 = 5 ∧ p.ne = 2 ∧
      (add_F OP ADDMUL fname raw heap (some fcn) val (some example_pair) example_par 3).ret
        = 0 ∧
      (add_F OP ADDMUL fname raw heap (some fcn) val (some example_pair) example_par 3).val 1
        = 1.5 * (fcn p).photar.getD 0 0 ∧
      (add_F OP ADDMUL fname raw heap (some fcn) val (some example_pair) example_par 3).val 0
        = 1.5 * (fcn p).photar.getD 1 0 ∧
      ∀ m : Int, m < 0 ∨ 2 ≤ m →
        (add_F OP ADDMUL fname raw heap (some fcn) val (some example_pair) example_par 3).val m
          = val m := by
  refine ⟨by decide, ?_, example_par_values.2.2.2, ?_⟩
  · intro ff g par hcat
    simp only [sl_bin_eval, if_neg hcat]
    split_ifs <;> rfl
  · obtain ⟨p, h1, h2, h3, h4, _, h6, h7, h8, h9⟩ :=
      add_F_example OP ADDMUL fname raw heap fcn val
    exact ⟨p, h1, h2, h3, h4, h6, h7, h8, h9⟩

/-- Counterexample for C26: with a routine that stores 42 in every bin, `add_F`
on the grid with the edges 1, 2, 3 and the parameters 1.5, 0.2, 5.0 stores
1.5 * 42 = 63 for both noticed bins, not 5.0 * 42 = 210, although the norm index
detected for "center", "width", "Norm" is 2 and `par[2] = 5.0`. -/
theorem norm_index_not_applied_counterexample :
    set_slangfun_norms example_gauss = { ret := 0, num_norms := 1, norm_indexes := some [2] } ∧
    example_par 2 = 5 ∧
    (add_F 2 1 none example_raw (fun _ => 0) (some example_routine) (fun _ => 0)
      (some example_pair) example_par 3).val 0 = 63 ∧
    (add_F 2 1 none example_raw (fun _ => 0) (some example_routine) (fun _ => 0)
      (some example_pair) example_par 3).val 1 = 63 ∧
    (63 : ℚ) ≠ 5 * 42 := by
  obtain ⟨p, _, _, _, _, h5, _, h7, h8, _⟩ :=
    add_F_example 2 1 none example_raw (fun _ => 0) example_routine (fun _ => 0)
  have hp := h5 (by decide)
  refine ⟨by decide, example_par_values.2.2.1, ?_, ?_, by norm_num⟩
  · rw [h8]
    simp only [example_routine, hp]
    norm_num
  · rw [h7]
    simp only [example_routine, hp]
    norm_num

/-! ## Crash containment: claim -/

/-- When the call of `SLsignal` that installs `sig_segv` succeeds and the one
that installs the handler found before fails, `call_xspec_fun` prints the
warning and returns with `sig_segv` still installed. -/
theorem call_xspec_fun_reset_fails :
    (call_xspec_fun (fun f => decide (f = SLSig_Fun_Type.sig_segv)) Routine_Run.returns
      example_process).calls
      = [Sys_Call.SLsignal SIGSEGV SLSig_Fun_Type.sig_segv, Sys_Call.routine,
          Sys_Call.SLsignal SIGSEGV SLSig_Fun_Type.SIG_DFL,
          Sys_Call.fprintf_stderr "warning:  failed to re-set signal handler\n"] ∧
    (call_xspec_fun (fun f => decide (f = SLSig_Fun_Type.sig_segv)) Routine_Run.returns
      example_process).handler = SLSig_Fun_Type.sig_segv := by
  constructor <;> rfl

/-- C27: in a process where `Signal_In_Progress` is 0 and the calls of
`SLsignal` succeed, a `SIGSEGV` raised while the external routine runs inside
`call_xspec_fun` makes the installed handler `sig_segv` write `msg` to the
error stream with `write`, install `SIG_DFL` and call `exit (EXIT_FAILURE)`:
the process has exited and nothing after the call of the routine is executed
in `call_xspec_fun`.  After a call that returns, the handler that was
installed before the call is installed again, control is where it was and
`Signal_In_Progress` is still 0. -/
theorem call_xspec_fun_contains_fault (ok : SLSig_Fun_Type → Bool) (s : Process)
    (hinst : ok SLSig_Fun_Type.sig_segv = true) (hdfl : ok SLSig_Fun_Type.SIG_DFL = true)
    (hold : ok s.handler = true) (hflag : s.Signal_In_Progress = 0)
    (hh : s.handler ≠ SLSig_Fun_Type.SIG_ERR) :
    (call_xspec_fun ok Routine_Run.faults s).calls
      = s.calls ++ [Sys_Call.SLsignal SIGSEGV SLSig_Fun_Type.sig_segv, Sys_Call.routine,
          Sys_Call.write STDERR_FILENO sig_segv_msg (sig_segv_msg.length + 1),
          Sys_Call.SLsignal SIGSEGV SLSig_Fun_Type.SIG_DFL, Sys_Call.exit EXIT_FAILURE] ∧
    (call_xspec_fun ok Routine_Run.faults s).handler = SLSig_Fun_Type.SIG_DFL ∧
    (call_xspec_fun ok Routine_Run.faults s).control = Control.exited EXIT_FAILURE ∧
    (call_xspec_fun ok Routine_Run.returns s).calls
      = s.calls ++ [Sys_Call.SLsignal SIGSEGV SLSig_Fun_Type.sig_segv, Sys_Call.routine,
          Sys_Call.SLsignal SIGSEGV s.handler] ∧
    (call_xspec_fun ok Routine_Run.returns s).handler = s.handler ∧
    (call_xspec_fun ok Routine_Run.returns s).control = s.control ∧
    (call_xspec_fun ok Routine_Run.returns s).Signal_In_Progress = 0 := by
  have hne : ¬ SLSig_Fun_Type.SIG_ERR = s.handler := fun h => hh h.symm
  refine ⟨?_, ?_, ?_, ?_, ?_, ?_, ?_⟩ <;>
    simp [call_xspec_fun, raise_SIGSEGV, sig_segv, SLsignal, hinst, hdfl, hold, hflag, hne, hh]

/-- Witness for C27: a process with the default action installed, in which
every call of `SLsignal` succeeds. -/
theorem call_xspec_fun_contains_fault_witness :
    example_process.Signal_In_Progress = 0 ∧
    example_process.handler ≠ SLSig_Fun_Type.SIG_ERR ∧
    (call_xspec_fun (fun _ => true) Routine_Run.faults example_process).calls
      = example_process.calls ++
        [Sys_Call.SLsignal SIGSEGV SLSig_Fun_Type.sig_segv, Sys_Call.routine,
          Sys_Call.write STDERR_FILENO sig_segv_msg (sig_segv_msg.length + 1),
          Sys_Call.SLsignal SIGSEGV SLSig_Fun_Type.SIG_DFL, Sys_Call.exit EXIT_FAILURE] ∧
    (call_xspec_fun (fun _ => true) Routine_Run.faults example_process).handler
      = SLSig_Fun_Type.SIG_DFL ∧
    (call_xspec_fun (fun _ => true) Routine_Run.faults example_process).control
      = Control.exited EXIT_FAILURE ∧
    (call_xspec_fun (fun _ => true) Routine_Run.returns example_process).calls
      = example_process.calls ++
        [Sys_Call.SLsignal SIGSEGV SLSig_Fun_Type.sig_segv, Sys_Call.routine,
          Sys_Call.SLsignal SIGSEGV example_process.handler] ∧
    (call_xspec_fun (fun _ => true) Routine_Run.returns example_process).handler
      = example_process.handler ∧
    (call_xspec_fun (fun _ => true) Routine_Run.returns example_process).control
      = example_process.control ∧
    (call_xspec_fun (fun _ => true) Routine_Run.returns example_process).Signal_In_Progress
      = 0 :=
  ⟨rfl, by decide,
    call_xspec_fun_contains_fault (fun _ => true) example_process rfl rfl rfl rfl (by decide)⟩

end Isis
